import Mathlib

/-!
# Citrus Expense Tracker Server — balance-consistency core, shallow embedding

This file embeds the balance-consistency core of the finance routes
(`src/routes/financeRoutes.js`) of the Citrus expense-tracker backend:
the Mongo-backed ledger store (Account / Transaction collections) and the
mutation endpoints that adjust account balances — create transaction,
update transaction, delete transaction (single / bulk / all), transfer,
duplicate-account cleanup, and sync import.

Modelling conventions:
* Mongo ObjectIds are modelled as `Nat` identifiers; the store carries a
  `nextId` counter standing for fresh ObjectId generation.
* JS numbers holding monetary values are modelled as exact integers `Int`
  (idealising IEEE doubles by exact arithmetic, as the spec treats amounts
  and balances as exact signed decimals).
* Dates are opaque `Nat` timestamps.
* A Mongoose `findOne` is `List.find?` over the collection in store order;
  `document.save()` writes back the document keyed by its `_id`;
  `updateOne` with `$inc` increments the matching document's balance.
  In Mongo `_id` values are unique per collection; the well-formedness
  predicate `WF` records this (`Nodup` of ids) together with freshness of
  `nextId`.
* Display-only fields (`color`, `cardNumber`, `cardHolder` on accounts)
  are not modelled: no balance logic reads them.
* Request-shape validation (missing fields, non-numeric amounts) happens
  in middleware outside this core; typed request records stand for
  already-parsed request bodies. String trimming and length caps are not
  modelled.
* The Account schema (`src/models/Account.js`) enforces
  `min: [0, 'Balance cannot be negative']` on `balance`, and `save()`
  validates; the error handler maps a Mongoose `ValidationError` to 400.
  So every balance write through `save()` fails when the resulting
  balance is negative — modelled as an `invalidArgument` result with
  exactly the writes that had already persisted. `bulkWrite` with `$inc`
  (bulk delete / delete all) bypasses validators. The finance routes
  never modify account names or types, so the balance bound is the only
  operative `save()` validator here.
* The Transaction schema defines no `balanceAt` field; Mongoose strict
  mode silently strips the routes' `balanceAt` writes, so stored and
  returned transactions carry no such field and none is modelled.
-/

/-- Transaction type enum: `type ∈ {income, expense}` (Transaction schema). -/
inductive TxType where
  | income
  | expense
deriving DecidableEq, Repr

/-- An Account document: `{ user, name, balance, type, createdAt }`
(`src/models/Account.js`; timestamps enabled, so `createdAt` is stored). -/
structure Account where
  id : Nat
  user : Nat
  name : String
  balance : Int
  accType : String
  createdAt : Nat
deriving DecidableEq, Repr

/-- A Transaction document:
`{ user, accountId, amount, type, category, description, date }`
(Transaction schema; it defines no `balanceAt` field, and strict mode
strips the routes' `balanceAt` assignments). -/
structure Transaction where
  id : Nat
  user : Nat
  accountId : Nat
  amount : Int
  type : TxType
  category : String
  description : String
  date : Nat
deriving DecidableEq, Repr

/-- The ledger store: the Account and Transaction collections plus the
fresh-id counter standing for ObjectId generation. -/
structure Store where
  nextId : Nat
  accounts : List Account
  transactions : List Transaction
deriving DecidableEq, Repr

/-- Error kinds surfaced by the routes: 404 (`NotFound`),
400 (`InvalidArgument`, covering Mongoose `ValidationError`), and the
sync endpoint's catch-all 500 (`ServerError`). -/
inductive ApiError where
  | notFound
  | invalidArgument
  | serverError
deriving DecidableEq, Repr

instance {ε α : Type} [DecidableEq ε] [DecidableEq α] :
    DecidableEq (Except ε α)
  | .error e, .error f =>
    if h : e = f then isTrue (by rw [h])
    else isFalse (by intro hh; cases hh; exact h rfl)
  | .error _, .ok _ => isFalse (by intro hh; cases hh)
  | .ok _, .error _ => isFalse (by intro hh; cases hh)
  | .ok a, .ok b =>
    if h : a = b then isTrue (by rw [h])
    else isFalse (by intro hh; cases hh; exact h rfl)

/-- `Account.findOne({ _id: aid, user: uid })`. -/
def findAccount (s : Store) (aid uid : Nat) : Option Account :=
  s.accounts.find? (fun a => a.id == aid && a.user == uid)

/-- `Transaction.findOne({ _id: txId, user: uid })`. -/
def findTransaction (s : Store) (txId uid : Nat) : Option Transaction :=
  s.transactions.find? (fun t => t.id == txId && t.user == uid)

/-- `account.save()`: write back a (fetched and modified) Account document,
keyed by its `_id`. -/
def saveAccount (s : Store) (a : Account) : Store :=
  { s with accounts := s.accounts.map (fun b => if b.id = a.id then a else b) }

/-- Signed contribution of a transaction to its account's balance:
`+amount` for income, `-amount` for expense. -/
def signedAmount (t : Transaction) : Int :=
  match t.type with
  | .income => t.amount
  | .expense => -t.amount

/-- The reversal delta of a transaction: the increment that undoes its
original effect (`-amount` for income, `+amount` for expense), as computed
in the bulk-delete / delete-all aggregation loops. -/
def txAdjustment (t : Transaction) : Int :=
  match t.type with
  | .income => -t.amount
  | .expense => t.amount

/-! ## POST /transactions — create transaction (financeRoutes.js 190-216) -/

/-- Parsed body of `POST /transactions` (after `validateTransaction`). -/
structure TxCreateReq where
  accountId : Nat
  amount : Int
  type : TxType
  category : String
  description : String
  date : Nat
deriving DecidableEq, Repr

/-- `POST /transactions`: verify the account belongs to the caller (else
404), adjust the account balance by the signed amount, then run
`transaction.save()` and `account.save()` in a `Promise.all`. The
transaction (already validated by `validateTransaction`) always
persists; the account save additionally runs the schema's `min: 0`
balance validator, so an adjustment driving the balance negative throws
a `ValidationError` (400) with the transaction persisted alone. The
route's `balanceAt` assignment is stripped by the strict schema. -/
def createTransaction (s : Store) (uid : Nat) (req : TxCreateReq) :
    Store × Except ApiError Transaction :=
  match findAccount s req.accountId uid with
  | none => (s, .error .notFound)
  | some account =>
    let newBalance :=
      match req.type with
      | .income => account.balance + req.amount
      | .expense => account.balance - req.amount
    let tx : Transaction :=
      { id := s.nextId, user := uid, accountId := req.accountId,
        amount := req.amount, type := req.type, category := req.category,
        description := req.description, date := req.date }
    let s1 : Store :=
      { s with nextId := s.nextId + 1,
               transactions := s.transactions ++ [tx] }
    if 0 ≤ newBalance then
      (saveAccount s1 { account with balance := newBalance }, .ok tx)
    else
      (s1, .error .invalidArgument)

/-! ## POST /transfer — paired transactions (financeRoutes.js 219-273) -/

/-- Parsed body of `POST /transfer`; `date` and `description` are optional
(the route defaults them to `new Date()` / a generated description). -/
structure TransferReq where
  sourceAccountId : Nat
  targetAccountId : Nat
  amount : Int
  date : Option Nat
  description : Option String
deriving DecidableEq, Repr

/-- `POST /transfer`: reject non-positive amounts and identical
source/target (400); 404 unless both accounts are caller-owned; create
the expense and income transactions (category `"Transfer"`; both
`Transaction.create` calls always succeed — amount positive, category
non-empty — and the `balanceAt` writes are stripped by the schema); then
save both accounts in a `Promise.all`: each save persists exactly when
its new balance passes the `min: 0` validator, and the call reports 400
if either fails, with the transactions already persisted.
`now` stands for the server clock read `new Date()`. -/
def transfer (s : Store) (uid : Nat) (req : TransferReq) (now : Nat) :
    Store × Except ApiError (Transaction × Transaction) :=
  if req.amount ≤ 0 then (s, .error .invalidArgument)
  else if req.sourceAccountId == req.targetAccountId then
    (s, .error .invalidArgument)
  else
    match findAccount s req.sourceAccountId uid,
          findAccount s req.targetAccountId uid with
    | some sourceAccount, some targetAccount =>
      let srcBal := sourceAccount.balance - req.amount
      let tgtBal := targetAccount.balance + req.amount
      let expenseTx : Transaction :=
        { id := s.nextId, user := uid, accountId := req.sourceAccountId,
          amount := req.amount, type := .expense, category := "Transfer",
          description := req.description.getD
            ("Transfer to " ++ targetAccount.name),
          date := req.date.getD now }
      let incomeTx : Transaction :=
        { id := s.nextId + 1, user := uid, accountId := req.targetAccountId,
          amount := req.amount, type := .income, category := "Transfer",
          description := req.description.getD
            ("Transfer from " ++ sourceAccount.name),
          date := req.date.getD now }
      let s1 : Store :=
        { s with nextId := s.nextId + 2,
                 transactions := s.transactions ++ [expenseTx, incomeTx] }
      let s2 := if 0 ≤ srcBal then
          saveAccount s1 { sourceAccount with balance := srcBal } else s1
      let s3 := if 0 ≤ tgtBal then
          saveAccount s2 { targetAccount with balance := tgtBal } else s2
      if 0 ≤ srcBal ∧ 0 ≤ tgtBal then (s3, .ok (expenseTx, incomeTx))
      else (s3, .error .invalidArgument)
    | _, _ => (s, .error .notFound)

/-! ## PUT /transactions/:id — update transaction (financeRoutes.js 275-321) -/

/-- Parsed body of `PUT /transactions/:id`: every updatable field is
optional; absent fields are left unchanged by `findByIdAndUpdate`. -/
structure TxUpdateReq where
  accountId : Option Nat
  amount : Option Int
  type : Option TxType
  category : Option String
  description : Option String
  date : Option Nat
deriving DecidableEq, Repr

/-- Merge an update body into a transaction document, as
`findByIdAndUpdate` does field-wise. -/
def applyUpdate (t : Transaction) (r : TxUpdateReq) : Transaction :=
  { t with accountId := r.accountId.getD t.accountId,
           amount := r.amount.getD t.amount,
           type := r.type.getD t.type,
           category := r.category.getD t.category,
           description := r.description.getD t.description,
           date := r.date.getD t.date }

/-- Replace the first list element satisfying `p` by `f` of it
(`findByIdAndUpdate` matches a single document by `_id`). -/
def updateFirst (p : α → Bool) (f : α → α) : List α → List α
  | [] => []
  | x :: xs => if p x then f x :: xs else x :: updateFirst p f xs

/-- The balance of `a` with the effect of `t` reverted
(income → subtract amount, expense → add it back). -/
def revertBalance (a : Account) (t : Transaction) : Int :=
  match t.type with
  | .income => a.balance - t.amount
  | .expense => a.balance + t.amount

/-- `PUT /transactions/:id`: load the old transaction (404 if absent or
not caller-owned) and its current account; revert the old effect on that
in-memory account; apply the field updates via `findByIdAndUpdate`
(which runs no validators and always persists the mutation); resolve the
target account (re-fetch when the account id changed, else the same
in-memory object); apply the forward delta of the updated values to the
target and save it, then save the original account when distinct; when
the target does not resolve, save just the reversal. Each `save()` runs
the `min: 0` balance validator: a failure lands in the route's catch
(400) with the transaction already mutated and only the saves that had
already succeeded persisted. -/
def updateTransaction (s : Store) (uid txId : Nat) (req : TxUpdateReq) :
    Store × Except ApiError Transaction :=
  match findTransaction s txId uid with
  | none => (s, .error .notFound)
  | some oldTx =>
    -- the in-memory original account, with the old effect reverted
    let account? := (findAccount s oldTx.accountId uid).map
      (fun a => { a with balance := revertBalance a oldTx })
    -- findByIdAndUpdate(req.params.id, req.body, { new: true })
    let updated? := (s.transactions.find? (fun t => t.id == txId)).map
      (fun t => applyUpdate t req)
    let txs1 :=
      updateFirst (fun t => t.id == txId) (fun t => applyUpdate t req)
        s.transactions
    let s1 : Store := { s with transactions := txs1 }
    match updated? with
    | none => (s, .error .invalidArgument)
    | some updatedTx =>
      -- req.body.accountId && req.body.accountId !== oldTx.accountId
      let target? : Option Account :=
        match req.accountId with
        | some aid =>
          if aid = oldTx.accountId then account?
          else findAccount s aid uid
        | none => account?
      match target? with
      | some tgt =>
        let newBal :=
          match updatedTx.type with
          | .income => tgt.balance + updatedTx.amount
          | .expense => tgt.balance - updatedTx.amount
        if 0 ≤ newBal then
          let s2 := saveAccount s1 { tgt with balance := newBal }
          match account? with
          | some acc1 =>
            if acc1.id ≠ tgt.id then
              if 0 ≤ acc1.balance then (saveAccount s2 acc1, .ok updatedTx)
              else (s2, .error .invalidArgument)
            else (s2, .ok updatedTx)
          | none => (s2, .ok updatedTx)
        else (s1, .error .invalidArgument)
      | none =>
        match account? with
        | some acc1 =>
          if 0 ≤ acc1.balance then (saveAccount s1 acc1, .ok updatedTx)
          else (s1, .error .invalidArgument)
        | none => (s1, .ok updatedTx)

/-! ## DELETE /transactions/:id — single delete (financeRoutes.js 477-493) -/

/-- `DELETE /transactions/:id`: `findOneAndDelete({_id, user})`; when a
transaction was deleted and its account still exists (caller-owned),
revert the transaction's effect on the balance and `save()`. The route
responds `Transaction deleted` (success) whether or not a transaction
was found — there is no 404 path — but when the reversal drives the
balance negative the save fails the `min: 0` validator and the catch
responds 400, with the transaction already deleted and no reversal
persisted. -/
def deleteTransaction (s : Store) (uid txId : Nat) :
    Store × Except ApiError Unit :=
  match findTransaction s txId uid with
  | none => (s, .ok ())
  | some tx =>
    let txs1 := s.transactions.eraseP (fun t => t.id == txId && t.user == uid)
    let s1 : Store := { s with transactions := txs1 }
    match findAccount s tx.accountId uid with
    | some account =>
      let newBal := revertBalance account tx
      if 0 ≤ newBal then
        (saveAccount s1 { account with balance := newBal }, .ok ())
      else (s1, .error .invalidArgument)
    | none => (s1, .ok ())

/-! ## DELETE /transactions/bulk-delete (financeRoutes.js 324-380)
and DELETE /transactions/delete-all (383-429) -/

/-- One step of the JS aggregation loop: add `d` into the running
adjustment object under key `aid`
(`balanceAdjustments[accountId] += / -= tx.amount`). The association list
keeps JS-object key insertion order. -/
def addAdjustment (l : List (Nat × Int)) (aid : Nat) (d : Int) :
    List (Nat × Int) :=
  match l with
  | [] => [(aid, d)]
  | (k, v) :: rest =>
    if k = aid then (k, v + d) :: rest
    else (k, v) :: addAdjustment rest aid d

/-- The `balanceAdjustments` object built by the bulk-delete /
delete-all loops: per distinct account, the summed reversal delta. -/
def aggregateAdjustments (txs : List Transaction) : List (Nat × Int) :=
  txs.foldl (fun acc t => addAdjustment acc t.accountId (txAdjustment t)) []

/-- One `updateOne` of the `Account.bulkWrite`:
`{ filter: { _id: aid, user: uid }, update: { $inc: { balance: d } } }`. -/
def applyInc (s : Store) (aid uid : Nat) (d : Int) : Store :=
  let accs := s.accounts.map (fun a =>
    if a.id == aid && a.user == uid then { a with balance := a.balance + d }
    else a)
  { s with accounts := accs }

/-- `Account.bulkWrite(bulkOps)`: apply every aggregated increment. -/
def applyBulkOps (s : Store) (uid : Nat) (ops : List (Nat × Int)) : Store :=
  ops.foldl (fun st p => applyInc st p.1 uid p.2) s

/-- Does a transaction match `{ _id: { $in: ids }, user: uid }`? -/
def matchesIds (ids : List Nat) (uid : Nat) (t : Transaction) : Bool :=
  ids.contains t.id && t.user == uid

/-- `DELETE /transactions/bulk-delete`: 400 on an empty id list; fetch the
matching caller-owned transactions (404 when none); aggregate the reversal
deltas per account; apply one atomic `$inc` per affected account via
`bulkWrite`; delete all matching transactions; report the count. -/
def bulkDeleteTransactions (s : Store) (uid : Nat) (ids : List Nat) :
    Store × Except ApiError Nat :=
  if ids.isEmpty then (s, .error .invalidArgument)
  else
    let matched := s.transactions.filter (matchesIds ids uid)
    if matched.isEmpty then (s, .error .notFound)
    else
      let s1 := applyBulkOps s uid (aggregateAdjustments matched)
      let txs2 := s1.transactions.filter (fun t => !(matchesIds ids uid t))
      ({ s1 with transactions := txs2 }, .ok matched.length)

/-- `DELETE /transactions/delete-all`: like bulk-delete but over every
transaction of the caller; succeeds with count 0 when there are none. -/
def deleteAllTransactions (s : Store) (uid : Nat) :
    Store × Except ApiError Nat :=
  let matched := s.transactions.filter (fun t => t.user == uid)
  if matched.isEmpty then (s, .ok 0)
  else
    let s1 := applyBulkOps s uid (aggregateAdjustments matched)
    let txs2 := s1.transactions.filter (fun t => !(t.user == uid))
    ({ s1 with transactions := txs2 }, .ok matched.length)

/-! ## DELETE /accounts/cleanup — duplicate-account cleanup
(financeRoutes.js 127-160) -/

/-- The caller's accounts as returned by
`Account.find({ user }).sort({ createdAt: 1 })` (oldest first). -/
def sortedUserAccounts (s : Store) (uid : Nat) : List Account :=
  (s.accounts.filter (fun a => a.user == uid)).mergeSort
    (fun a b => a.createdAt ≤ b.createdAt)

/-- The keys of the JS `grouped` object: each distinct account name, in
key insertion order, i.e. ordered by first occurrence in the sorted
scan. -/
def firstNames : List Account → List String
  | [] => []
  | a :: rest =>
    let ns := firstNames rest
    a.name :: ns.filter (fun n => n ≠ a.name)

/-- `grouped[name]`: the accounts of one name group, in scan order. -/
def nameGroup (l : List Account) (n : String) : List Account :=
  l.filter (fun a => a.name == n)

/-- The `_id`s deleted by the cleanup loop: for every name group with more
than one member, every member after the first (oldest kept). -/
def cleanupRemovedIds (l : List Account) : List Nat :=
  (firstNames l).foldr (fun n acc =>
    (match nameGroup l n with
     | [] => []
     | _ :: rest => rest.map (fun a => a.id)) ++ acc) []

/-- The affected names reported by cleanup: every name whose group has
more than one member. -/
def cleanupAffectedNames (l : List Account) : List String :=
  (firstNames l).filter (fun n => 1 < (nameGroup l n).length)

/-- `DELETE /accounts/cleanup`: group the caller's accounts by name in
creation-time ascending order; for every group with more than one member
keep the oldest and `deleteMany` the rest, cascading `deleteMany` of the
transactions referencing the removed ids; report the removed count and
the affected names. -/
def cleanupAccounts (s : Store) (uid : Nat) :
    Store × (Nat × List String) :=
  let sorted := sortedUserAccounts s uid
  let removedIds := cleanupRemovedIds sorted
  let accs := s.accounts.filter (fun a => !(removedIds.contains a.id))
  let txs := s.transactions.filter (fun t => !(removedIds.contains t.accountId))
  ({ s with accounts := accs, transactions := txs },
   (removedIds.length, cleanupAffectedNames sorted))

/-! ## POST /sync — import local data (financeRoutes.js 41-124) -/

/-- A client-local account in a sync batch (`acc.id` is the client-local
identifier). -/
structure SyncAccount where
  localId : Nat
  name : String
  balance : Int
  accType : String
deriving DecidableEq, Repr

/-- A client-local transaction in a sync batch (`accountId` refers to the
client-local account id). -/
structure SyncTx where
  accountId : Nat
  amount : Int
  type : TxType
  category : String
  description : String
  date : Nat
  balanceAt : Int
deriving DecidableEq, Repr

/-- `Account.create` validation as operative for a synced account: the
schema requires a (non-empty) name and type and a non-negative balance;
a failure throws, landing in the sync route's catch (500). -/
def syncAccountValid (a : SyncAccount) : Bool :=
  !(a.name == "") && !(a.accType == "") && 0 ≤ a.balance

/-- `Transaction.create` validation as operative for a synced
transaction: amount at least 0.01 (positive, in exact-arithmetic terms)
and a non-empty category; `date` has a schema default and `description`
is optional. A failure throws, landing in the sync route's catch (500).
The client-sent `balanceAt` is stripped by the strict schema. -/
def syncTxValid (t : SyncTx) : Bool :=
  0 < t.amount && !(t.category == "")

/-- JS-object assignment `accountMap[localId] = dbId` (overwrite on
repeated key). -/
def setAssoc (m : List (Nat × Nat)) (k v : Nat) : List (Nat × Nat) :=
  match m with
  | [] => [(k, v)]
  | (k', v') :: rest =>
    if k' = k then (k', v) :: rest else (k', v') :: setAssoc rest k v

/-- Phase 1 of sync: for each local account in batch order, find a caller
account with the same name, else create one (`now` stands for the
creation timestamp); record `accountMap[localId] = store id`. `m` is the
map accumulated so far. A failing `Account.create` validation aborts the
sync mid-batch (`.error` carries the store with the accounts created so
far persisted). -/
def syncAccountsPhase (s : Store) (uid now : Nat) (m : List (Nat × Nat)) :
    List SyncAccount → Except Store (Store × List (Nat × Nat))
  | [] => .ok (s, m)
  | acc :: rest =>
    match s.accounts.find? (fun a => a.user == uid && a.name == acc.name) with
    | some target =>
      syncAccountsPhase s uid now (setAssoc m acc.localId target.id) rest
    | none =>
      if syncAccountValid acc then
        let created : Account :=
          { id := s.nextId, user := uid, name := acc.name,
            balance := acc.balance, accType := acc.accType, createdAt := now }
        let s1 : Store :=
          { s with nextId := s.nextId + 1, accounts := s.accounts ++ [created] }
        syncAccountsPhase s1 uid now (setAssoc m acc.localId created.id) rest
      else .error s

/-- Phase 2 of sync: insert each transaction whose local account
reference resolves through the map; silently drop the rest. Returns the
new store and the count of inserted transactions. A failing
`Transaction.create` validation aborts the sync mid-batch; the inserted
records carry no `balanceAt` (the schema strips it). -/
def syncTxPhase (s : Store) (uid : Nat) (m : List (Nat × Nat)) :
    List SyncTx → Except Store (Store × Nat)
  | [] => .ok (s, 0)
  | tx :: rest =>
    match m.lookup tx.accountId with
    | some realAccountId =>
      if syncTxValid tx then
        let created : Transaction :=
          { id := s.nextId, user := uid, accountId := realAccountId,
            amount := tx.amount, type := tx.type, category := tx.category,
            description := tx.description, date := tx.date }
        let s1 : Store :=
          { s with nextId := s.nextId + 1,
                   transactions := s.transactions ++ [created] }
        match syncTxPhase s1 uid m rest with
        | .ok (s2, n) => .ok (s2, n + 1)
        | .error s2 => .error s2
      else .error s
    | none => syncTxPhase s uid m rest

/-- `POST /sync`: build the local-to-store account map (reuse by name or
create), then insert every transaction whose account reference resolves;
respond with the map size (`syncedAccounts`) and the number of inserted
transactions (`newTransactions`). Any `create` validation failure lands
in the route's own catch, which responds 500 with the records persisted
so far left in place. Account-type syncing (pure classification data, no
balance coupling) is outside the modelled core. -/
def syncImport (s : Store) (uid now : Nat)
    (accounts : List SyncAccount) (transactions : List SyncTx) :
    Store × Except ApiError (Nat × Nat) :=
  match syncAccountsPhase s uid now [] accounts with
  | .error s1 => (s1, .error .serverError)
  | .ok (s1, m) =>
    match syncTxPhase s1 uid m transactions with
    | .error s2 => (s2, .error .serverError)
    | .ok (s2, n) => (s2, .ok (m.length, n))

/-! ## Invariants and the operation alphabet -/

/-- Well-formedness of the store, holding of every Mongo-backed state:
`_id`s are unique per collection, and the fresh-id counter exceeds every
transaction id. -/
def WF (s : Store) : Prop :=
  (s.accounts.map (fun a => a.id)).Nodup ∧
  (s.transactions.map (fun t => t.id)).Nodup ∧
  ∀ t ∈ s.transactions, t.id < s.nextId

/-- The sum, over all transactions referencing account id `aid`, of the
signed amount (+amount income, -amount expense) — the derivable balance
as the spec words it. -/
def txSum (txs : List Transaction) (aid : Nat) : Int :=
  ((txs.filter (fun t => t.accountId == aid)).map signedAmount).sum

/-- The same sum restricted to transactions owned by the account's owner. -/
def ownerTxSum (txs : List Transaction) (a : Account) : Int :=
  ((txs.filter (fun t => t.accountId == a.id && t.user == a.user)).map
    signedAmount).sum

/-- The balance invariant exactly as the spec states it: every stored
balance equals the signed sum over all transactions referencing the
account. -/
def SpecBalanceInv (s : Store) : Prop :=
  ∀ a ∈ s.accounts, a.balance = txSum s.transactions a.id

/-- The owner-scoped balance invariant: every stored balance equals the
signed sum over the transactions of the account's own user referencing
it. -/
def BalanceInv (s : Store) : Prop :=
  ∀ a ∈ s.accounts, a.balance = ownerTxSum s.transactions a

/-- The transaction-mutating operation alphabet of the balance engine. -/
inductive Op where
  | createTx (uid : Nat) (req : TxCreateReq)
  | updateTx (uid txId : Nat) (req : TxUpdateReq)
  | deleteTx (uid txId : Nat)
  | bulkDelete (uid : Nat) (ids : List Nat)
  | deleteAll (uid : Nat)
  | doTransfer (uid : Nat) (req : TransferReq) (now : Nat)
deriving Repr

/-- Keep an operation's resulting store only when it reported success;
an unsuccessful operation is discarded (the invariant claim quantifies
over sequences of operations that complete successfully, and failed
operations generally leave partially-mutated stores outside its scope). -/
def keepIfOk {α : Type} (s : Store) (r : Store × Except ApiError α) :
    Store :=
  match r.2 with
  | .ok _ => r.1
  | .error _ => s

theorem keepIfOk_of_ok {α : Type} (s : Store)
    (r : Store × Except ApiError α) (u : α) (h : r.2 = .ok u) :
    keepIfOk s r = r.1 := by
  simp only [keepIfOk, h]

theorem keepIfOk_of_error {α : Type} (s : Store)
    (r : Store × Except ApiError α) (e : ApiError)
    (h : r.2 = .error e) : keepIfOk s r = s := by
  simp only [keepIfOk, h]

/-- The store after one successfully completed operation (an operation
that reports an error is not counted as part of the sequence). -/
def applyOp (s : Store) : Op → Store
  | .createTx uid req => keepIfOk s (createTransaction s uid req)
  | .updateTx uid txId req => keepIfOk s (updateTransaction s uid txId req)
  | .deleteTx uid txId => keepIfOk s (deleteTransaction s uid txId)
  | .bulkDelete uid ids => keepIfOk s (bulkDeleteTransactions s uid ids)
  | .deleteAll uid => keepIfOk s (deleteAllTransactions s uid)
  | .doTransfer uid req now => keepIfOk s (transfer s uid req now)

/-- The store after a sequence of operations. -/
def applyOps (s : Store) (ops : List Op) : Store :=
  ops.foldl applyOp s

instance (s : Store) : Decidable (SpecBalanceInv s) := by
  unfold SpecBalanceInv; infer_instance

instance (s : Store) : Decidable (BalanceInv s) := by
  unfold BalanceInv; infer_instance

instance (s : Store) : Decidable (WF s) := by
  unfold WF; infer_instance

/-! ## Generic collection lemmas -/

/-- In a collection with unique keys, a predicate that pins the key down
to the key of a member `a` that satisfies it finds exactly `a`. -/
theorem find_eq_some_of_key_unique {α : Type} (key : α → Nat) (p : α → Bool)
    (l : List α) (hnd : (l.map key).Nodup) (a : α) (ha : a ∈ l)
    (hpa : p a = true) (hkey : ∀ b, p b = true → key b = key a) :
    l.find? p = some a := by
  induction l with
  | nil => cases ha
  | cons x xs ih =>
    rw [List.map_cons, List.nodup_cons] at hnd
    rcases List.mem_cons.1 ha with rfl | hmem
    · exact List.find?_cons_of_pos _ hpa
    · by_cases hx : p x = true
      · exact absurd (hkey x hx ▸ List.mem_map_of_mem key hmem) hnd.1
      · rw [List.find?_cons_of_neg _ (by simpa using hx)]
        exact ih hnd.2 hmem

/-- Two members of a unique-key collection with the same key are equal. -/
theorem eq_of_key_eq {α : Type} (key : α → Nat) (l : List α)
    (hnd : (l.map key).Nodup) {a b : α} (ha : a ∈ l) (hb : b ∈ l)
    (h : key a = key b) : a = b :=
  List.inj_on_of_nodup_map hnd ha hb h

/-- Mapping a function that fixes every member leaves a list unchanged. -/
theorem map_eq_self_of_fix {α : Type} {f : α → α} {l : List α}
    (h : ∀ x ∈ l, f x = x) : l.map f = l := by
  induction l with
  | nil => rfl
  | cons x xs ih =>
    rw [List.map_cons, h x (List.mem_cons_self x xs),
      ih (fun y hy => h y (List.mem_cons_of_mem x hy))]

/-- The `accounts` component of `saveAccount`, spelt out. -/
theorem saveAccount_accounts (s : Store) (a : Account) :
    (saveAccount s a).accounts =
      s.accounts.map (fun b => if b.id = a.id then a else b) := rfl

/-- Saving a modified document keeps every document with a different id. -/
theorem mem_saveAccount_of_ne (s : Store) (a b : Account)
    (hb : b ∈ s.accounts) (hne : b.id ≠ a.id) :
    b ∈ (saveAccount s a).accounts := by
  rw [saveAccount_accounts]
  exact List.mem_map.2 ⟨b, hb, by simp [hne]⟩

/-- Saving a document whose id is the id of a member puts it in the
collection. -/
theorem mem_saveAccount_self (s : Store) (a c : Account)
    (hc : c ∈ s.accounts) (hid : c.id = a.id) :
    a ∈ (saveAccount s a).accounts := by
  rw [saveAccount_accounts]
  exact List.mem_map.2 ⟨c, hc, by simp [hid]⟩

theorem saveAccount_ids (s : Store) (a : Account) :
    (saveAccount s a).accounts.map (fun x => x.id) =
      s.accounts.map (fun x => x.id) := by
  rw [saveAccount_accounts, List.map_map]
  apply List.map_congr_left
  intro b hb
  by_cases h : b.id = a.id
  · simp [Function.comp, h]
  · simp [Function.comp, h]

theorem saveAccount_wf (s : Store) (a : Account) (hwf : WF s) :
    WF (saveAccount s a) :=
  ⟨by rw [saveAccount_ids]; exact hwf.1, hwf.2.1, hwf.2.2⟩


/-- `updateFirst` leaves the list unchanged when the update fixes every
element that could be matched. -/
theorem updateFirst_eq_self {α : Type} {p : α → Bool} {f : α → α}
    {l : List α} (h : ∀ x ∈ l, p x = true → f x = x) : updateFirst p f l = l := by
  induction l with
  | nil => rfl
  | cons x xs ih =>
    cases hx : p x with
    | true => simp [updateFirst, hx, h x (List.mem_cons_self x xs) hx]
    | false =>
      simp only [updateFirst, hx, Bool.false_eq_true, if_false]
      rw [ih (fun y hy hpy => h y (List.mem_cons_of_mem x hy) hpy)]

/-- An existing caller-owned account is found by the ownership lookup. -/
theorem findAccount_eq_some (s : Store) (uid : Nat) (acc : Account)
    (hwf : WF s) (hacc : acc ∈ s.accounts) (huser : acc.user = uid) :
    findAccount s acc.id uid = some acc := by
  apply find_eq_some_of_key_unique (fun a => a.id) _ _ hwf.1 acc hacc
  · simp [huser]
  · intro b hb
    simp only [Bool.and_eq_true, beq_iff_eq] at hb
    exact hb.1

/-- No account matches the ownership lookup when no stored account has
the requested id and owner. -/
theorem findAccount_eq_none (s : Store) (aid uid : Nat)
    (h : ∀ a ∈ s.accounts, ¬(a.id = aid ∧ a.user = uid)) :
    findAccount s aid uid = none := by
  rw [findAccount, List.find?_eq_none]
  intro a ha
  simp only [Bool.and_eq_true, beq_iff_eq, not_and]
  intro h1 h2
  exact h a ha ⟨h1, h2⟩

/-- An existing caller-owned transaction is found by the ownership
lookup. -/
theorem findTransaction_eq_some (s : Store) (uid : Nat) (tx : Transaction)
    (hwf : WF s) (htx : tx ∈ s.transactions) (huser : tx.user = uid) :
    findTransaction s tx.id uid = some tx := by
  apply find_eq_some_of_key_unique (fun t => t.id) _ _ hwf.2.1 tx htx
  · simp [huser]
  · intro b hb
    simp only [Bool.and_eq_true, beq_iff_eq] at hb
    exact hb.1

/-- No transaction matches the ownership lookup when no stored
transaction has the requested id and owner. -/
theorem findTransaction_eq_none (s : Store) (txId uid : Nat)
    (h : ∀ t ∈ s.transactions, ¬(t.id = txId ∧ t.user = uid)) :
    findTransaction s txId uid = none := by
  rw [findTransaction, List.find?_eq_none]
  intro t ht
  simp only [Bool.and_eq_true, beq_iff_eq, not_and]
  intro h1 h2
  exact h t ht ⟨h1, h2⟩

/-! ## C2 — create transaction -/

/-- C2 (amended: the Transaction schema defines no `balanceAt` field, so
nothing is stamped on the stored or returned transaction, and the
account save runs the `min: 0` balance validator): when the referenced
account exists and is caller-owned, the transaction is persisted and the
balance is adjusted by `+amount` (income) or `-amount` (expense); when
the adjusted balance is non-negative the updated account persists and
the transaction is returned; when it would be negative the account save
fails validation and the call reports 400 with the transaction persisted
alone and the accounts untouched; when the account is absent or not
caller-owned it fails with NotFound. -/
theorem createTransaction_spec (s : Store) (uid : Nat) (req : TxCreateReq)
    (hwf : WF s) :
    (∀ acc ∈ s.accounts, acc.id = req.accountId → acc.user = uid →
      ∃ tx : Transaction,
        tx.user = uid ∧ tx.accountId = req.accountId ∧
        tx.amount = req.amount ∧ tx.type = req.type ∧
        (createTransaction s uid req).1.transactions =
          s.transactions ++ [tx] ∧
        (0 ≤ (match req.type with
              | .income => acc.balance + req.amount
              | .expense => acc.balance - req.amount) →
          (createTransaction s uid req).2 = .ok tx ∧
          { acc with balance :=
              (match req.type with
               | .income => acc.balance + req.amount
               | .expense => acc.balance - req.amount) } ∈
            (createTransaction s uid req).1.accounts ∧
          ∀ b ∈ s.accounts, b.id ≠ req.accountId →
            b ∈ (createTransaction s uid req).1.accounts) ∧
        ((match req.type with
          | .income => acc.balance + req.amount
          | .expense => acc.balance - req.amount) < 0 →
          createTransaction s uid req =
            ({ s with nextId := s.nextId + 1,
                      transactions := s.transactions ++ [tx] },
             .error .invalidArgument))) ∧
    ((∀ a ∈ s.accounts, ¬(a.id = req.accountId ∧ a.user = uid)) →
      createTransaction s uid req = (s, .error .notFound)) := by
  constructor
  · intro acc hacc h1 h2
    have hfind : findAccount s req.accountId uid = some acc := by
      rw [← h1]; exact findAccount_eq_some s uid acc hwf hacc h2
    refine ⟨{ id := s.nextId, user := uid, accountId := req.accountId,
              amount := req.amount, type := req.type,
              category := req.category, description := req.description,
              date := req.date },
            rfl, rfl, rfl, rfl, ?_, ?_, ?_⟩
    · by_cases hpos : 0 ≤ (match req.type with
          | .income => acc.balance + req.amount
          | .expense => acc.balance - req.amount)
      · simp [createTransaction, hfind, if_pos hpos, saveAccount]
      · simp [createTransaction, hfind, if_neg hpos]
    · intro hpos
      refine ⟨?_, ?_, ?_⟩
      · simp [createTransaction, hfind, if_pos hpos]
      · simp only [createTransaction, hfind, if_pos hpos]
        exact mem_saveAccount_self _ _ acc hacc rfl
      · intro b hb hbne
        simp only [createTransaction, hfind, if_pos hpos]
        exact mem_saveAccount_of_ne _ _ b hb (by simpa [h1] using hbne)
    · intro hneg
      have hpos : ¬ 0 ≤ (match req.type with
          | .income => acc.balance + req.amount
          | .expense => acc.balance - req.amount) := not_le.2 hneg
      simp [createTransaction, hfind, if_neg hpos]
  · intro h
    simp [createTransaction, findAccount_eq_none s req.accountId uid h]

/-! ## Concrete fixtures used by the witnesses -/

/-- A caller-owned account with balance 100. -/
def wVault : Account :=
  { id := 1, user := 1, name := "Vault", balance := 100, accType := "cash",
    createdAt := 10 }

/-- A second caller-owned account with balance 0. -/
def wSavings : Account :=
  { id := 2, user := 1, name := "Savings", balance := 0, accType := "cash",
    createdAt := 11 }

/-- The income transaction backing the balance of `wVault`. -/
def wIncomeTx : Transaction :=
  { id := 10, user := 1, accountId := 1, amount := 100, type := .income,
    category := "Salary", description := "", date := 50 }

/-- A small well-formed store whose balances match their transactions. -/
def wStore : Store :=
  { nextId := 20, accounts := [wVault, wSavings], transactions := [wIncomeTx] }

/-- An expense-creation request against `wVault`. -/
def wCreateReq : TxCreateReq :=
  { accountId := 1, amount := 25, type := .expense, category := "Food",
    description := "", date := 60 }

/-- A transaction whose `accountId` (7) references no stored account. -/
def wOrphanTx : Transaction :=
  { id := 11, user := 1, accountId := 7, amount := 40, type := .expense,
    category := "Misc", description := "", date := 55 }

/-- A store containing a dangling transaction (account 7 was deleted). -/
def wOrphanStore : Store :=
  { nextId := 20, accounts := [wVault, wSavings],
    transactions := [wIncomeTx, wOrphanTx] }

/-- Witness for C2: on the concrete store, creating a 25 expense on the
balance-100 account succeeds, persisting the transaction and the account
at balance 75. -/
theorem createTransaction_spec_witness :
    WF wStore ∧
    ∃ tx : Transaction,
      (createTransaction wStore 1 wCreateReq).2 = .ok tx ∧
      { wVault with balance := 75 } ∈
        (createTransaction wStore 1 wCreateReq).1.accounts := by
  refine ⟨by decide, ?_⟩
  obtain ⟨tx, hu, haid, hamt, hty, htxs, hok, herr⟩ :=
    (createTransaction_spec wStore 1 wCreateReq (by decide)).1 wVault
      (by decide) rfl rfl
  obtain ⟨h2, h3, _⟩ := hok (by decide)
  exact ⟨tx, h2, h3⟩

/-- An account with balance 50, for the C2 overdraft counterexample. -/
def c2Acct : Account :=
  { id := 1, user := 1, name := "Cash", balance := 50,
    accType := "cash", createdAt := 0 }

/-- Store for the C2 counterexample. -/
def c2Store : Store :=
  { nextId := 20, accounts := [c2Acct], transactions := [] }

/-- An expense request exceeding the stored balance. -/
def c2Req : TxCreateReq :=
  { accountId := 1, amount := 80, type := .expense, category := "Food",
    description := "", date := 0 }

/-- C2 counterexample to the literal claim: an expense exceeding the
balance does not succeed — `account.save()` fails the `min: 0`
validator and the route answers 400 — while its `Promise.all` sibling
`transaction.save()` has already persisted the transaction, and no
balance changes. -/
theorem createTransaction_overdraft_counterexample :
    (createTransaction c2Store 1 c2Req).2 = .error .invalidArgument ∧
    (createTransaction c2Store 1 c2Req).1.transactions.length = 1 ∧
    (createTransaction c2Store 1 c2Req).1.accounts =
      c2Store.accounts := by decide

/-! ## C5 — single delete of an absent transaction -/

/-- C5 is false as stated: deleting an absent transaction id does not
fail with NotFound; the route reports success and changes nothing. -/
theorem deleteTransaction_notFound_counterexample :
    findTransaction wStore 99 1 = none ∧
    deleteTransaction wStore 1 99 = (wStore, .ok ()) ∧
    (deleteTransaction wStore 1 99).2 ≠ .error .notFound := by decide

/-- C5 (amended): single delete never fails with NotFound. An absent or
foreign transaction id is a no-op success; an existing caller-owned
transaction is always removed (`findOneAndDelete` runs before any
balance work), its effect is reverted on a still-existing owning account
when the reverted balance passes the `min: 0` validator, and when the
reversal would drive the balance negative the save fails and the route
reports 400 with the transaction already deleted and no balance
change. -/
theorem deleteTransaction_spec (s : Store) (uid txId : Nat) :
    (deleteTransaction s uid txId).2 ≠ .error .notFound ∧
    ((∀ t ∈ s.transactions, ¬(t.id = txId ∧ t.user = uid)) →
      deleteTransaction s uid txId = (s, .ok ())) ∧
    (∀ tx, findTransaction s txId uid = some tx →
      (deleteTransaction s uid txId).1.transactions =
        s.transactions.eraseP (fun t => t.id == txId && t.user == uid) ∧
      (∀ acc, findAccount s tx.accountId uid = some acc →
        (0 ≤ revertBalance acc tx →
          (deleteTransaction s uid txId).2 = .ok () ∧
          { acc with balance := revertBalance acc tx } ∈
            (deleteTransaction s uid txId).1.accounts) ∧
        (revertBalance acc tx < 0 →
          (deleteTransaction s uid txId).2 = .error .invalidArgument ∧
          (deleteTransaction s uid txId).1.accounts = s.accounts)) ∧
      (findAccount s tx.accountId uid = none →
        (deleteTransaction s uid txId).2 = .ok () ∧
        (deleteTransaction s uid txId).1.accounts = s.accounts)) := by
  refine ⟨?_, ?_, ?_⟩
  · cases hf : findTransaction s txId uid with
    | none => simp [deleteTransaction, hf]
    | some tx =>
      cases hacc : findAccount s tx.accountId uid with
      | none => simp [deleteTransaction, hf, hacc]
      | some a =>
        by_cases hb : 0 ≤ revertBalance a tx
        · simp [deleteTransaction, hf, hacc, if_pos hb]
        · simp [deleteTransaction, hf, hacc, if_neg hb]
  · intro h
    simp [deleteTransaction, findTransaction_eq_none s txId uid h]
  · intro tx hf
    refine ⟨?_, ?_, ?_⟩
    · cases hacc : findAccount s tx.accountId uid with
      | none => simp [deleteTransaction, hf, hacc]
      | some a =>
        by_cases hb : 0 ≤ revertBalance a tx
        · simp [deleteTransaction, hf, hacc, if_pos hb, saveAccount]
        · simp [deleteTransaction, hf, hacc, if_neg hb]
    · intro acc hacc
      constructor
      · intro hb
        refine ⟨by simp [deleteTransaction, hf, hacc, if_pos hb], ?_⟩
        simp only [deleteTransaction, hf, hacc, if_pos hb]
        exact mem_saveAccount_self _ _ acc
          (List.mem_of_find?_eq_some hacc) rfl
      · intro hb
        have hb2 : ¬ 0 ≤ revertBalance acc tx := not_le.2 hb
        exact ⟨by simp [deleteTransaction, hf, hacc, if_neg hb2],
          by simp [deleteTransaction, hf, hacc, if_neg hb2]⟩
    · intro hacc
      exact ⟨by simp [deleteTransaction, hf, hacc],
        by simp [deleteTransaction, hf, hacc]⟩

/-- Witness for C5 (amended): deleting id 99, which is absent from the
concrete store, does not answer NotFound; it reports success and leaves
the store unchanged. -/
theorem deleteTransaction_spec_witness :
    (deleteTransaction wStore 1 99).2 ≠ .error .notFound ∧
    deleteTransaction wStore 1 99 = (wStore, .ok ()) := by
  obtain ⟨h1, h2, _⟩ := deleteTransaction_spec wStore 1 99
  exact ⟨h1, h2 (by decide)⟩

/-! ## C6 — delete with a vanished account -/

/-- Erasing the unique match of `p` from a duplicate-free list removes
exactly that element. -/
theorem eraseP_unique_match {α : Type} {p : α → Bool} {l : List α} {x : α}
    (hnd : l.Nodup) (hx : x ∈ l) (hpx : p x = true)
    (huniq : ∀ y ∈ l, p y = true → y = x) :
    x ∉ l.eraseP p ∧ ∀ y ∈ l, y ≠ x → y ∈ l.eraseP p := by
  induction l with
  | nil => cases hx
  | cons a as ih =>
    rw [List.nodup_cons] at hnd
    by_cases hpa : p a = true
    · have hax : a = x := huniq a (List.mem_cons_self a as) hpa
      rw [List.eraseP_cons_of_pos hpa]
      subst hax
      refine ⟨hnd.1, fun y hy hne => ?_⟩
      rcases List.mem_cons.1 hy with rfl | hmem
      · exact absurd rfl hne
      · exact hmem
    · have hpa' : ¬ p a := by simpa using hpa
      rw [List.eraseP_cons_of_neg hpa']
      have hxas : x ∈ as := by
        rcases List.mem_cons.1 hx with rfl | hmem
        · exact absurd hpx hpa
        · exact hmem
      have hih := ih hnd.2 hxas
        (fun y hy hpy => huniq y (List.mem_cons_of_mem a hy) hpy)
      refine ⟨?_, fun y hy hne => ?_⟩
      · intro hmem
        rcases List.mem_cons.1 hmem with rfl | hmem2
        · exact hpa hpx
        · exact hih.1 hmem2
      · rcases List.mem_cons.1 hy with rfl | hmem2
        · exact List.mem_cons_self _ _
        · exact List.mem_cons_of_mem a (hih.2 y hmem2 hne)

/-- C6: deleting an existing caller-owned transaction whose account no
longer exists removes the transaction record, adjusts no balance, and
reports success. -/
theorem deleteTransaction_missing_account (s : Store) (uid : Nat)
    (tx : Transaction) (hwf : WF s) (htx : tx ∈ s.transactions)
    (huser : tx.user = uid)
    (hgone : ∀ a ∈ s.accounts, a.id ≠ tx.accountId) :
    (deleteTransaction s uid tx.id).2 = .ok () ∧
    (deleteTransaction s uid tx.id).1.accounts = s.accounts ∧
    tx ∉ (deleteTransaction s uid tx.id).1.transactions ∧
    ∀ t ∈ s.transactions, t ≠ tx →
      t ∈ (deleteTransaction s uid tx.id).1.transactions := by
  have hf : findTransaction s tx.id uid = some tx :=
    findTransaction_eq_some s uid tx hwf htx huser
  have hacc : findAccount s tx.accountId uid = none :=
    findAccount_eq_none s tx.accountId uid
      (fun a ha h => hgone a ha h.1)
  have hred : deleteTransaction s uid tx.id =
      ({ s with transactions :=
          s.transactions.eraseP (fun t => t.id == tx.id && t.user == uid) },
       .ok ()) := by
    simp [deleteTransaction, hf, hacc]
  have hmem := eraseP_unique_match (x := tx)
    (p := fun t => t.id == tx.id && t.user == uid)
    (hwf.2.1.of_map) htx (by simp [huser])
    (fun y hy hpy => by
      simp only [Bool.and_eq_true, beq_iff_eq] at hpy
      exact eq_of_key_eq (fun t => t.id) s.transactions hwf.2.1 hy htx hpy.1)
  refine ⟨by rw [hred], by rw [hred], by rw [hred]; exact hmem.1,
    fun t ht hne => by rw [hred]; exact hmem.2 t ht hne⟩

/-- Witness for C6: in a store holding a transaction whose account id (7)
matches no account, deleting it succeeds, keeps all accounts, and removes
the record. -/
theorem deleteTransaction_missing_account_witness :
    (deleteTransaction wOrphanStore 1 11).2 = .ok () ∧
    (deleteTransaction wOrphanStore 1 11).1.accounts =
      wOrphanStore.accounts ∧
    wOrphanTx ∉ (deleteTransaction wOrphanStore 1 11).1.transactions := by
  obtain ⟨h1, h2, h3, _⟩ := deleteTransaction_missing_account wOrphanStore 1
    wOrphanTx (by decide) (by decide) rfl (by decide)
  exact ⟨h1, h2, h3⟩

/-! ## C7 — no-op update -/

/-- A transaction found by `_id` alone in a unique-key collection. -/
theorem findById_eq_some (s : Store) (tx : Transaction) (hwf : WF s)
    (htx : tx ∈ s.transactions) :
    s.transactions.find? (fun t => t.id == tx.id) = some tx := by
  apply find_eq_some_of_key_unique (fun t => t.id) _ _ hwf.2.1 tx htx
  · simp
  · intro b hb
    simpa using hb

/-- Updating the unique match of `p` keeps every other element and puts
the updated element in the list. -/
theorem updateFirst_unique_match {α : Type} {p : α → Bool} {f : α → α}
    {l : List α} {x : α} (hx : x ∈ l) (hpx : p x = true)
    (huniq : ∀ y ∈ l, p y = true → y = x) :
    f x ∈ updateFirst p f l ∧ ∀ y ∈ l, y ≠ x → y ∈ updateFirst p f l := by
  induction l with
  | nil => cases hx
  | cons a as ih =>
    by_cases hpa : p a = true
    · have hax : a = x := huniq a (List.mem_cons_self a as) hpa
      subst hax
      simp only [updateFirst, hpa, if_true]
      refine ⟨List.mem_cons_self _ _, fun y hy hne => ?_⟩
      rcases List.mem_cons.1 hy with rfl | hmem
      · exact absurd rfl hne
      · exact List.mem_cons_of_mem _ hmem
    · have hxas : x ∈ as := by
        rcases List.mem_cons.1 hx with rfl | hmem
        · exact absurd hpx hpa
        · exact hmem
      have hih := ih hxas
        (fun y hy hpy => huniq y (List.mem_cons_of_mem a hy) hpy)
      simp only [updateFirst]
      rw [if_neg hpa]
      refine ⟨List.mem_cons_of_mem a hih.1, fun y hy hne => ?_⟩
      rcases List.mem_cons.1 hy with rfl | hmem
      · exact List.mem_cons_self _ _
      · exact List.mem_cons_of_mem a (hih.2 y hmem hne)

/-- The update body that re-submits a transaction's own current field
values. -/
def noopReq (t : Transaction) : TxUpdateReq :=
  { accountId := some t.accountId, amount := some t.amount,
    type := some t.type, category := none, description := none,
    date := none }

/-- C7: updating an existing caller-owned transaction with its own
current amount, type and account id leaves the store — in particular the
account balance — unchanged, because the reversal and forward deltas net
on the same in-memory account before the single save. This holds whether
or not that single save passes the `min: 0` validator: when the stored
balance is negative (reachable via the validator-bypassing bulk `$inc`)
the save of the unchanged balance fails and the route answers 400, still
without changing anything; with a non-negative stored balance the call
also reports success and returns the transaction. -/
theorem updateTransaction_noop (s : Store) (uid : Nat) (tx : Transaction)
    (hwf : WF s) (htx : tx ∈ s.transactions) (huser : tx.user = uid) :
    (updateTransaction s uid tx.id (noopReq tx)).1 = s ∧
    (∀ acc, findAccount s tx.accountId uid = some acc →
      0 ≤ acc.balance →
      updateTransaction s uid tx.id (noopReq tx) = (s, .ok tx)) := by
  have hf : findTransaction s tx.id uid = some tx :=
    findTransaction_eq_some s uid tx hwf htx huser
  have hbyid : s.transactions.find? (fun t => t.id == tx.id) = some tx :=
    findById_eq_some s tx hwf htx
  have happly : applyUpdate tx (noopReq tx) = tx := by
    simp [applyUpdate, noopReq]
  have hfirst :
      updateFirst (fun t => t.id == tx.id)
        (fun t => applyUpdate t (noopReq tx)) s.transactions =
        s.transactions := by
    apply updateFirst_eq_self
    intro x hxl hpx
    have hx : x = tx :=
      eq_of_key_eq (fun t => t.id) s.transactions hwf.2.1 hxl htx
        (by simpa using hpx)
    rw [hx, happly]
  have hreqacc : (noopReq tx).accountId = some tx.accountId := rfl
  cases hacc : findAccount s tx.accountId uid with
  | none =>
    constructor
    · simp only [updateTransaction, hf, hbyid, hacc, hreqacc,
        eq_self_iff_true, if_true]
      rw [hfirst]
      simp [happly]
    · intro acc hacc2 _
      cases hacc2
  | some a =>
    have hamem : a ∈ s.accounts := List.mem_of_find?_eq_some hacc
    have hfix : ∀ b ∈ s.accounts,
        (fun c => if c.id = a.id then a else c) b = b := by
      intro b hb
      by_cases hid : b.id = a.id
      · simp [eq_of_key_eq (fun x => x.id) s.accounts hwf.1 hb hamem hid]
      · simp [hid]
    have hsave : saveAccount s a = s := by
      simp only [saveAccount]
      rw [map_eq_self_of_fix hfix]
    have hchar : updateTransaction s uid tx.id (noopReq tx) =
        if 0 ≤ a.balance then (s, Except.ok tx)
        else (s, Except.error ApiError.invalidArgument) := by
      cases hty : tx.type with
      | income =>
        simp only [updateTransaction, hf, hbyid, hacc, hreqacc,
          eq_self_iff_true, if_true]
        rw [hfirst]
        simp only [Option.map_some', happly, revertBalance, hty]
        have hb : a.balance - tx.amount + tx.amount = a.balance := by ring
        rw [hb]
        by_cases hpos : 0 ≤ a.balance
        · rw [if_pos hpos, if_pos hpos, if_neg (by simp)]
          show (saveAccount s a, Except.ok tx) = (s, Except.ok tx)
          rw [hsave]
        · rw [if_neg hpos, if_neg hpos]
      | expense =>
        simp only [updateTransaction, hf, hbyid, hacc, hreqacc,
          eq_self_iff_true, if_true]
        rw [hfirst]
        simp only [Option.map_some', happly, revertBalance, hty]
        have hb : a.balance + tx.amount - tx.amount = a.balance := by ring
        rw [hb]
        by_cases hpos : 0 ≤ a.balance
        · rw [if_pos hpos, if_pos hpos, if_neg (by simp)]
          show (saveAccount s a, Except.ok tx) = (s, Except.ok tx)
          rw [hsave]
        · rw [if_neg hpos, if_neg hpos]
    constructor
    · by_cases hpos : 0 ≤ a.balance
      · rw [hchar, if_pos hpos]
      · rw [hchar, if_neg hpos]
    · intro acc hacc2 hpos
      have he : acc = a := (Option.some.inj hacc2).symm
      rw [he] at hpos
      rw [hchar, if_pos hpos]

/-- Witness for C7: the no-op update of the concrete income transaction
leaves the concrete store intact and, the balance being non-negative,
also reports success returning the transaction unchanged. -/
theorem updateTransaction_noop_witness :
    (updateTransaction wStore 1 10 (noopReq wIncomeTx)).1 = wStore ∧
    updateTransaction wStore 1 10 (noopReq wIncomeTx) =
      (wStore, .ok wIncomeTx) := by
  obtain ⟨h1, h2⟩ := updateTransaction_noop wStore 1 wIncomeTx
    (by decide) (by decide) rfl
  exact ⟨h1, h2 wVault (by decide) (by decide)⟩

/-! ## C10 — update that re-points to a nonexistent account -/

/-- C10 (amended: the re-pointed save is validated): updating a
caller-owned transaction to an account id that matches no caller-owned
account always re-points the transaction record at the dangling id (its
amount reflected in no account, `findByIdAndUpdate` running no
validators); when the reverted balance of the original account passes
the `min: 0` validator the call reports success, returns the updated
transaction, and persists the reverted original account, leaving every
other account untouched; when the reversal would drive the balance
negative, the save fails and the route answers 400 with the transaction
already re-pointed and no account changed. -/
theorem updateTransaction_repoint_nonexistent (s : Store) (uid : Nat)
    (oldTx : Transaction) (acc : Account) (newId : Nat) (req : TxUpdateReq)
    (hwf : WF s) (htx : oldTx ∈ s.transactions) (huser : oldTx.user = uid)
    (hamem : acc ∈ s.accounts) (haccid : acc.id = oldTx.accountId)
    (haccuser : acc.user = uid)
    (hreq : req.accountId = some newId) (hne : newId ≠ oldTx.accountId)
    (hnoacc : ∀ a ∈ s.accounts, ¬(a.id = newId ∧ a.user = uid)) :
    (applyUpdate oldTx req).accountId = newId ∧
    applyUpdate oldTx req ∈
      (updateTransaction s uid oldTx.id req).1.transactions ∧
    (0 ≤ revertBalance acc oldTx →
      (updateTransaction s uid oldTx.id req).2 =
        .ok (applyUpdate oldTx req) ∧
      { acc with balance := revertBalance acc oldTx } ∈
        (updateTransaction s uid oldTx.id req).1.accounts ∧
      ∀ b ∈ s.accounts, b.id ≠ acc.id →
        b ∈ (updateTransaction s uid oldTx.id req).1.accounts) ∧
    (revertBalance acc oldTx < 0 →
      (updateTransaction s uid oldTx.id req).2 =
        .error .invalidArgument ∧
      (updateTransaction s uid oldTx.id req).1.accounts =
        s.accounts) := by
  have hf : findTransaction s oldTx.id uid = some oldTx :=
    findTransaction_eq_some s uid oldTx hwf htx huser
  have hbyid : s.transactions.find? (fun t => t.id == oldTx.id) =
      some oldTx := findById_eq_some s oldTx hwf htx
  have hacc2 : findAccount s oldTx.accountId uid = some acc := by
    rw [← haccid]; exact findAccount_eq_some s uid acc hwf hamem haccuser
  have hfnew : findAccount s newId uid = none :=
    findAccount_eq_none s newId uid hnoacc
  have hred0 : updateTransaction s uid oldTx.id req =
      (if 0 ≤ revertBalance acc oldTx then
        (saveAccount
          { s with transactions :=
              (updateFirst (fun t => t.id == oldTx.id)
                (fun t => applyUpdate t req) s.transactions) }
          { acc with balance := revertBalance acc oldTx },
         .ok (applyUpdate oldTx req))
      else
        ({ s with transactions :=
            (updateFirst (fun t => t.id == oldTx.id)
              (fun t => applyUpdate t req) s.transactions) },
         .error .invalidArgument)) := by
    simp only [updateTransaction, hf, hbyid, hacc2, hreq, hfnew,
      Option.map_some']
    rw [if_neg hne]
  have hmemtx :=
    updateFirst_unique_match (f := fun t => applyUpdate t req)
      (p := fun t => t.id == oldTx.id) htx (by simp)
      (fun y hy hpy =>
        eq_of_key_eq (fun t => t.id) s.transactions hwf.2.1 hy htx
          (by simpa using hpy))
  refine ⟨by simp [applyUpdate, hreq], ?_, ?_, ?_⟩
  · by_cases hpos : 0 ≤ revertBalance acc oldTx
    · rw [hred0, if_pos hpos]
      exact hmemtx.1
    · rw [hred0, if_neg hpos]
      exact hmemtx.1
  · intro hpos
    refine ⟨by rw [hred0, if_pos hpos], ?_, ?_⟩
    · rw [hred0, if_pos hpos]
      exact mem_saveAccount_self _ _ acc hamem rfl
    · intro b hb hbne
      rw [hred0, if_pos hpos]
      exact mem_saveAccount_of_ne _ _ b hb (by simpa using hbne)
  · intro hneg
    have hpos : ¬ 0 ≤ revertBalance acc oldTx := not_le.2 hneg
    exact ⟨by rw [hred0, if_neg hpos], by rw [hred0, if_neg hpos]⟩

/-- An update body that re-points a transaction to account id 5, which
does not exist in the concrete store. -/
def wRepointReq : TxUpdateReq :=
  { accountId := some 5, amount := none, type := none, category := none,
    description := none, date := none }

/-- Witness for C10: re-pointing the concrete income transaction at the
nonexistent account 5 succeeds (the reverted balance 0 passes
validation), reverts the original account to 0, and leaves the
transaction dangling. -/
theorem updateTransaction_repoint_witness :
    (updateTransaction wStore 1 10 wRepointReq).2 =
      .ok (applyUpdate wIncomeTx wRepointReq) ∧
    (applyUpdate wIncomeTx wRepointReq).accountId = 5 ∧
    { wVault with balance := revertBalance wVault wIncomeTx } ∈
      (updateTransaction wStore 1 10 wRepointReq).1.accounts := by
  obtain ⟨h2, _, hok, _⟩ :=
    updateTransaction_repoint_nonexistent wStore 1 wIncomeTx wVault 5
      wRepointReq (by decide) (by decide) rfl (by decide) rfl rfl rfl
      (by decide) (by decide)
  obtain ⟨h1, h4, _⟩ := hok (by decide)
  exact ⟨h1, h2, h4⟩

/-- An account whose stored balance (70) is smaller than the income
(100) booked on it, so reverting that income drives the balance
negative. -/
def c10Acct : Account :=
  { id := 1, user := 1, name := "Vault", balance := 70,
    accType := "cash", createdAt := 0 }

/-- The income transaction to be re-pointed in the C10 counterexample. -/
def c10Tx : Transaction :=
  { id := 10, user := 1, accountId := 1, amount := 100, type := .income,
    category := "Salary", description := "", date := 0 }

/-- Store for the C10 counterexample. -/
def c10Store : Store :=
  { nextId := 20, accounts := [c10Acct], transactions := [c10Tx] }

/-- C10 counterexample to the literal claim: re-pointing the income at
the nonexistent account id 5 does not report success — the reverted
balance 70 - 100 is negative, so `account.save()` fails the `min: 0`
validator and the route answers 400 — yet `findByIdAndUpdate` has
already re-pointed the transaction, and no account is changed. -/
theorem updateTransaction_repoint_counterexample :
    (updateTransaction c10Store 1 10 wRepointReq).2 =
      .error .invalidArgument ∧
    (applyUpdate c10Tx wRepointReq).accountId = 5 ∧
    (updateTransaction c10Store 1 10 wRepointReq).1.transactions =
      [applyUpdate c10Tx wRepointReq] ∧
    (updateTransaction c10Store 1 10 wRepointReq).1.accounts =
      c10Store.accounts := by decide

/-! ## C3 — transfer -/

/-- C3 (amended: stored transactions carry no `balanceAt` — the schema
has no such field — and the two account saves are validated): a
positive-amount transfer between two distinct caller-owned accounts
always persists exactly one expense transaction on the source and one
income transaction on the target, both category `"Transfer"` and amount
A (`Transaction.create` runs before the saves); when both adjusted
balances are non-negative the source decreases and the target increases
by A and the call succeeds returning the pair; when the source would be
overdrawn (and the target balance stays non-negative) the source save
fails the `min: 0` validator and the call reports 400 with both
transactions persisted and the target already incremented but the
source unchanged; identical ids fail with InvalidArgument and a missing
account fails with NotFound, in both cases without any change. -/
theorem transfer_spec (s : Store) (uid : Nat) (req : TransferReq)
    (now : Nat) (hwf : WF s) :
    (∀ src ∈ s.accounts, ∀ tgt ∈ s.accounts,
      src.id = req.sourceAccountId → src.user = uid →
      tgt.id = req.targetAccountId → tgt.user = uid →
      0 < req.amount → req.sourceAccountId ≠ req.targetAccountId →
      ∃ etx itx : Transaction,
        etx.accountId = req.sourceAccountId ∧ etx.type = .expense ∧
        etx.amount = req.amount ∧ etx.category = "Transfer" ∧
        itx.accountId = req.targetAccountId ∧ itx.type = .income ∧
        itx.amount = req.amount ∧ itx.category = "Transfer" ∧
        (transfer s uid req now).1.transactions =
          s.transactions ++ [etx, itx] ∧
        (0 ≤ src.balance - req.amount → 0 ≤ tgt.balance + req.amount →
          (transfer s uid req now).2 = .ok (etx, itx) ∧
          { src with balance := src.balance - req.amount } ∈
            (transfer s uid req now).1.accounts ∧
          { tgt with balance := tgt.balance + req.amount } ∈
            (transfer s uid req now).1.accounts ∧
          ∀ b ∈ s.accounts, b.id ≠ req.sourceAccountId →
            b.id ≠ req.targetAccountId →
            b ∈ (transfer s uid req now).1.accounts) ∧
        (src.balance - req.amount < 0 → 0 ≤ tgt.balance + req.amount →
          (transfer s uid req now).2 = .error .invalidArgument ∧
          src ∈ (transfer s uid req now).1.accounts ∧
          { tgt with balance := tgt.balance + req.amount } ∈
            (transfer s uid req now).1.accounts)) ∧
    (req.sourceAccountId = req.targetAccountId →
      transfer s uid req now = (s, .error .invalidArgument)) ∧
    (0 < req.amount → req.sourceAccountId ≠ req.targetAccountId →
      ((∀ a ∈ s.accounts, ¬(a.id = req.sourceAccountId ∧ a.user = uid)) ∨
       (∀ a ∈ s.accounts, ¬(a.id = req.targetAccountId ∧ a.user = uid))) →
      transfer s uid req now = (s, .error .notFound)) := by
  refine ⟨?_, ?_, ?_⟩
  · intro src hsrc tgt htgt hsid hsuser htid htuser hpos hne
    have hfs : findAccount s req.sourceAccountId uid = some src := by
      rw [← hsid]; exact findAccount_eq_some s uid src hwf hsrc hsuser
    have hft : findAccount s req.targetAccountId uid = some tgt := by
      rw [← htid]; exact findAccount_eq_some s uid tgt hwf htgt htuser
    have hns : ¬ req.amount ≤ 0 := by omega
    have hnb : (req.sourceAccountId == req.targetAccountId) = false := by
      simpa using hne
    have hst : src.id ≠ tgt.id := by
      rw [hsid, htid]; exact hne
    refine ⟨{ id := s.nextId, user := uid, accountId := req.sourceAccountId,
              amount := req.amount, type := .expense, category := "Transfer",
              description := req.description.getD
                ("Transfer to " ++ tgt.name),
              date := req.date.getD now },
            { id := s.nextId + 1, user := uid,
              accountId := req.targetAccountId,
              amount := req.amount, type := .income, category := "Transfer",
              description := req.description.getD
                ("Transfer from " ++ src.name),
              date := req.date.getD now },
            rfl, rfl, rfl, rfl, rfl, rfl, rfl, rfl, ?_, ?_, ?_⟩
    · by_cases hvs : 0 ≤ src.balance - req.amount <;>
        by_cases hvt : 0 ≤ tgt.balance + req.amount
      · simp only [transfer, hfs, hft, hns, hnb, if_false,
          Bool.false_eq_true, if_pos hvs, if_pos hvt,
          if_pos (And.intro hvs hvt), saveAccount]
      · simp only [transfer, hfs, hft, hns, hnb, if_false,
          Bool.false_eq_true, if_pos hvs, if_neg hvt,
          if_neg (show ¬(0 ≤ src.balance - req.amount ∧
            0 ≤ tgt.balance + req.amount) from fun h => hvt h.2),
          saveAccount]
      · simp only [transfer, hfs, hft, hns, hnb, if_false,
          Bool.false_eq_true, if_neg hvs, if_pos hvt,
          if_neg (show ¬(0 ≤ src.balance - req.amount ∧
            0 ≤ tgt.balance + req.amount) from fun h => hvs h.1),
          saveAccount]
      · simp only [transfer, hfs, hft, hns, hnb, if_false,
          Bool.false_eq_true, if_neg hvs, if_neg hvt,
          if_neg (show ¬(0 ≤ src.balance - req.amount ∧
            0 ≤ tgt.balance + req.amount) from fun h => hvs h.1),
          saveAccount]
    · intro hvs hvt
      refine ⟨?_, ?_, ?_, ?_⟩
      · simp only [transfer, hfs, hft, hns, hnb, if_false,
          Bool.false_eq_true, if_pos hvs, if_pos hvt,
          if_pos (And.intro hvs hvt)]
      · simp only [transfer, hfs, hft, hns, hnb, if_false,
          Bool.false_eq_true, if_pos hvs, if_pos hvt,
          if_pos (And.intro hvs hvt)]
        apply mem_saveAccount_of_ne
        · exact mem_saveAccount_self _ _ src hsrc rfl
        · exact hst
      · simp only [transfer, hfs, hft, hns, hnb, if_false,
          Bool.false_eq_true, if_pos hvs, if_pos hvt,
          if_pos (And.intro hvs hvt)]
        exact mem_saveAccount_self _ _ tgt
          (mem_saveAccount_of_ne _ _ tgt htgt
            (fun h => hne (htid ▸ hsid ▸ h).symm)) rfl
      · intro b hb hbs hbt
        simp only [transfer, hfs, hft, hns, hnb, if_false,
          Bool.false_eq_true, if_pos hvs, if_pos hvt,
          if_pos (And.intro hvs hvt)]
        apply mem_saveAccount_of_ne
        · apply mem_saveAccount_of_ne _ _ b hb
          show b.id ≠ src.id
          rw [hsid]; exact hbs
        · show b.id ≠ tgt.id
          rw [htid]; exact hbt
    · intro hneg hvt
      have hvs : ¬ 0 ≤ src.balance - req.amount := not_le.2 hneg
      have hnab : ¬ (0 ≤ src.balance - req.amount ∧
          0 ≤ tgt.balance + req.amount) := fun h => hvs h.1
      refine ⟨?_, ?_, ?_⟩
      · simp only [transfer, hfs, hft, hns, hnb, if_false,
          Bool.false_eq_true, if_neg hvs, if_pos hvt, if_neg hnab]
      · simp only [transfer, hfs, hft, hns, hnb, if_false,
          Bool.false_eq_true, if_neg hvs, if_pos hvt, if_neg hnab]
        exact mem_saveAccount_of_ne _ _ src hsrc hst
      · simp only [transfer, hfs, hft, hns, hnb, if_false,
          Bool.false_eq_true, if_neg hvs, if_pos hvt, if_neg hnab]
        exact mem_saveAccount_self _ _ tgt htgt rfl
  · intro heq
    by_cases hle : req.amount ≤ 0
    · simp [transfer, hle]
    · simp [transfer, hle, heq]
  · intro hpos hne hmiss
    have hns : ¬ req.amount ≤ 0 := by omega
    have hnb : (req.sourceAccountId == req.targetAccountId) = false := by
      simpa using hne
    rcases hmiss with hm | hm
    · have h0 : findAccount s req.sourceAccountId uid = none :=
        findAccount_eq_none _ _ _ hm
      cases h1 : findAccount s req.targetAccountId uid <;>
        simp [transfer, hns, hnb, h0, h1]
    · have h0 : findAccount s req.targetAccountId uid = none :=
        findAccount_eq_none _ _ _ hm
      cases h1 : findAccount s req.sourceAccountId uid <;>
        simp [transfer, hns, hnb, h0, h1]

/-- A transfer of 40 from the concrete balance-100 account to the
balance-0 account. -/
def wTransferReq : TransferReq :=
  { sourceAccountId := 1, targetAccountId := 2, amount := 40, date := none,
    description := none }

/-- Witness for C3: the concrete transfer succeeds (both adjusted
balances non-negative), moving the accounts to 60 and 40. -/
theorem transfer_spec_witness :
    ∃ etx itx : Transaction,
      (transfer wStore 1 wTransferReq 70).2 = .ok (etx, itx) ∧
      { wVault with balance := 60 } ∈
        (transfer wStore 1 wTransferReq 70).1.accounts ∧
      { wSavings with balance := 40 } ∈
        (transfer wStore 1 wTransferReq 70).1.accounts := by
  obtain ⟨etx, itx, _, _, _, _, _, _, _, _, _, hok, _⟩ :=
    (transfer_spec wStore 1 wTransferReq 70 (by decide)).1 wVault
      (by decide) wSavings (by decide) rfl rfl rfl rfl (by decide)
      (by decide)
  obtain ⟨h1, h2, h3, _⟩ := hok (by decide) (by decide)
  exact ⟨etx, itx, h1, h2, h3⟩

/-- An underfunded source: balance 50 against a 100 transfer. -/
def c3Src : Account :=
  { id := 1, user := 1, name := "Source", balance := 50,
    accType := "cash", createdAt := 0 }

/-- The transfer target of the C3 counterexample. -/
def c3Tgt : Account :=
  { id := 2, user := 1, name := "Target", balance := 0,
    accType := "cash", createdAt := 1 }

/-- Store for the C3 counterexample. -/
def c3Store : Store :=
  { nextId := 20, accounts := [c3Src, c3Tgt], transactions := [] }

/-- The overdraft transfer request of the C3 counterexample. -/
def c3Req : TransferReq :=
  { sourceAccountId := 1, targetAccountId := 2, amount := 100,
    date := none, description := none }

/-- C3 counterexample to the literal claim: a positive transfer between
two distinct caller-owned accounts does not always succeed — with
source balance 50 and amount 100 the source save fails the `min: 0`
validator and the route answers 400, after persisting both transfer
transactions and incrementing the target, the source left unchanged. -/
theorem transfer_overdraft_counterexample :
    (transfer c3Store 1 c3Req 0).2 = .error .invalidArgument ∧
    (transfer c3Store 1 c3Req 0).1.transactions.length = 2 ∧
    { c3Tgt with balance := 100 } ∈ (transfer c3Store 1 c3Req 0).1.accounts ∧
    c3Src ∈ (transfer c3Store 1 c3Req 0).1.accounts := by decide

/-! ## C9 — sync import -/

/-- The records the sync transaction phase inserts: one new Transaction
per batch transaction whose client-local account reference resolves
through the map, carrying sequentially generated ids (and no
`balanceAt`: the schema strips the client-sent value). -/
def syncNewRecords (uid : Nat) (m : List (Nat × Nat)) (n : Nat) :
    List SyncTx → List Transaction
  | [] => []
  | tx :: rest =>
    match m.lookup tx.accountId with
    | some realAccountId =>
      { id := n, user := uid, accountId := realAccountId,
        amount := tx.amount, type := tx.type, category := tx.category,
        description := tx.description, date := tx.date } ::
        syncNewRecords uid m (n + 1) rest
    | none => syncNewRecords uid m n rest

/-- When every resolving batch transaction passes `Transaction.create`
validation, the sync transaction phase completes, appending exactly the
resolving transactions, touching no account, and counting the
insertions. -/
theorem syncTxPhase_characterisation (uid : Nat) (m : List (Nat × Nat)) :
    ∀ txs : List SyncTx, (∀ t ∈ txs, syncTxValid t = true) →
    ∀ s : Store, ∃ s2 : Store,
    syncTxPhase s uid m txs = .ok (s2,
      (txs.filter (fun t => (m.lookup t.accountId).isSome)).length) ∧
    s2.transactions = s.transactions ++ syncNewRecords uid m s.nextId txs ∧
    s2.accounts = s.accounts := by
  intro txs
  induction txs with
  | nil =>
    intro _ s
    exact ⟨s, rfl, by simp [syncNewRecords], rfl⟩
  | cons tx rest ih =>
    intro hval s
    have hv : syncTxValid tx = true := hval tx (List.mem_cons_self _ _)
    have hrest : ∀ t ∈ rest, syncTxValid t = true :=
      fun t ht => hval t (List.mem_cons_of_mem _ ht)
    cases hl : m.lookup tx.accountId with
    | some realAccountId =>
      obtain ⟨s2, hrun, htx, hacc⟩ := ih hrest
        { s with nextId := s.nextId + 1,
                 transactions := s.transactions ++
                   [{ id := s.nextId, user := uid,
                      accountId := realAccountId, amount := tx.amount,
                      type := tx.type, category := tx.category,
                      description := tx.description, date := tx.date }] }
      refine ⟨s2, ?_, ?_, hacc⟩
      · simp only [syncTxPhase, hl, if_pos hv, hrun,
          List.filter_cons, Option.isSome_some, if_true]
        simp
      · rw [htx]
        simp [syncNewRecords, hl]
    | none =>
      obtain ⟨s2, hrun, htx, hacc⟩ := ih hrest s
      refine ⟨s2, ?_, ?_, hacc⟩
      · simp only [syncTxPhase, hl, hrun, List.filter_cons,
          Option.isSome_none]
        simp
      · rw [htx]
        simp [syncNewRecords, hl]

/-- When every batch account passes `Account.create` validation, the
sync account phase completes and never touches transactions. -/
theorem syncAccountsPhase_ok (uid now : Nat) :
    ∀ accs : List SyncAccount,
    (∀ a ∈ accs, syncAccountValid a = true) →
    ∀ (s : Store) (m : List (Nat × Nat)),
    ∃ (s1 : Store) (m1 : List (Nat × Nat)),
      syncAccountsPhase s uid now m accs = .ok (s1, m1) ∧
      s1.transactions = s.transactions := by
  intro accs
  induction accs with
  | nil => intro _ s m; exact ⟨s, m, rfl, rfl⟩
  | cons acc rest ih =>
    intro hval s m
    have hv : syncAccountValid acc = true :=
      hval acc (List.mem_cons_self _ _)
    have hrest : ∀ a ∈ rest, syncAccountValid a = true :=
      fun a ha => hval a (List.mem_cons_of_mem _ ha)
    cases hf : s.accounts.find?
      (fun a => a.user == uid && a.name == acc.name) with
    | some target =>
      obtain ⟨s1, m1, hrun, htx⟩ := ih hrest s
        (setAssoc m acc.localId target.id)
      exact ⟨s1, m1, by simp only [syncAccountsPhase, hf, hrun], htx⟩
    | none =>
      obtain ⟨s1, m1, hrun, htx⟩ := ih hrest
        { s with nextId := s.nextId + 1,
                 accounts := s.accounts ++
                   [{ id := s.nextId, user := uid, name := acc.name,
                      balance := acc.balance, accType := acc.accType,
                      createdAt := now }] }
        (setAssoc m acc.localId s.nextId)
      exact ⟨s1, m1,
        by simp only [syncAccountsPhase, hf, if_pos hv, hrun], htx⟩

/-- C9 (amended: the guarantee holds for batches whose records pass
schema validation — otherwise a `create` throws and the sync aborts
mid-batch with 500): sync builds the local-to-store account map,
silently drops every batch transaction whose local account reference
does not resolve through it, inserts exactly the resolving ones as new
records (without any `balanceAt`), and reports the map size and the
insertion count; accounts are only affected by the account phase. -/
theorem syncImport_spec (s : Store) (uid now : Nat)
    (accounts : List SyncAccount) (transactions : List SyncTx)
    (hvacc : ∀ a ∈ accounts, syncAccountValid a = true)
    (hvtx : ∀ t ∈ transactions, syncTxValid t = true) :
    ∃ (s1 : Store) (m : List (Nat × Nat)),
      syncAccountsPhase s uid now [] accounts = .ok (s1, m) ∧
      s1.transactions = s.transactions ∧
      (syncImport s uid now accounts transactions).2 =
        .ok (m.length, (transactions.filter (fun t =>
          (m.lookup t.accountId).isSome)).length) ∧
      (syncImport s uid now accounts transactions).1.accounts =
        s1.accounts ∧
      (syncImport s uid now accounts transactions).1.transactions =
        s.transactions ++ syncNewRecords uid m s1.nextId transactions := by
  obtain ⟨s1, m, hphase, htx⟩ :=
    syncAccountsPhase_ok uid now accounts hvacc s []
  obtain ⟨s2, hrun, htrans, haccs⟩ :=
    syncTxPhase_characterisation uid m transactions hvtx s1
  refine ⟨s1, m, hphase, htx, ?_, ?_, ?_⟩
  · simp only [syncImport, hphase, hrun]
  · simp only [syncImport, hphase, hrun]
    exact haccs
  · simp only [syncImport, hphase, hrun]
    rw [htrans, htx]

/-- A one-account sync batch: a new "Wallet" account for user 1. -/
def c9Accounts : List SyncAccount :=
  [{ localId := 100, name := "Wallet", balance := 30,
     accType := "cash" }]

/-- A two-transaction sync batch: one resolving through local id 100 and
one referencing the unknown local id 999 (to be silently dropped). -/
def c9Txs : List SyncTx :=
  [{ accountId := 100, amount := 10, type := .income, category := "Pay",
     description := "", date := 1, balanceAt := 40 },
   { accountId := 999, amount := 5, type := .expense, category := "Misc",
     description := "", date := 2, balanceAt := 0 }]

/-- Witness for C9: the concrete valid batch syncs, the account phase
succeeds, the unresolvable transaction is dropped, and the counts are
reported. -/
theorem syncImport_spec_witness :
    ∃ (s1 : Store) (m : List (Nat × Nat)),
      syncAccountsPhase wStore 1 99 [] c9Accounts = .ok (s1, m) ∧
      s1.transactions = wStore.transactions ∧
      (syncImport wStore 1 99 c9Accounts c9Txs).2 =
        .ok (m.length, (c9Txs.filter (fun t =>
          (m.lookup t.accountId).isSome)).length) ∧
      (syncImport wStore 1 99 c9Accounts c9Txs).1.accounts =
        s1.accounts ∧
      (syncImport wStore 1 99 c9Accounts c9Txs).1.transactions =
        wStore.transactions ++ syncNewRecords 1 m s1.nextId c9Txs :=
  syncImport_spec wStore 1 99 c9Accounts c9Txs (by decide) (by decide)

/-- A sync batch whose second account carries a negative balance: its
`Account.create` fails the `min: 0` validator mid-batch. -/
def c9BadAccounts : List SyncAccount :=
  [{ localId := 100, name := "Wallet", balance := 30, accType := "cash" },
   { localId := 101, name := "Broken", balance := -5, accType := "cash" },
   { localId := 102, name := "Never", balance := 1, accType := "cash" }]

/-- C9 counterexample to the literal claim: a batch is not always
answered with counts — the negative-balance account aborts the sync with
500 after the first account of the batch has already been created (the
third is never processed). -/
theorem syncImport_abort_counterexample :
    (syncImport wStore 1 99 c9BadAccounts []).2 = .error .serverError ∧
    (syncImport wStore 1 99 c9BadAccounts []).1.accounts.length =
      wStore.accounts.length + 1 := by decide

/-! ## C4 — bulk delete vs one-at-a-time deletes -/

/-- Sum of `f` over the elements of `l` satisfying `p`. -/
def sumBy (f : Transaction → Int) (p : Transaction → Bool)
    (l : List Transaction) : Int :=
  ((l.filter p).map f).sum

theorem sumBy_nil (f : Transaction → Int) (p : Transaction → Bool) :
    sumBy f p [] = 0 := rfl

theorem sumBy_cons (f : Transaction → Int) (p : Transaction → Bool)
    (t : Transaction) (l : List Transaction) :
    sumBy f p (t :: l) =
      (if p t = true then f t else 0) + sumBy f p l := by
  by_cases h : p t = true
  · simp [sumBy, List.filter_cons, h]
  · simp [sumBy, List.filter_cons, h]

theorem sumBy_congr (f : Transaction → Int) {p q : Transaction → Bool}
    {l : List Transaction} (h : ∀ t ∈ l, p t = q t) :
    sumBy f p l = sumBy f q l := by
  unfold sumBy
  rw [List.filter_congr h]

/-- Removing the unique match of `q` from a duplicate-free list lowers a
`sumBy` by exactly that element's conditional contribution. -/
theorem sumBy_eraseP (f : Transaction → Int) (p q : Transaction → Bool)
    {l : List Transaction} {x : Transaction} (hnd : l.Nodup) (hx : x ∈ l)
    (hqx : q x = true) (huniq : ∀ y ∈ l, q y = true → y = x) :
    sumBy f p (l.eraseP q) =
      sumBy f p l - (if p x = true then f x else 0) := by
  induction l with
  | nil => cases hx
  | cons a as ih =>
    rw [List.nodup_cons] at hnd
    by_cases hqa : q a = true
    · have hax : a = x := huniq a (List.mem_cons_self a as) hqa
      subst hax
      rw [List.eraseP_cons_of_pos hqa, sumBy_cons]
      ring
    · have hxas : x ∈ as := by
        rcases List.mem_cons.1 hx with rfl | hmem
        · exact absurd hqx hqa
        · exact hmem
      rw [List.eraseP_cons_of_neg (by simpa using hqa), sumBy_cons,
        sumBy_cons, ih hnd.2 hxas
          (fun y hy hqy => huniq y (List.mem_cons_of_mem a hy) hqy)]
      ring

/-- Erasing by a predicate with a unique match in a duplicate-free list
is filtering that match out. -/
theorem eraseP_eq_filter_not {α : Type} {p : α → Bool} {l : List α}
    {x : α} (hnd : l.Nodup) (hx : x ∈ l)
    (huniq : ∀ y ∈ l, p y = true → y = x) :
    l.eraseP p = l.filter (fun y => !(p y)) := by
  induction l with
  | nil => rfl
  | cons a as ih =>
    rw [List.nodup_cons] at hnd
    by_cases hpa : p a = true
    · have hax : a = x := huniq a (List.mem_cons_self a as) hpa
      subst hax
      rw [List.eraseP_cons_of_pos hpa, List.filter_cons_of_neg
        (by simpa using hpa)]
      symm
      apply List.filter_eq_self.2
      intro y hy
      rcases hq : p y with _ | _
      · simp
      · exact absurd (huniq y (List.mem_cons_of_mem a hy) hq ▸ hy) hnd.1
    · rw [List.eraseP_cons_of_neg (by simpa using hpa),
        List.filter_cons_of_pos (by simpa using hpa)]
      congr 1
      rcases List.mem_cons.1 hx with rfl | hxas
      · have hnone : ∀ y ∈ as, ¬ p y := fun y hy hpy =>
          hnd.1 (huniq y (List.mem_cons_of_mem x hy) hpy ▸ hy)
        rw [List.eraseP_of_forall_not hnone]
        symm
        apply List.filter_eq_self.2
        intro y hy
        simpa using hnone y hy
      · exact ih hnd.2 hxas
          (fun y hy hpy => huniq y (List.mem_cons_of_mem a hy) hpy)

/-- Every step of a one-at-a-time deletion run reports success (no
reversal fails the `min: 0` balance validator). -/
def deleteSeqOk (s : Store) (uid : Nat) : List Nat → Bool
  | [] => true
  | i :: rest =>
    match deleteTransaction s uid i with
    | (s1, .ok _) => deleteSeqOk s1 uid rest
    | (_, .error _) => false

/-- Deleting the listed transactions one at a time through the single
delete route, in order. -/
def deleteManySeq (s : Store) (uid : Nat) (ids : List Nat) : Store :=
  ids.foldl (fun st i => (deleteTransaction st uid i).1) s

/-- The total increment a bulk-op list applies to one account. -/
def incTotal (ops : List (Nat × Int)) (uid : Nat) (a : Account) : Int :=
  ((ops.filter (fun pr => a.id == pr.1 && a.user == uid)).map
    (fun pr => pr.2)).sum

/-- Reverting a transaction is adding its reversal delta. -/
theorem revertBalance_eq (a : Account) (t : Transaction) :
    revertBalance a t = a.balance + txAdjustment t := by
  cases h : t.type <;> simp [revertBalance, txAdjustment, h] <;> ring

/-- `incTotal` over a cons. -/
theorem incTotal_cons (pr : Nat × Int) (l : List (Nat × Int)) (uid : Nat)
    (a : Account) :
    incTotal (pr :: l) uid a =
      (if a.id == pr.1 && a.user == uid then pr.2 else 0) +
        incTotal l uid a := by
  cases hc : (a.id == pr.1 && a.user == uid) <;>
    simp [incTotal, List.filter_cons, hc]

/-- `incTotal` ignores the balance field. -/
theorem incTotal_balance_irrel (ops : List (Nat × Int)) (uid : Nat)
    (a : Account) (b : Int) :
    incTotal ops uid { a with balance := b } = incTotal ops uid a := rfl

/-- The bulk write, spelt out account-wise: every account gains the total
increment of the ops that target it; nothing else changes. -/
theorem applyBulkOps_characterisation (uid : Nat) (ops : List (Nat × Int)) :
    ∀ s : Store,
    (applyBulkOps s uid ops).accounts =
      s.accounts.map (fun a =>
        { a with balance := a.balance + incTotal ops uid a }) ∧
    (applyBulkOps s uid ops).transactions = s.transactions ∧
    (applyBulkOps s uid ops).nextId = s.nextId := by
  induction ops with
  | nil =>
    intro s
    refine ⟨?_, rfl, rfl⟩
    symm
    apply map_eq_self_of_fix
    intro a _
    simp [incTotal]
  | cons pr ops ih =>
    intro s
    obtain ⟨ha, ht, hn⟩ := ih (applyInc s pr.1 uid pr.2)
    refine ⟨?_, ht, hn⟩
    rw [show applyBulkOps s uid (pr :: ops) =
        applyBulkOps (applyInc s pr.1 uid pr.2) uid ops from rfl, ha]
    show (s.accounts.map _).map _ = _
    rw [List.map_map]
    apply List.map_congr_left
    intro a _
    rw [incTotal_cons]
    cases hc : (a.id == pr.1 && a.user == uid)
    · simp only [Function.comp, applyInc, hc, Bool.false_eq_true,
        if_false]
      rw [Int.zero_add]
    · simp only [Function.comp, applyInc, hc, if_true]
      rw [incTotal_balance_irrel]
      simp [Int.add_assoc]

/-- Adding one delta into the adjustment object raises the account's
total by that delta when the key matches. -/
theorem incTotal_addAdjustment (uid : Nat) (a : Account) (k : Nat)
    (d : Int) : ∀ l : List (Nat × Int),
    incTotal (addAdjustment l k d) uid a =
      incTotal l uid a + (if a.id == k && a.user == uid then d else 0) := by
  intro l
  induction l with
  | nil =>
    rw [show addAdjustment [] k d = [(k, d)] from rfl, incTotal_cons]
    simp [incTotal]
  | cons pr rest ih =>
    obtain ⟨q, v⟩ := pr
    by_cases hk : q = k
    · subst hk
      rw [show addAdjustment ((q, v) :: rest) q d = (q, v + d) :: rest by
        simp [addAdjustment], incTotal_cons, incTotal_cons]
      cases hc : (a.id == q && a.user == uid) <;> simp <;> ring
    · rw [show addAdjustment ((q, v) :: rest) k d =
          (q, v) :: addAdjustment rest k d by simp [addAdjustment, hk],
        incTotal_cons, incTotal_cons, ih]
      ring

/-- The aggregation loop's object carries, per account, exactly the
summed reversal deltas of the matched transactions. -/
theorem incTotal_aggregate (uid : Nat) (a : Account) :
    ∀ (txs : List Transaction) (acc : List (Nat × Int)),
    incTotal (txs.foldl (fun m t =>
        addAdjustment m t.accountId (txAdjustment t)) acc) uid a =
      incTotal acc uid a +
        sumBy txAdjustment
          (fun t => a.id == t.accountId && a.user == uid) txs := by
  intro txs
  induction txs with
  | nil => intro acc; simp [sumBy]
  | cons t rest ih =>
    intro acc
    rw [show (t :: rest).foldl (fun m t =>
        addAdjustment m t.accountId (txAdjustment t)) acc =
      rest.foldl (fun m t => addAdjustment m t.accountId (txAdjustment t))
        (addAdjustment acc t.accountId (txAdjustment t)) from rfl]
    rw [ih, incTotal_addAdjustment, sumBy_cons]
    ring

/-- A single delete with no matching transaction changes nothing. -/
theorem deleteTransaction_nomatch (s : Store) (uid i : Nat)
    (hf : findTransaction s i uid = none) :
    (deleteTransaction s uid i).1 = s := by
  simp [deleteTransaction, hf]

/-- A store with the listed components. -/
theorem store_eq_of_components {s1 s2 : Store}
    (h1 : s1.nextId = s2.nextId) (h2 : s1.accounts = s2.accounts)
    (h3 : s1.transactions = s2.transactions) : s1 = s2 := by
  cases s1; cases s2
  simp only at h1 h2 h3
  simp [h1, h2, h3]

/-- A single delete of a found transaction, spelt out: the matched
transaction is filtered out and its owning caller account (when present)
gains the reversal delta. -/
theorem deleteTransaction_found (s : Store) (uid i : Nat)
    (tx : Transaction) (hwf : WF s)
    (hf : findTransaction s i uid = some tx)
    (hval : ∀ acc, findAccount s tx.accountId uid = some acc →
      0 ≤ revertBalance acc tx) :
    (deleteTransaction s uid i).1 =
      { s with
        transactions :=
          (s.transactions.filter (fun t => !(t.id == i && t.user == uid))),
        accounts :=
          (s.accounts.map (fun a =>
            { a with balance := a.balance +
              (if a.id == tx.accountId && a.user == uid then
                txAdjustment tx else 0) })) } := by
  have htxmem : tx ∈ s.transactions := List.mem_of_find?_eq_some hf
  have hptx : (tx.id == i && tx.user == uid) = true :=
    List.find?_some (p := fun t : Transaction => t.id == i && t.user == uid)
      hf
  have htxid : tx.id = i := by
    simp only [Bool.and_eq_true, beq_iff_eq] at hptx
    exact hptx.1
  have huniq : ∀ y ∈ s.transactions,
      (y.id == i && y.user == uid) = true → y = tx := by
    intro y hy hpy
    simp only [Bool.and_eq_true, beq_iff_eq] at hpy
    exact eq_of_key_eq (fun t => t.id) s.transactions hwf.2.1 hy htxmem
      (by show y.id = tx.id; rw [hpy.1, htxid])
  have herase : s.transactions.eraseP (fun t => t.id == i && t.user == uid)
      = s.transactions.filter (fun t => !(t.id == i && t.user == uid)) :=
    eraseP_eq_filter_not (hwf.2.1.of_map) htxmem huniq
  cases hacc : findAccount s tx.accountId uid with
  | some acc =>
    have haccmem : acc ∈ s.accounts := List.mem_of_find?_eq_some hacc
    have hpacc : (acc.id == tx.accountId && acc.user == uid) = true :=
      List.find?_some
        (p := fun a : Account => a.id == tx.accountId && a.user == uid)
        hacc
    have haccid : acc.id = tx.accountId := by
      simp only [Bool.and_eq_true, beq_iff_eq] at hpacc
      exact hpacc.1
    simp only [deleteTransaction, hf, hacc, if_pos (hval acc hacc)]
    refine store_eq_of_components (by rfl) ?_ (by exact herase)
    rw [saveAccount_accounts]
    show s.accounts.map _ = s.accounts.map _
    apply List.map_congr_left
    intro b hb
    by_cases hid : b.id = acc.id
    · have hbacc : b = acc :=
        eq_of_key_eq (fun x => x.id) s.accounts hwf.1 hb haccmem hid
    
      subst hbacc
      rw [if_pos rfl, if_pos (by rw [← hid] at hpacc; exact hpacc)]
      rw [revertBalance_eq]
    · rw [if_neg (by simpa using hid)]
      have hcond : (b.id == tx.accountId && b.user == uid) = false := by
        rw [← haccid]
        cases hcc : (b.id == acc.id && b.user == uid)
        · rfl
        · simp only [Bool.and_eq_true, beq_iff_eq] at hcc
          exact absurd hcc.1 hid
      rw [hcond]
      simp
  | none =>
    have hnone : ∀ a ∈ s.accounts,
        (a.id == tx.accountId && a.user == uid) = false := by
      intro a ha
      cases hcc : (a.id == tx.accountId && a.user == uid)
      · rfl
      · exact absurd hcc
          (by simpa using (List.find?_eq_none.1 hacc) a ha)
    simp only [deleteTransaction, hf, hacc]
    refine store_eq_of_components (by rfl) ?_ (by exact herase)
    show s.accounts = _
    symm
    apply map_eq_self_of_fix
    intro a ha
    rw [hnone a ha]
    simp

/-- A single delete preserves store well-formedness, whether or not the
reversal save validated. -/
theorem deleteTransaction_wf (s : Store) (uid i : Nat) (hwf : WF s) :
    WF (deleteTransaction s uid i).1 := by
  have herasewf : WF { s with transactions :=
      (s.transactions.eraseP (fun t => t.id == i && t.user == uid)) } := by
    refine ⟨hwf.1, ?_, ?_⟩
    · exact hwf.2.1.sublist
        (List.Sublist.map _ (List.eraseP_sublist _))
    · intro t ht
      exact hwf.2.2 t (List.mem_of_mem_eraseP ht)
  cases hf : findTransaction s i uid with
  | none =>
    rw [deleteTransaction_nomatch s uid i hf]
    exact hwf
  | some tx =>
    cases hacc : findAccount s tx.accountId uid with
    | none =>
      simp only [deleteTransaction, hf, hacc]
      exact herasewf
    | some acc =>
      by_cases hv : 0 ≤ revertBalance acc tx
      · simp only [deleteTransaction, hf, hacc, if_pos hv]
        exact saveAccount_wf _ _ herasewf
      · simp only [deleteTransaction, hf, hacc, if_neg hv]
        exact herasewf

/-- When every reversal that will be attempted validates, a found delete
reports success. -/
theorem deleteTransaction_ok (s : Store) (uid i : Nat)
    (tx : Transaction) (hf : findTransaction s i uid = some tx)
    (hval : ∀ acc, findAccount s tx.accountId uid = some acc →
      0 ≤ revertBalance acc tx) :
    (deleteTransaction s uid i).2 = .ok () := by
  cases hacc : findAccount s tx.accountId uid with
  | none => simp [deleteTransaction, hf, hacc]
  | some acc =>
    simp [deleteTransaction, hf, hacc, if_pos (hval acc hacc)]

/-- `sumBy` over a filtered list is a `sumBy` with the conjoined
predicate. -/
theorem sumBy_filter (f : Transaction → Int) (p q : Transaction → Bool)
    (l : List Transaction) :
    sumBy f p (l.filter q) = sumBy f (fun t => p t && q t) l := by
  unfold sumBy
  rw [List.filter_filter]

/-- One sequential delete step, at the level of per-account sums: the
deleted transaction's conditional reversal delta plus the remaining
matched sum equals the full matched sum. -/
theorem sumBy_delete_step (uid i : Nat) (rest : List Nat) (a : Account)
    (tx : Transaction) :
    ∀ l : List Transaction, l.Nodup → tx ∈ l →
    (tx.id == i && tx.user == uid) = true →
    (∀ y ∈ l, (y.id == i && y.user == uid) = true → y = tx) →
    (if a.id == tx.accountId && a.user == uid then txAdjustment tx
     else 0) +
      sumBy txAdjustment (fun t => a.id == t.accountId && a.user == uid)
        ((l.filter (fun t => !(t.id == i && t.user == uid))).filter
          (matchesIds rest uid)) =
    sumBy txAdjustment (fun t => a.id == t.accountId && a.user == uid)
      (l.filter (matchesIds (i :: rest) uid)) := by
  intro l
  induction l with
  | nil => intro _ hx; cases hx
  | cons y ys ih =>
    intro hnd hx hptx huniq
    rw [List.nodup_cons] at hnd
    cases hpy : (y.id == i && y.user == uid)
    case false =>
      have hxys : tx ∈ ys := by
        rcases List.mem_cons.1 hx with rfl | h
        · rw [hptx] at hpy; cases hpy
        · exact h
      have hih := ih hnd.2 hxys hptx
        (fun z hz hqz => huniq z (List.mem_cons_of_mem _ hz) hqz)
      rw [List.filter_cons_of_pos (by simp [hpy])]
      have hmeq : matchesIds (i :: rest) uid y = matchesIds rest uid y := by
        by_cases hA : y.id = i
        · by_cases hu : y.user = uid
          · exfalso; simp [hA, hu] at hpy
          · have hub : (y.user == uid) = false := by simpa using hu
            simp [matchesIds, List.contains_cons, hub]
        · simp [matchesIds, List.contains_cons, hA]
      cases hmr : matchesIds rest uid y
      · rw [List.filter_cons_of_neg (by simp [hmr]),
          List.filter_cons_of_neg (by rw [hmeq, hmr]; simp)]
        exact hih
      · rw [List.filter_cons_of_pos (by simp [hmr]),
          List.filter_cons_of_pos (by rw [hmeq, hmr]), sumBy_cons,
          sumBy_cons, ← hih]
        ring
    case true =>
      have hy : y = tx := huniq y (List.mem_cons_self y ys) hpy
      subst hy
      have hysclean : ∀ t ∈ ys, (t.id == i && t.user == uid) = false := by
        intro t ht
        cases hq : (t.id == i && t.user == uid)
        · rfl
        · exact absurd (huniq t (List.mem_cons_of_mem _ ht) hq ▸ ht) hnd.1
      have hyparts : y.id = i ∧ y.user = uid := by simpa using hpy
      rw [List.filter_cons_of_neg (by simp [hpy]),
        show ys.filter (fun t => !(t.id == i && t.user == uid)) = ys from
          List.filter_eq_self.2 (fun t ht => by simp [hysclean t ht])]
      have hmy : matchesIds (i :: rest) uid y = true := by
        simp [matchesIds, List.contains_cons, hyparts.1, hyparts.2]
      rw [List.filter_cons_of_pos hmy, sumBy_cons]
      have hcong : ys.filter (matchesIds rest uid) =
          ys.filter (matchesIds (i :: rest) uid) := by
        apply List.filter_congr
        intro t ht
        have hcl := hysclean t ht
        by_cases hA : t.id = i
        · by_cases hu : t.user = uid
          · exfalso; simp [hA, hu] at hcl
          · have hub : (t.user == uid) = false := by simpa using hu
            simp [matchesIds, List.contains_cons, hub]
        · simp [matchesIds, List.contains_cons, hA]
      rw [hcong]

/-- Deleting id `i` and then the rest matches exactly what matching the
whole id list matches. -/
theorem matchesIds_cons_not (uid i : Nat) (rest : List Nat)
    (t : Transaction) :
    (!(matchesIds rest uid t) && !(t.id == i && t.user == uid)) =
      !(matchesIds (i :: rest) uid t) := by
  simp only [matchesIds, List.contains_cons]
  cases h1 : (t.id == i) <;> cases h2 : (rest.contains t.id) <;>
    cases h3 : (t.user == uid) <;> rfl

/-- One-at-a-time deletion, spelt out: the matched transactions are
removed and every account gains the summed reversal deltas of its own
matched transactions. -/
theorem deleteManySeq_characterisation (uid : Nat) :
    ∀ (ids : List Nat) (s : Store), WF s →
    deleteSeqOk s uid ids = true →
    (deleteManySeq s uid ids).nextId = s.nextId ∧
    (deleteManySeq s uid ids).transactions =
      s.transactions.filter (fun t => !(matchesIds ids uid t)) ∧
    (deleteManySeq s uid ids).accounts =
      s.accounts.map (fun a =>
        { a with balance := (a.balance +
          sumBy txAdjustment
            (fun t => a.id == t.accountId && a.user == uid)
            (s.transactions.filter (matchesIds ids uid))) }) := by
  intro ids
  induction ids with
  | nil =>
    intro s hwf _
    refine ⟨rfl, ?_, ?_⟩
    · show s.transactions = _
      symm
      apply List.filter_eq_self.2
      intro t ht
      simp [matchesIds]
    · show s.accounts = _
      have hm : s.transactions.filter (matchesIds [] uid) = [] := by
        apply List.filter_eq_nil_iff.2
        intro t ht
        simp [matchesIds]
      rw [hm]
      symm
      apply map_eq_self_of_fix
      intro a ha
      simp [sumBy]
  | cons i rest ih =>
    intro s hwf hok
    have hstep : deleteManySeq s uid (i :: rest) =
        deleteManySeq (deleteTransaction s uid i).1 uid rest := rfl
    cases hf : findTransaction s i uid with
    | none =>
      have hs1 : (deleteTransaction s uid i).1 = s :=
        deleteTransaction_nomatch s uid i hf
      have hpair : deleteTransaction s uid i = (s, Except.ok ()) := by
        simp [deleteTransaction, hf]
      have hok2 : deleteSeqOk s uid rest = true := by
        simp only [deleteSeqOk, hpair] at hok
        exact hok
      obtain ⟨h1, h2, h3⟩ := ih s hwf hok2
      have hmt : ∀ t ∈ s.transactions,
          matchesIds rest uid t = matchesIds (i :: rest) uid t := by
        intro t ht
        have hnp : ¬ ((t.id == i && t.user == uid) = true) := by
          have := List.find?_eq_none.1 hf t ht
          simpa using this
        by_cases hA : t.id = i
        · by_cases hu : t.user = uid
          · exact absurd (by simp [hA, hu]) hnp
          · have hub : (t.user == uid) = false := by simpa using hu
            simp [matchesIds, List.contains_cons, hub]
        · simp [matchesIds, List.contains_cons, hA]
      refine ⟨?_, ?_, ?_⟩
      · rw [hstep, hs1, h1]
      · rw [hstep, hs1, h2]
        apply List.filter_congr
        intro t ht
        rw [hmt t ht]
      · rw [hstep, hs1, h3,
          List.filter_congr (fun t ht => hmt t ht)]
    | some tx =>
      have hval : ∀ acc, findAccount s tx.accountId uid = some acc →
          0 ≤ revertBalance acc tx := by
        intro acc hacc
        by_contra hneg
        simp only [deleteSeqOk, deleteTransaction, hf, hacc,
          if_neg hneg] at hok
        exact Bool.false_ne_true hok
      have hfound := deleteTransaction_found s uid i tx hwf hf hval
      have hwf1 := deleteTransaction_wf s uid i hwf
      have hok1 := deleteTransaction_ok s uid i tx hf hval
      have hpair : deleteTransaction s uid i =
          ((deleteTransaction s uid i).1, Except.ok ()) := by
        rw [← hok1]
      have hok2 : deleteSeqOk (deleteTransaction s uid i).1 uid rest =
          true := by
        rw [show deleteSeqOk s uid (i :: rest) =
          (match deleteTransaction s uid i with
           | (s1, .ok _) => deleteSeqOk s1 uid rest
           | (_, .error _) => false) from rfl, hpair] at hok
        exact hok
      obtain ⟨h1, h2, h3⟩ := ih (deleteTransaction s uid i).1 hwf1 hok2
      have hptx : (tx.id == i && tx.user == uid) = true :=
        List.find?_some
          (p := fun t : Transaction => t.id == i && t.user == uid) hf
      have htxmem : tx ∈ s.transactions := List.mem_of_find?_eq_some hf
      have htxid : tx.id = i ∧ tx.user = uid := by simpa using hptx
      have hnd : s.transactions.Nodup := hwf.2.1.of_map
      have huniq : ∀ y ∈ s.transactions,
          (y.id == i && y.user == uid) = true → y = tx := by
        intro y hy hpy
        simp only [Bool.and_eq_true, beq_iff_eq] at hpy
        exact eq_of_key_eq (fun t => t.id) s.transactions hwf.2.1 hy htxmem
          (by show y.id = tx.id; rw [hpy.1, htxid.1])
      refine ⟨?_, ?_, ?_⟩
      · rw [hstep, h1, hfound]
      · rw [hstep, h2, hfound]
        show (s.transactions.filter _).filter _ = _
        rw [List.filter_filter]
        apply List.filter_congr
        intro t ht
        exact matchesIds_cons_not uid i rest t
      · rw [hstep, h3, hfound]
        show (s.accounts.map _).map _ = _
        rw [List.map_map]
        apply List.map_congr_left
        intro a ha
        show ({ a with balance := ((a.balance +
            (if a.id == tx.accountId && a.user == uid then txAdjustment tx
             else 0)) +
          sumBy txAdjustment
            (fun t => a.id == t.accountId && a.user == uid)
            ((s.transactions.filter
                (fun t => !(t.id == i && t.user == uid))).filter
              (matchesIds rest uid))) } : Account) = _
        rw [Int.add_assoc,
          sumBy_delete_step uid i rest a tx s.transactions hnd htxmem hptx
            huniq]

/-- Bulk delete, spelt out: the matched transactions are removed and
every account gains the summed reversal deltas of its own matched
transactions, exactly as one-at-a-time deletion does. -/
theorem bulkDelete_characterisation (s : Store) (uid : Nat)
    (ids : List Nat) :
    (bulkDeleteTransactions s uid ids).1.nextId = s.nextId ∧
    (bulkDeleteTransactions s uid ids).1.transactions =
      s.transactions.filter (fun t => !(matchesIds ids uid t)) ∧
    (bulkDeleteTransactions s uid ids).1.accounts =
      s.accounts.map (fun a =>
        { a with balance := (a.balance +
          sumBy txAdjustment
            (fun t => a.id == t.accountId && a.user == uid)
            (s.transactions.filter (matchesIds ids uid))) }) := by
  by_cases hempty : ids.isEmpty = true
  · have hids : ids = [] := List.isEmpty_iff.1 hempty
    subst hids
    have hred : bulkDeleteTransactions s uid [] =
        (s, .error .invalidArgument) := by
      simp [bulkDeleteTransactions]
    rw [hred]
    refine ⟨rfl, ?_, ?_⟩
    · show s.transactions = _
      symm
      apply List.filter_eq_self.2
      intro t ht
      simp [matchesIds]
    · show s.accounts = _
      have hm : s.transactions.filter (matchesIds [] uid) = [] := by
        apply List.filter_eq_nil_iff.2
        intro t ht
        simp [matchesIds]
      rw [hm]
      symm
      apply map_eq_self_of_fix
      intro a ha
      simp [sumBy]
  · by_cases hmatched :
        (s.transactions.filter (matchesIds ids uid)).isEmpty = true
    · have hm : s.transactions.filter (matchesIds ids uid) = [] :=
        List.isEmpty_iff.1 hmatched
      have hred : bulkDeleteTransactions s uid ids =
          (s, .error .notFound) := by
        simp only [bulkDeleteTransactions, hempty, hmatched]
        simp
      rw [hred]
      have hnomatch : ∀ t ∈ s.transactions, matchesIds ids uid t = false :=
        by
        intro t ht
        cases hq : matchesIds ids uid t
        · rfl
        · exact absurd (List.mem_filter.2 ⟨ht, hq⟩) (by simp [hm])
      refine ⟨rfl, ?_, ?_⟩
      · show s.transactions = _
        symm
        apply List.filter_eq_self.2
        intro t ht
        simp [hnomatch t ht]
      · show s.accounts = _
        rw [hm]
        symm
        apply map_eq_self_of_fix
        intro a ha
        simp [sumBy]
    · have hred : bulkDeleteTransactions s uid ids =
          ({ applyBulkOps s uid (aggregateAdjustments
              (s.transactions.filter (matchesIds ids uid))) with
             transactions := ((applyBulkOps s uid (aggregateAdjustments
               (s.transactions.filter
                 (matchesIds ids uid)))).transactions.filter
               (fun t => !(matchesIds ids uid t))) },
           .ok (s.transactions.filter (matchesIds ids uid)).length) := by
        simp only [bulkDeleteTransactions, hempty, hmatched]
        simp
      obtain ⟨ha, ht, hn⟩ := applyBulkOps_characterisation uid
        (aggregateAdjustments (s.transactions.filter (matchesIds ids uid)))
        s
      rw [hred]
      refine ⟨hn, by rw [ht], ?_⟩
      show (applyBulkOps s uid _).accounts = _
      rw [ha]
      apply List.map_congr_left
      intro a ha2
      have := incTotal_aggregate uid a
        (s.transactions.filter (matchesIds ids uid)) []
      rw [show aggregateAdjustments
          (s.transactions.filter (matchesIds ids uid)) =
          (s.transactions.filter (matchesIds ids uid)).foldl
            (fun m t => addAdjustment m t.accountId (txAdjustment t)) []
          from rfl, this]
      simp [incTotal]

/-- The keys of the adjustment object after one assignment. -/
theorem keys_addAdjustment : ∀ (l : List (Nat × Int)) (k : Nat) (d : Int),
    (addAdjustment l k d).map Prod.fst =
      if k ∈ l.map Prod.fst then l.map Prod.fst
      else l.map Prod.fst ++ [k] := by
  intro l
  induction l with
  | nil => intro k d; simp [addAdjustment]
  | cons pr rest ih =>
    intro k d
    obtain ⟨q, v⟩ := pr
    by_cases hk : q = k
    · subst hk
      simp [addAdjustment]
    · rw [show addAdjustment ((q, v) :: rest) k d =
          (q, v) :: addAdjustment rest k d by simp [addAdjustment, hk],
        List.map_cons, ih k d]
      by_cases hm : k ∈ rest.map Prod.fst
      · rw [if_pos hm, if_pos (by simp [hm])]
        rfl
      · rw [if_neg hm, if_neg (by
          simp only [List.map_cons, List.mem_cons]
          rintro (h | h)
          · exact hk h.symm
          · exact hm h)]
        rfl

/-- The adjustment object built by the aggregation loop has
duplicate-free keys, and its keys are exactly the account ids of the
folded transactions (together with the seed keys). -/
theorem aggregate_keys : ∀ (txs : List Transaction)
    (acc : List (Nat × Int)), ((acc.map Prod.fst).Nodup →
      (((txs.foldl (fun m t =>
        addAdjustment m t.accountId (txAdjustment t)) acc).map
          Prod.fst).Nodup)) ∧
    ∀ k, k ∈ (txs.foldl (fun m t =>
        addAdjustment m t.accountId (txAdjustment t)) acc).map Prod.fst ↔
      (k ∈ acc.map Prod.fst ∨ ∃ t ∈ txs, t.accountId = k) := by
  intro txs
  induction txs with
  | nil =>
    intro acc
    refine ⟨fun h => h, fun k => ?_⟩
    simp
  | cons t rest ih =>
    intro acc
    have hfold : (t :: rest).foldl (fun m t =>
        addAdjustment m t.accountId (txAdjustment t)) acc =
      rest.foldl (fun m t => addAdjustment m t.accountId (txAdjustment t))
        (addAdjustment acc t.accountId (txAdjustment t)) := rfl
    have hkeys := keys_addAdjustment acc t.accountId (txAdjustment t)
    constructor
    · intro hnd
      rw [hfold]
      apply (ih _).1
      rw [hkeys]
      by_cases hm : t.accountId ∈ acc.map Prod.fst
      · rw [if_pos hm]; exact hnd
      · rw [if_neg hm]
        rw [List.nodup_append]
        refine ⟨hnd, List.nodup_singleton _, fun x hx hx2 => ?_⟩
        simp only [List.mem_singleton] at hx2
        exact hm (hx2 ▸ hx)
    · intro k
      rw [hfold, (ih _).2 k, hkeys]
      by_cases hm : t.accountId ∈ acc.map Prod.fst
      · rw [if_pos hm]
        constructor
        · rintro (h | h)
          · exact Or.inl h
          · obtain ⟨u, hu, hk⟩ := h
            exact Or.inr ⟨u, List.mem_cons_of_mem t hu, hk⟩
        · rintro (h | h)
          · exact Or.inl h
          · obtain ⟨u, hu, hk⟩ := h
            rcases List.mem_cons.1 hu with rfl | hu2
            · exact Or.inl (hk ▸ hm)
            · exact Or.inr ⟨u, hu2, hk⟩
      · rw [if_neg hm]
        constructor
        · rintro (h | h)
          · rcases List.mem_append.1 h with h2 | h2
            · exact Or.inl h2
            · refine Or.inr ⟨t, List.mem_cons_self t rest, ?_⟩
              simp only [List.mem_singleton] at h2
              exact h2.symm
          · obtain ⟨u, hu, hk⟩ := h
            exact Or.inr ⟨u, List.mem_cons_of_mem t hu, hk⟩
        · rintro (h | h)
          · exact Or.inl (List.mem_append.2 (Or.inl h))
          · obtain ⟨u, hu, hk⟩ := h
            rcases List.mem_cons.1 hu with rfl | hu2
            · exact Or.inl (List.mem_append.2 (Or.inr (by simp [hk])))
            · exact Or.inr ⟨u, hu2, hk⟩

/-- C4 (amended: the equivalence requires every one-at-a-time step to
pass the `min: 0` save validator — bulk delete's `$inc` `bulkWrite`
bypasses validators, so when an individual reversal would drive a
balance negative the two paths genuinely diverge): whenever each
individual delete reports success, one bulk-delete call leaves the
store — in particular every account balance — exactly as deleting the
same ids one at a time does, and its aggregation object carries exactly
one entry per distinct affected account, i.e. one aggregated atomic
increment per account rather than one write per transaction. -/
theorem bulkDelete_eq_individual (s : Store) (uid : Nat) (ids : List Nat)
    (hwf : WF s) (hok : deleteSeqOk s uid ids = true) :
    (bulkDeleteTransactions s uid ids).1 = deleteManySeq s uid ids ∧
    ((aggregateAdjustments (s.transactions.filter
      (matchesIds ids uid))).map Prod.fst).Nodup ∧
    ∀ k, k ∈ (aggregateAdjustments (s.transactions.filter
        (matchesIds ids uid))).map Prod.fst ↔
      ∃ t ∈ s.transactions, matchesIds ids uid t = true ∧
        t.accountId = k := by
  obtain ⟨b1, b2, b3⟩ := bulkDelete_characterisation s uid ids
  obtain ⟨q1, q2, q3⟩ := deleteManySeq_characterisation uid ids s hwf hok
  refine ⟨store_eq_of_components (by rw [b1, q1]) (by rw [b3, q3])
    (by rw [b2, q2]), ?_, ?_⟩
  · exact (aggregate_keys _ []).1 (by simp)
  · intro k
    rw [show aggregateAdjustments (s.transactions.filter
          (matchesIds ids uid)) =
        (s.transactions.filter (matchesIds ids uid)).foldl
          (fun m t => addAdjustment m t.accountId (txAdjustment t)) []
        from rfl,
      (aggregate_keys _ []).2 k]
    constructor
    · rintro (h | ⟨u, hu, hk⟩)
      · simp at h
      · exact ⟨u, List.mem_of_mem_filter hu,
          (List.mem_filter.1 hu).2, hk⟩
    · rintro ⟨u, hu, hm, hk⟩
      exact Or.inr ⟨u, List.mem_filter.2 ⟨hu, hm⟩, hk⟩

/-- A store with three transactions over two accounts, for the bulk
witness. -/
def wBulkStore : Store :=
  { nextId := 30,
    accounts := [
      { id := 1, user := 1, name := "A", balance := 70, accType := "cash",
        createdAt := 1 },
      { id := 2, user := 1, name := "B", balance := -5, accType := "cash",
        createdAt := 2 }],
    transactions := [
      { id := 10, user := 1, accountId := 1, amount := 100,
        type := .income, category := "", description := "", date := 0 },
      { id := 11, user := 1, accountId := 1, amount := 30,
        type := .expense, category := "", description := "", date := 0 },
      { id := 12, user := 1, accountId := 2, amount := 5,
        type := .expense, category := "", description := "", date := 0 }] }

/-- Witness for C4: on the concrete store, bulk-deleting ids 10, 12, 11
equals deleting them one at a time, and the aggregation keys are
duplicate-free. -/
theorem bulkDelete_eq_individual_witness :
    deleteSeqOk wBulkStore 1 [11, 10, 12] = true ∧
    ((bulkDeleteTransactions wBulkStore 1 [11, 10, 12]).1 =
      deleteManySeq wBulkStore 1 [11, 10, 12] ∧
    ((aggregateAdjustments (wBulkStore.transactions.filter
      (matchesIds [11, 10, 12] 1))).map Prod.fst).Nodup) := by
  refine ⟨by decide, ?_⟩
  obtain ⟨h1, h2, _⟩ :=
    bulkDelete_eq_individual wBulkStore 1 [11, 10, 12] (by decide)
      (by decide)
  exact ⟨h1, h2⟩

/-- The account and transaction pair exhibiting the C4 divergence:
balance 0 backed by a +100 income and a -100 expense. -/
def c4Store : Store :=
  { nextId := 30,
    accounts := [
      { id := 1, user := 1, name := "A", balance := 0, accType := "cash",
        createdAt := 1 }],
    transactions := [
      { id := 10, user := 1, accountId := 1, amount := 100,
        type := .income, category := "", description := "", date := 0 },
      { id := 11, user := 1, accountId := 1, amount := 100,
        type := .expense, category := "", description := "", date := 0 }] }

/-- C4 counterexample to the literal claim: deleting the income first
individually fails the `min: 0` validator (400, transaction deleted, no
reversal), then deleting the expense adds +100, ending at balance 100 —
while the bulk path nets the two reversals to a single `$inc` of 0,
ending at balance 0. The two paths genuinely diverge. -/
theorem bulkDelete_ne_individual_counterexample :
    deleteSeqOk c4Store 1 [10, 11] = false ∧
    (deleteManySeq c4Store 1 [10, 11]).accounts =
      [{ id := 1, user := 1, name := "A", balance := 100,
         accType := "cash", createdAt := 1 }] ∧
    (bulkDeleteTransactions c4Store 1 [10, 11]).1.accounts =
      [{ id := 1, user := 1, name := "A", balance := 0,
         accType := "cash", createdAt := 1 }] ∧
    (bulkDeleteTransactions c4Store 1 [10, 11]).1 ≠
      deleteManySeq c4Store 1 [10, 11] := by decide

/-! ## C1 — the balance invariant -/

theorem ownerTxSum_eq_sumBy (txs : List Transaction) (a : Account) :
    ownerTxSum txs a =
      sumBy signedAmount
        (fun t => t.accountId == a.id && t.user == a.user) txs := rfl

theorem ownerTxSum_balance_irrel (txs : List Transaction) (a : Account)
    (b : Int) :
    ownerTxSum txs { a with balance := b } = ownerTxSum txs a := rfl

theorem sumBy_append (f : Transaction → Int) (p : Transaction → Bool)
    (l1 l2 : List Transaction) :
    sumBy f p (l1 ++ l2) = sumBy f p l1 + sumBy f p l2 := by
  unfold sumBy
  rw [List.filter_append, List.map_append, List.sum_append]

theorem sumBy_singleton (f : Transaction → Int) (p : Transaction → Bool)
    (t : Transaction) :
    sumBy f p [t] = if p t = true then f t else 0 := by
  rw [sumBy_cons, sumBy_nil, Int.add_zero]

/-- Reversal deltas are negated signed amounts, summed. -/
theorem sumBy_adjustment_neg (p : Transaction → Bool) :
    ∀ l : List Transaction,
    sumBy txAdjustment p l = -(sumBy signedAmount p l) := by
  intro l
  induction l with
  | nil => simp [sumBy]
  | cons t rest ih =>
    rw [sumBy_cons, sumBy_cons, ih]
    cases hp : p t
    · simp
    · simp only [if_true]
      have : txAdjustment t = -(signedAmount t) := by
        cases h : t.type <;> simp [txAdjustment, signedAmount, h]
      rw [this]
      ring

/-- Splitting a conditional sum along a second predicate. -/
theorem sumBy_partition (f : Transaction → Int) (p q : Transaction → Bool)
    : ∀ l : List Transaction,
    sumBy f p l =
      sumBy f (fun t => p t && q t) l +
        sumBy f (fun t => p t && !(q t)) l := by
  intro l
  induction l with
  | nil => simp [sumBy]
  | cons t rest ih =>
    rw [sumBy_cons, sumBy_cons, sumBy_cons, ih]
    cases hp : p t <;> cases hq : q t <;> simp <;> ring

/-- Updating the unique match of `q` shifts a conditional sum by the
difference of the old and new conditional contributions. -/
theorem sumBy_updateFirst (f : Transaction → Int)
    (p q : Transaction → Bool) (g : Transaction → Transaction)
    {l : List Transaction} {x : Transaction} (hnd : l.Nodup) (hx : x ∈ l)
    (hqx : q x = true) (huniq : ∀ y ∈ l, q y = true → y = x) :
    sumBy f p (updateFirst q g l) =
      sumBy f p l - (if p x = true then f x else 0) +
        (if p (g x) = true then f (g x) else 0) := by
  induction l with
  | nil => cases hx
  | cons a as ih =>
    rw [List.nodup_cons] at hnd
    cases hqa : q a
    case true =>
      have hax : a = x := huniq a (List.mem_cons_self a as) hqa
      subst hax
      simp only [updateFirst, hqa, if_true]
      rw [sumBy_cons, sumBy_cons]
      ring
    case false =>
      have hxas : x ∈ as := by
        rcases List.mem_cons.1 hx with rfl | h
        · rw [hqx] at hqa; cases hqa
        · exact h
      simp only [updateFirst, hqa, Bool.false_eq_true, if_false]
      rw [sumBy_cons, sumBy_cons,
        ih hnd.2 hxas
          (fun y hy hqy => huniq y (List.mem_cons_of_mem a hy) hqy)]
      ring

/-- `updateFirst` with a key-preserving update keeps the key list. -/
theorem updateFirst_map_key {α : Type} (key : α → Nat) (q : α → Bool)
    (g : α → α) (hg : ∀ x, key (g x) = key x) :
    ∀ l : List α, (updateFirst q g l).map key = l.map key := by
  intro l
  induction l with
  | nil => rfl
  | cons a as ih =>
    cases hqa : q a
    · simp only [updateFirst, hqa, Bool.false_eq_true, if_false,
        List.map_cons, ih]
    · simp only [updateFirst, hqa, if_true, List.map_cons, hg a]

/-- Members of `updateFirst` are original members or the updated one. -/
theorem mem_updateFirst {α : Type} (q : α → Bool) (g : α → α) :
    ∀ (l : List α) (y : α), y ∈ updateFirst q g l →
      y ∈ l ∨ ∃ x ∈ l, y = g x := by
  intro l
  induction l with
  | nil => intro y hy; cases hy
  | cons a as ih =>
    intro y hy
    cases hqa : q a
    · rw [updateFirst] at hy
      rw [hqa] at hy
      simp only [Bool.false_eq_true, if_false] at hy
      rcases List.mem_cons.1 hy with rfl | h
      · exact Or.inl (List.mem_cons_self y as)
      · rcases ih y h with h2 | ⟨x, hx, hgx⟩
        · exact Or.inl (List.mem_cons_of_mem a h2)
        · exact Or.inr ⟨x, List.mem_cons_of_mem a hx, hgx⟩
    · rw [updateFirst] at hy
      rw [hqa] at hy
      simp only [if_true] at hy
      rcases List.mem_cons.1 hy with rfl | h
      · exact Or.inr ⟨a, List.mem_cons_self a as, rfl⟩
      · exact Or.inl (List.mem_cons_of_mem a h)

/-- Saving an account never changes the id column. -/
theorem ownerTxSum_append (l1 l2 : List Transaction) (a : Account) :
    ownerTxSum (l1 ++ l2) a = ownerTxSum l1 a + ownerTxSum l2 a := by
  rw [ownerTxSum_eq_sumBy, ownerTxSum_eq_sumBy, ownerTxSum_eq_sumBy,
    sumBy_append]

theorem ownerTxSum_singleton (t : Transaction) (a : Account) :
    ownerTxSum [t] a =
      if (t.accountId == a.id && t.user == a.user) = true then
        signedAmount t else 0 := by
  rw [ownerTxSum_eq_sumBy, sumBy_singleton]

/-- Appending transactions with fresh, pairwise-distinct ids and bumping
the counter preserves well-formedness. -/
theorem wf_extend (s : Store) (n2 : Nat) (l : List Transaction)
    (hwf : WF s) (hnd : (l.map (fun t => t.id)).Nodup)
    (hfresh : ∀ t ∈ l, s.nextId ≤ t.id ∧ t.id < n2) (hn : s.nextId ≤ n2) :
    WF { s with nextId := n2, transactions := s.transactions ++ l } := by
  refine ⟨hwf.1, ?_, ?_⟩
  · show ((s.transactions ++ l).map (fun t => t.id)).Nodup
    rw [List.map_append, List.nodup_append]
    refine ⟨hwf.2.1, hnd, ?_⟩
    intro x hx hx2
    obtain ⟨t, ht, hid⟩ := List.mem_map.1 hx
    obtain ⟨u, hu, huid⟩ := List.mem_map.1 hx2
    have h1 : x < s.nextId := hid ▸ hwf.2.2 t ht
    have h2 : s.nextId ≤ x := huid ▸ (hfresh u hu).1
    omega
  · intro t ht
    show t.id < n2
    rcases List.mem_append.1 ht with h | h
    · exact Nat.lt_of_lt_of_le (hwf.2.2 t h) hn
    · exact (hfresh t h).2

/-- A successfully completed transaction creation preserves
well-formedness and the owner-scoped balance invariant (an error
response contributes nothing to a successful sequence). -/
theorem createTransaction_preserves (s : Store) (uid : Nat)
    (req : TxCreateReq) (hwf : WF s) (hinv : BalanceInv s) :
    WF (keepIfOk s (createTransaction s uid req)) ∧
    BalanceInv (keepIfOk s (createTransaction s uid req)) := by
  cases hfind : findAccount s req.accountId uid with
  | none =>
    simp only [keepIfOk, createTransaction, hfind]
    exact ⟨hwf, hinv⟩
  | some acc =>
    have haccmem : acc ∈ s.accounts := List.mem_of_find?_eq_some hfind
    have hpacc : acc.id = req.accountId ∧ acc.user = uid := by
      have := List.find?_some
        (p := fun a : Account => a.id == req.accountId && a.user == uid)
        hfind
      simpa using this
    by_cases hpos : 0 ≤ (match req.type with
        | TxType.income => acc.balance + req.amount
        | TxType.expense => acc.balance - req.amount)
    case neg =>
      simp only [keepIfOk, createTransaction, hfind, if_neg hpos]
      exact ⟨hwf, hinv⟩
    case pos =>
    simp only [keepIfOk, createTransaction, hfind, if_pos hpos]
    constructor
    · apply saveAccount_wf
      apply wf_extend s (s.nextId + 1) _ hwf (by simp)
      · intro t ht
        simp only [List.mem_singleton] at ht
        subst ht
        exact ⟨Nat.le_refl _, Nat.lt_succ_self _⟩
      · exact Nat.le_succ _
    · intro b' hb'
      rw [saveAccount_accounts] at hb'
      obtain ⟨b, hb, hfb⟩ := List.mem_map.1 hb'
      show b'.balance = ownerTxSum (s.transactions ++ [_]) b'
      by_cases hid : b.id = acc.id
      · have hbacc : b = acc :=
          eq_of_key_eq (fun x => x.id) s.accounts hwf.1 hb haccmem hid
        subst hbacc
        rw [if_pos rfl] at hfb
        subst hfb
        rw [ownerTxSum_balance_irrel, ownerTxSum_append,
          ownerTxSum_singleton, if_pos (by simp [hpacc.1, hpacc.2]),
          ← hinv b hb]
        cases hty : req.type <;> simp [signedAmount, hty] <;> ring
      · rw [if_neg hid] at hfb
        subst hfb
        rw [ownerTxSum_append, ownerTxSum_singleton,
          if_neg (by
            simp only [Bool.and_eq_true, beq_iff_eq, not_and]
            intro h
            exact absurd (h ▸ hpacc.1.symm ▸ rfl : b.id = acc.id) hid),
          Int.add_zero]
        exact hinv b hb

theorem ownerTxSum_pair (t1 t2 : Transaction) (a : Account) :
    ownerTxSum [t1, t2] a =
      (if (t1.accountId == a.id && t1.user == a.user) = true then
        signedAmount t1 else 0) +
      (if (t2.accountId == a.id && t2.user == a.user) = true then
        signedAmount t2 else 0) := by
  rw [ownerTxSum_eq_sumBy, sumBy_cons, sumBy_cons, sumBy_nil,
    Int.add_zero]

/-- Transferring preserves well-formedness and the owner-scoped balance
invariant. -/
theorem transfer_preserves (s : Store) (uid : Nat) (req : TransferReq)
    (now : Nat) (hwf : WF s) (hinv : BalanceInv s) :
    WF (keepIfOk s (transfer s uid req now)) ∧
    BalanceInv (keepIfOk s (transfer s uid req now)) := by
  by_cases hle : req.amount ≤ 0
  · simp only [keepIfOk, transfer, if_pos hle]; exact ⟨hwf, hinv⟩
  · cases heq : (req.sourceAccountId == req.targetAccountId)
    swap
    · simp only [keepIfOk, transfer, if_neg hle, heq, if_true]
      exact ⟨hwf, hinv⟩
    · cases hfs : findAccount s req.sourceAccountId uid with
      | none =>
        simp only [keepIfOk, transfer, if_neg hle, heq,
          Bool.false_eq_true, if_false, hfs]
        cases hft : findAccount s req.targetAccountId uid <;>
          exact ⟨hwf, hinv⟩
      | some src =>
        cases hft : findAccount s req.targetAccountId uid with
        | none =>
          simp only [keepIfOk, transfer, if_neg hle, heq,
            Bool.false_eq_true, if_false, hfs, hft]
          exact ⟨hwf, hinv⟩
        | some tgt =>
          have hsrcmem : src ∈ s.accounts := List.mem_of_find?_eq_some hfs
          have htgtmem : tgt ∈ s.accounts := List.mem_of_find?_eq_some hft
          have hsrcp : src.id = req.sourceAccountId ∧ src.user = uid := by
            have := List.find?_some (p := fun a : Account =>
              a.id == req.sourceAccountId && a.user == uid) hfs
            simpa using this
          have htgtp : tgt.id = req.targetAccountId ∧ tgt.user = uid := by
            have := List.find?_some (p := fun a : Account =>
              a.id == req.targetAccountId && a.user == uid) hft
            simpa using this
          have hne : req.sourceAccountId ≠ req.targetAccountId := by
            simpa using heq
          have hidne : src.id ≠ tgt.id := by
            rw [hsrcp.1, htgtp.1]; exact hne
          by_cases hvs : 0 ≤ src.balance - req.amount
          case neg =>
            have hnab : ¬ (0 ≤ src.balance - req.amount ∧
                0 ≤ tgt.balance + req.amount) := fun h => hvs h.1
            simp only [keepIfOk, transfer, if_neg hle, heq,
              Bool.false_eq_true, if_false, hfs, hft, if_neg hvs,
              if_neg hnab]
            exact ⟨hwf, hinv⟩
          case pos =>
          by_cases hvt : 0 ≤ tgt.balance + req.amount
          case neg =>
            have hnab : ¬ (0 ≤ src.balance - req.amount ∧
                0 ≤ tgt.balance + req.amount) := fun h => hvt h.2
            simp only [keepIfOk, transfer, if_neg hle, heq,
              Bool.false_eq_true, if_false, hfs, hft, if_pos hvs,
              if_neg hvt, if_neg hnab]
            exact ⟨hwf, hinv⟩
          case pos =>
          simp only [keepIfOk, transfer, if_neg hle, heq,
            Bool.false_eq_true, if_false, hfs, hft, if_pos hvs,
            if_pos hvt, if_pos (And.intro hvs hvt)]
          constructor
          · apply saveAccount_wf
            apply saveAccount_wf
            apply wf_extend s (s.nextId + 2) _ hwf (by simp)
            · intro t ht
              rcases List.mem_cons.1 ht with rfl | ht2
              · exact ⟨Nat.le_refl _,
                  Nat.lt_succ_of_lt (Nat.lt_succ_self _)⟩
              · simp only [List.mem_singleton] at ht2
                subst ht2
                exact ⟨Nat.le_succ _, Nat.lt_succ_self _⟩
            · omega
          · intro b' hb'
            rw [saveAccount_accounts] at hb'
            obtain ⟨b1, hb1, hfb1⟩ := List.mem_map.1 hb'
            rw [saveAccount_accounts] at hb1
            obtain ⟨b, hb, hfb⟩ := List.mem_map.1 hb1
            show b'.balance = ownerTxSum (s.transactions ++ [_, _]) b'
            by_cases hbsrc : b.id = src.id
            · have hbeq : b = src :=
                eq_of_key_eq (fun x => x.id) s.accounts hwf.1 hb hsrcmem
                  hbsrc
              subst hbeq
              rw [if_pos rfl] at hfb
              subst hfb
              rw [if_neg (by simpa using hidne)] at hfb1
              subst hfb1
              rw [ownerTxSum_balance_irrel, ownerTxSum_append,
                ownerTxSum_pair,
                if_pos (by simp [hsrcp.1, hsrcp.2]),
                if_neg (by
                  simp only [Bool.and_eq_true, beq_iff_eq, not_and]
                  intro h
                  exact absurd (h.trans hsrcp.1).symm hne),
                ← hinv b hb]
              simp [signedAmount, sub_eq_add_neg]
            · rw [if_neg hbsrc] at hfb
              subst hfb
              by_cases hbtgt : b.id = tgt.id
              · have hbeq : b = tgt :=
                  eq_of_key_eq (fun x => x.id) s.accounts hwf.1 hb htgtmem
                    hbtgt
                subst hbeq
                rw [if_pos rfl] at hfb1
                subst hfb1
                rw [ownerTxSum_balance_irrel, ownerTxSum_append,
                  ownerTxSum_pair,
                  if_neg (by
                    simp only [Bool.and_eq_true, beq_iff_eq, not_and]
                    intro h
                    exact absurd (h.trans htgtp.1) hne),
                  if_pos (by simp [htgtp.1, htgtp.2]),
                  ← hinv b hb]
                simp [signedAmount]
              · rw [if_neg hbtgt] at hfb1
                subst hfb1
                rw [ownerTxSum_append, ownerTxSum_pair,
                  if_neg (by
                    simp only [Bool.and_eq_true, beq_iff_eq, not_and]
                    intro h
                    exact absurd (h.symm.trans hsrcp.1.symm) hbsrc),
                  if_neg (by
                    simp only [Bool.and_eq_true, beq_iff_eq, not_and]
                    intro h
                    exact absurd (h.symm.trans htgtp.1.symm) hbtgt)]
                rw [Int.add_zero, Int.add_zero]
                exact hinv b hb

/-- A successfully completed single delete preserves the owner-scoped
balance invariant (an error response contributes nothing to a
successful sequence). -/
theorem deleteTransaction_preserves (s : Store) (uid i : Nat)
    (hwf : WF s) (hinv : BalanceInv s) :
    BalanceInv (keepIfOk s (deleteTransaction s uid i)) := by
  cases hf : findTransaction s i uid with
  | none =>
    have hok : (deleteTransaction s uid i).2 = .ok () := by
      simp [deleteTransaction, hf]
    rw [keepIfOk_of_ok s _ () hok, deleteTransaction_nomatch s uid i hf]
    exact hinv
  | some tx =>
    have htxmem : tx ∈ s.transactions := List.mem_of_find?_eq_some hf
    have hptx : (tx.id == i && tx.user == uid) = true :=
      List.find?_some
        (p := fun t : Transaction => t.id == i && t.user == uid) hf
    have hparts : tx.id = i ∧ tx.user = uid := by simpa using hptx
    have huniq : ∀ y ∈ s.transactions,
        (y.id == i && y.user == uid) = true → y = tx := by
      intro y hy hpy
      simp only [Bool.and_eq_true, beq_iff_eq] at hpy
      exact eq_of_key_eq (fun t => t.id) s.transactions hwf.2.1 hy htxmem
        (by show y.id = tx.id; rw [hpy.1, hparts.1])
    have hmain : (∀ acc, findAccount s tx.accountId uid = some acc →
        0 ≤ revertBalance acc tx) →
        BalanceInv (deleteTransaction s uid i).1 := by
      intro hval
      rw [deleteTransaction_found s uid i tx hwf hf hval]
      intro b' hb'
      obtain ⟨b, hb, hfb⟩ := List.mem_map.1 hb'
      subst hfb
      show _ = ownerTxSum (s.transactions.filter
        (fun t => !(t.id == i && t.user == uid))) _
      rw [ownerTxSum_balance_irrel,
        ← eraseP_eq_filter_not (p := fun t => t.id == i && t.user == uid)
          (hwf.2.1.of_map) htxmem huniq,
        ownerTxSum_eq_sumBy,
        sumBy_eraseP signedAmount _ _ (hwf.2.1.of_map) htxmem hptx huniq,
        ← ownerTxSum_eq_sumBy, ← hinv b hb]
      have hadj : txAdjustment tx = -(signedAmount tx) := by
        cases h : tx.type <;> simp [txAdjustment, signedAmount, h]
      by_cases h1 : b.id = tx.accountId
      · by_cases h2 : b.user = uid
        · rw [if_pos (by simp [h1, h2]),
            if_pos (by simp [h1.symm, hparts.2, h2]), hadj]
          ring
        · rw [if_neg (by simp [h2]),
            if_neg (by
              simp only [Bool.and_eq_true, beq_iff_eq, not_and]
              intro _ hu
              exact h2 (by rw [← hu, hparts.2])),
            Int.add_zero, Int.sub_zero]
      · rw [if_neg (by simp [h1]),
          if_neg (by
            simp only [Bool.and_eq_true, beq_iff_eq, not_and]
            intro hu _
            exact h1 hu.symm),
          Int.add_zero, Int.sub_zero]
    cases hacc : findAccount s tx.accountId uid with
    | none =>
      have hok : (deleteTransaction s uid i).2 = .ok () := by
        simp [deleteTransaction, hf, hacc]
      rw [keepIfOk_of_ok s _ () hok]
      exact hmain (fun acc h => by rw [hacc] at h; cases h)
    | some acc =>
      by_cases hv : 0 ≤ revertBalance acc tx
      · have hok : (deleteTransaction s uid i).2 = .ok () := by
          simp [deleteTransaction, hf, hacc, if_pos hv]
        rw [keepIfOk_of_ok s _ () hok]
        refine hmain (fun acc2 h2 => ?_)
        rw [hacc] at h2
        exact (Option.some.inj h2) ▸ hv
      · have herr : (deleteTransaction s uid i).2 =
            .error .invalidArgument := by
          simp [deleteTransaction, hf, hacc, if_neg hv]
        rw [keepIfOk_of_error s _ _ herr]
        exact hinv

/-- Commuting the account-side and transaction-side spellings of the
contribution condition, under any matcher that forces the caller as
owner. -/
theorem contrib_matches_comm (b : Account) (uid : Nat)
    (m : Transaction → Bool) (hm : ∀ t, m t = true → t.user = uid) :
    ∀ t, ((b.id == t.accountId && b.user == uid) && m t) =
      ((t.accountId == b.id && t.user == b.user) && m t) := by
  intro t
  cases hmt : m t
  · simp
  · have hu : t.user = uid := hm t hmt
    by_cases h1 : b.id = t.accountId
    · by_cases h3 : b.user = uid
      · simp [h1, h3, hu]
      · have : ¬ (t.user = b.user) := fun hh => h3 (by rw [← hu, hh])
        simp [h1, h3, this]
    · have e1 : (b.id == t.accountId) = false := by simpa using h1
      have e2 : (t.accountId == b.id) = false := by
        have : ¬ (t.accountId = b.id) := fun hh => h1 hh.symm
        simpa using this
      simp [e1, e2]

/-- Removing the matched transactions while crediting their aggregated
reversal deltas preserves a per-account conditional sum. -/
theorem sumBy_remove_matched (b : Account) (uid : Nat)
    (m : Transaction → Bool) (hm : ∀ t, m t = true → t.user = uid) :
    ∀ l : List Transaction,
    sumBy signedAmount (fun t => t.accountId == b.id && t.user == b.user)
        (l.filter (fun t => !(m t))) =
      sumBy signedAmount
        (fun t => t.accountId == b.id && t.user == b.user) l +
      sumBy txAdjustment (fun t => b.id == t.accountId && b.user == uid)
        (l.filter m) := by
  intro l
  induction l with
  | nil => simp [sumBy]
  | cons t rest ih =>
    have hcomm := contrib_matches_comm b uid m hm t
    cases hmt : m t
    · rw [List.filter_cons_of_pos (by simp [hmt]),
        List.filter_cons_of_neg (by simp [hmt]), sumBy_cons, sumBy_cons,
        ih]
      ring
    · rw [hmt, Bool.and_true, Bool.and_true] at hcomm
      have hadj : txAdjustment t = -(signedAmount t) := by
        cases h : t.type <;> simp [txAdjustment, signedAmount, h]
      rw [List.filter_cons_of_neg (by simp [hmt]),
        List.filter_cons_of_pos (by simp [hmt]), sumBy_cons, sumBy_cons,
        ih, hcomm, hadj]
      cases hc : (t.accountId == b.id && t.user == b.user)
      · simp
      · simp only [if_true]
        ring

/-- The canonical matched-removal store preserves the owner-scoped
balance invariant. -/
theorem canonical_removal_preserves (s : Store) (uid : Nat)
    (m : Transaction → Bool) (hm : ∀ t, m t = true → t.user = uid)
    (hinv : BalanceInv s) :
    BalanceInv { s with
      transactions := (s.transactions.filter (fun t => !(m t))),
      accounts := (s.accounts.map (fun a =>
        { a with balance := (a.balance +
          sumBy txAdjustment
            (fun t => a.id == t.accountId && a.user == uid)
            (s.transactions.filter m)) })) } := by
  intro b' hb'
  obtain ⟨b, hb, hfb⟩ := List.mem_map.1 hb'
  subst hfb
  show _ = ownerTxSum (s.transactions.filter (fun t => !(m t))) _
  rw [ownerTxSum_balance_irrel, ownerTxSum_eq_sumBy,
    sumBy_remove_matched b uid m hm s.transactions,
    ← ownerTxSum_eq_sumBy, ← hinv b hb]

/-- The canonical matched-removal store is well-formed. -/
theorem canonical_removal_wf (s : Store) (uid : Nat)
    (m : Transaction → Bool) (hwf : WF s) :
    WF { s with
      transactions := (s.transactions.filter (fun t => !(m t))),
      accounts := (s.accounts.map (fun a =>
        { a with balance := (a.balance +
          sumBy txAdjustment
            (fun t => a.id == t.accountId && a.user == uid)
            (s.transactions.filter m)) })) } := by
  refine ⟨?_, ?_, ?_⟩
  · dsimp only
    rw [List.map_map]
    exact hwf.1
  · exact hwf.2.1.sublist
      (List.Sublist.map _ (List.filter_sublist s.transactions))
  · intro t ht
    exact hwf.2.2 t (List.mem_of_mem_filter ht)

/-- Bulk delete preserves well-formedness and the invariant. -/
theorem bulkDelete_preserves (s : Store) (uid : Nat) (ids : List Nat)
    (hwf : WF s) (hinv : BalanceInv s) :
    WF (bulkDeleteTransactions s uid ids).1 ∧
    BalanceInv (bulkDeleteTransactions s uid ids).1 := by
  obtain ⟨h1, h2, h3⟩ := bulkDelete_characterisation s uid ids
  have hstore : (bulkDeleteTransactions s uid ids).1 =
      { s with
        transactions :=
          (s.transactions.filter (fun t => !(matchesIds ids uid t))),
        accounts := (s.accounts.map (fun a =>
          { a with balance := (a.balance +
            sumBy txAdjustment
              (fun t => a.id == t.accountId && a.user == uid)
              (s.transactions.filter (matchesIds ids uid))) })) } :=
    store_eq_of_components h1 h3 h2
  rw [hstore]
  have hm : ∀ t, matchesIds ids uid t = true → t.user = uid := by
    intro t ht
    simp only [matchesIds, Bool.and_eq_true, beq_iff_eq] at ht
    exact ht.2
  exact ⟨canonical_removal_wf s uid _ hwf,
    canonical_removal_preserves s uid _ hm hinv⟩

/-- Delete-all, spelt out like bulk delete. -/
theorem deleteAll_characterisation (s : Store) (uid : Nat) :
    (deleteAllTransactions s uid).1.nextId = s.nextId ∧
    (deleteAllTransactions s uid).1.transactions =
      s.transactions.filter (fun t => !(t.user == uid)) ∧
    (deleteAllTransactions s uid).1.accounts =
      s.accounts.map (fun a =>
        { a with balance := (a.balance +
          sumBy txAdjustment
            (fun t => a.id == t.accountId && a.user == uid)
            (s.transactions.filter (fun t => t.user == uid))) }) := by
  by_cases hmatched :
      (s.transactions.filter (fun t => t.user == uid)).isEmpty = true
  · have hmm : s.transactions.filter (fun t => t.user == uid) = [] :=
      List.isEmpty_iff.1 hmatched
    have hred : deleteAllTransactions s uid = (s, .ok 0) := by
      simp only [deleteAllTransactions, hmatched]
      simp
    rw [hred]
    have hnomatch : ∀ t ∈ s.transactions, (t.user == uid) = false := by
      intro t ht
      cases hq : (t.user == uid)
      · rfl
      · exact absurd
          ((List.mem_filter (p := fun t : Transaction =>
            t.user == uid)).2 ⟨ht, hq⟩) (by simp [hmm])
    refine ⟨rfl, ?_, ?_⟩
    · show s.transactions = _
      symm
      apply List.filter_eq_self.2
      intro t ht
      simp [hnomatch t ht]
    · show s.accounts = _
      rw [hmm]
      symm
      apply map_eq_self_of_fix
      intro a ha
      simp [sumBy]
  · have hred : deleteAllTransactions s uid =
        ({ applyBulkOps s uid (aggregateAdjustments
            (s.transactions.filter (fun t => t.user == uid))) with
           transactions := ((applyBulkOps s uid (aggregateAdjustments
             (s.transactions.filter
               (fun t => t.user == uid)))).transactions.filter
             (fun t => !(t.user == uid))) },
         .ok (s.transactions.filter (fun t => t.user == uid)).length) := by
      simp only [deleteAllTransactions, hmatched]
      simp
    obtain ⟨ha, ht, hn⟩ := applyBulkOps_characterisation uid
      (aggregateAdjustments
        (s.transactions.filter (fun t => t.user == uid))) s
    rw [hred]
    refine ⟨hn, by rw [ht], ?_⟩
    show (applyBulkOps s uid _).accounts = _
    rw [ha]
    apply List.map_congr_left
    intro a ha2
    have := incTotal_aggregate uid a
      (s.transactions.filter (fun t => t.user == uid)) []
    rw [show aggregateAdjustments
        (s.transactions.filter (fun t => t.user == uid)) =
        (s.transactions.filter (fun t => t.user == uid)).foldl
          (fun m t => addAdjustment m t.accountId (txAdjustment t)) []
        from rfl, this]
    simp [incTotal]

/-- Delete-all preserves well-formedness and the invariant. -/
theorem deleteAll_preserves (s : Store) (uid : Nat)
    (hwf : WF s) (hinv : BalanceInv s) :
    WF (deleteAllTransactions s uid).1 ∧
    BalanceInv (deleteAllTransactions s uid).1 := by
  obtain ⟨h1, h2, h3⟩ := deleteAll_characterisation s uid
  have hstore : (deleteAllTransactions s uid).1 =
      { s with
        transactions :=
          (s.transactions.filter (fun t => !(t.user == uid))),
        accounts := (s.accounts.map (fun a =>
          { a with balance := (a.balance +
            sumBy txAdjustment
              (fun t => a.id == t.accountId && a.user == uid)
              (s.transactions.filter (fun t => t.user == uid))) })) } :=
    store_eq_of_components h1 h3 h2
  rw [hstore]
  have hm : ∀ t : Transaction, (t.user == uid) = true → t.user = uid := by
    intro t ht
    simpa using ht
  exact ⟨canonical_removal_wf s uid _ hwf,
    canonical_removal_preserves s uid _ hm hinv⟩

/-- Saving one account on top of a collection that satisfies the balance
equation elsewhere keeps the equation everywhere. -/
theorem inv_save (accs : List Account) (txs : List Transaction)
    (a : Account)
    (h : ∀ b ∈ accs, b.id ≠ a.id → b.balance = ownerTxSum txs b)
    (ha : a.balance = ownerTxSum txs a) :
    ∀ b' ∈ accs.map (fun b => if b.id = a.id then a else b),
      b'.balance = ownerTxSum txs b' := by
  intro b' hb'
  obtain ⟨b, hb, hfb⟩ := List.mem_map.1 hb'
  by_cases hid : b.id = a.id
  · rw [if_pos hid] at hfb; subst hfb; exact ha
  · rw [if_neg hid] at hfb; subst hfb; exact h b hb hid

/-- Updating a transaction preserves well-formedness and the
owner-scoped balance invariant. -/
theorem updateTransaction_preserves (s : Store) (uid txId : Nat)
    (req : TxUpdateReq) (hwf : WF s) (hinv : BalanceInv s) :
    WF (keepIfOk s (updateTransaction s uid txId req)) ∧
    BalanceInv (keepIfOk s (updateTransaction s uid txId req)) := by
  cases hf : findTransaction s txId uid with
  | none =>
    simp only [keepIfOk, updateTransaction, hf]
    exact ⟨hwf, hinv⟩
  | some oldTx =>
    have htxmem : oldTx ∈ s.transactions := List.mem_of_find?_eq_some hf
    have hparts : oldTx.id = txId ∧ oldTx.user = uid := by
      simpa using List.find?_some
        (p := fun t : Transaction => t.id == txId && t.user == uid) hf
    have huniq2 : ∀ y ∈ s.transactions, (y.id == txId) = true →
        y = oldTx := by
      intro y hy hpy
      exact eq_of_key_eq (fun t => t.id) s.transactions hwf.2.1 hy htxmem
        (by show y.id = oldTx.id; rw [hparts.1]; simpa using hpy)
    have hbyid : s.transactions.find? (fun t => t.id == txId) =
        some oldTx := by
      have h0 := findById_eq_some s oldTx hwf htxmem
      rw [hparts.1] at h0
      exact h0
    have hwf1 : WF { s with transactions :=
        (updateFirst (fun t => t.id == txId)
          (fun t => applyUpdate t req) s.transactions) } := by
      refine ⟨hwf.1, ?_, ?_⟩
      · show ((updateFirst (fun t => t.id == txId)
          (fun t => applyUpdate t req) s.transactions).map
          (fun t => t.id)).Nodup
        rw [updateFirst_map_key (fun t : Transaction => t.id)
          (fun t => t.id == txId) (fun t => applyUpdate t req)
          (fun x => rfl) s.transactions]
        exact hwf.2.1
      · intro t ht
        rcases mem_updateFirst _ _ s.transactions t ht with h | ⟨x, hx, hgx⟩
        · exact hwf.2.2 t h
        · subst hgx
          show (applyUpdate x req).id < s.nextId
          exact hwf.2.2 x hx
    have hsum : ∀ c : Account,
        ownerTxSum (updateFirst (fun t => t.id == txId)
          (fun t => applyUpdate t req) s.transactions) c =
        ownerTxSum s.transactions c -
          (if (oldTx.accountId == c.id && oldTx.user == c.user) = true
           then signedAmount oldTx else 0) +
          (if ((applyUpdate oldTx req).accountId == c.id &&
               (applyUpdate oldTx req).user == c.user) = true
           then signedAmount (applyUpdate oldTx req) else 0) := by
      intro c
      rw [ownerTxSum_eq_sumBy,
        sumBy_updateFirst signedAmount _ _ _ (hwf.2.1.of_map) htxmem
          (by simp [hparts.1]) huniq2,
        ← ownerTxSum_eq_sumBy]
    have hzero_old : ∀ c : Account, ¬(oldTx.accountId = c.id ∧
        uid = c.user) →
        (if (oldTx.accountId == c.id && oldTx.user == c.user) = true
         then signedAmount oldTx else 0) = 0 := by
      intro c hc
      rw [if_neg (by
        simp only [Bool.and_eq_true, beq_iff_eq, not_and]
        intro h1 h2
        exact hc ⟨h1, by rw [← hparts.2, h2]⟩)]
    have hupduser : (applyUpdate oldTx req).user = uid := hparts.2
    have hzero_new : ∀ c : Account,
        ¬((applyUpdate oldTx req).accountId = c.id ∧ uid = c.user) →
        (if ((applyUpdate oldTx req).accountId == c.id &&
             (applyUpdate oldTx req).user == c.user) = true
         then signedAmount (applyUpdate oldTx req) else 0) = 0 := by
      intro c hc
      rw [if_neg (by
        simp only [Bool.and_eq_true, beq_iff_eq, not_and]
        intro h1 h2
        exact hc ⟨h1, by rw [← hupduser, h2]⟩)]
    have hadjold : txAdjustment oldTx = -(signedAmount oldTx) := by
      cases h : oldTx.type <;> simp [txAdjustment, signedAmount, h]
    have huntouched : ∀ b : Account, b ∈ s.accounts →
        ¬(oldTx.accountId = b.id ∧ uid = b.user) →
        ¬((applyUpdate oldTx req).accountId = b.id ∧ uid = b.user) →
        b.balance = ownerTxSum (updateFirst (fun t => t.id == txId)
          (fun t => applyUpdate t req) s.transactions) b := by
      intro b hb h1 h2
      rw [hsum b, hzero_old b h1, hzero_new b h2, Int.sub_zero,
        Int.add_zero]
      exact hinv b hb
    have hrevfact : ∀ acc : Account, acc ∈ s.accounts →
        acc.id = oldTx.accountId → acc.user = uid →
        ¬((applyUpdate oldTx req).accountId = acc.id ∧ uid = acc.user) →
        revertBalance acc oldTx =
          ownerTxSum (updateFirst (fun t => t.id == txId)
            (fun t => applyUpdate t req) s.transactions) acc := by
      intro acc hmem h1 h2 h3
      rw [hsum acc, hzero_new acc h3, Int.add_zero,
        if_pos (by simp [h1, hparts.2, h2]), ← hinv acc hmem,
        revertBalance_eq, hadjold]
      ring
    have hfwdfact : ∀ tgt : Account, tgt ∈ s.accounts →
        (applyUpdate oldTx req).accountId = tgt.id → tgt.user = uid →
        ¬(oldTx.accountId = tgt.id ∧ uid = tgt.user) →
        (match (applyUpdate oldTx req).type with
         | .income => tgt.balance + (applyUpdate oldTx req).amount
         | .expense => tgt.balance - (applyUpdate oldTx req).amount) =
          ownerTxSum (updateFirst (fun t => t.id == txId)
            (fun t => applyUpdate t req) s.transactions) tgt := by
      intro tgt hmem h1 h2 h3
      rw [hsum tgt, hzero_old tgt h3, Int.sub_zero,
        if_pos (by simp [h1, hupduser, h2]), ← hinv tgt hmem]
      cases hty : (applyUpdate oldTx req).type <;>
        simp [signedAmount, hty] <;> ring
    have hnetfact : ∀ acc : Account, acc ∈ s.accounts →
        acc.id = oldTx.accountId → acc.user = uid →
        (applyUpdate oldTx req).accountId = oldTx.accountId →
        (match (applyUpdate oldTx req).type with
         | .income => revertBalance acc oldTx + (applyUpdate oldTx req).amount
         | .expense => revertBalance acc oldTx - (applyUpdate oldTx req).amount)
          = ownerTxSum (updateFirst (fun t => t.id == txId)
            (fun t => applyUpdate t req) s.transactions) acc := by
      intro acc hmem h1 h2 hsame
      rw [hsum acc, if_pos (by simp [h1, hparts.2, h2]),
        if_pos (by simp [hsame, h1, hupduser, h2]), ← hinv acc hmem,
        revertBalance_eq, hadjold]
      cases hty : (applyUpdate oldTx req).type <;>
        simp [signedAmount, hty] <;> ring
    cases hreq2 : req.accountId with
    | none =>
      have hupdacc2 : (applyUpdate oldTx req).accountId =
          oldTx.accountId := by simp [applyUpdate, hreq2]
      cases hacc : findAccount s oldTx.accountId uid with
      | some acc =>
        have haccmem : acc ∈ s.accounts := List.mem_of_find?_eq_some hacc
        have haccp : acc.id = oldTx.accountId ∧ acc.user = uid := by
          simpa using List.find?_some (p := fun a : Account =>
            a.id == oldTx.accountId && a.user == uid) hacc
        simp only [keepIfOk, updateTransaction, hf, hbyid,
          Option.map_some', hreq2, hacc]
        by_cases hval : 0 ≤ (match (applyUpdate oldTx req).type with
          | TxType.income => revertBalance acc oldTx +
              (applyUpdate oldTx req).amount
          | TxType.expense => revertBalance acc oldTx -
              (applyUpdate oldTx req).amount)
        case neg =>
          rw [if_neg hval]
          exact ⟨hwf, hinv⟩
        rw [if_pos hval, if_neg (show ¬ acc.id ≠ acc.id by simp)]
        refine ⟨saveAccount_wf _ _ hwf1, ?_⟩
        intro b' hb'
        rw [saveAccount_accounts] at hb'
        obtain ⟨b, hb, hfb⟩ := List.mem_map.1 hb'
        dsimp only at hfb
        show b'.balance = ownerTxSum (updateFirst (fun t => t.id == txId)
          (fun t => applyUpdate t req) s.transactions) b'
        by_cases hid : b.id = acc.id
        · have hbeq : b = acc :=
            eq_of_key_eq (fun x => x.id) s.accounts hwf.1 hb haccmem hid
          subst hbeq
          rw [if_pos rfl] at hfb
          subst hfb
          rw [ownerTxSum_balance_irrel]
          exact hnetfact b hb haccp.1 haccp.2 hupdacc2
        · rw [if_neg hid] at hfb
          subst hfb
          refine huntouched b hb ?_ ?_
          · rintro ⟨p1, p2⟩
            exact hid (p1.symm.trans haccp.1.symm)
          · rintro ⟨p1, p2⟩
            rw [hupdacc2] at p1
            exact hid (p1.symm.trans haccp.1.symm)
      | none =>
        have hnoacc : ∀ c ∈ s.accounts,
            ¬(c.id = oldTx.accountId ∧ c.user = uid) := by
          intro c hc hp
          exact absurd (by simp [hp.1, hp.2] :
            (c.id == oldTx.accountId && c.user == uid) = true)
            (by simpa using List.find?_eq_none.1 hacc c hc)
        simp only [keepIfOk, updateTransaction, hf, hbyid,
          Option.map_some', hreq2, hacc, Option.map_none']
        refine ⟨hwf1, ?_⟩
        intro b' hb'
        show b'.balance = ownerTxSum (updateFirst (fun t => t.id == txId)
          (fun t => applyUpdate t req) s.transactions) b'
        refine huntouched b' hb' ?_ ?_
        · rintro ⟨p1, p2⟩
          exact hnoacc b' hb' ⟨p1.symm, p2.symm⟩
        · rintro ⟨p1, p2⟩
          rw [hupdacc2] at p1
          exact hnoacc b' hb' ⟨p1.symm, p2.symm⟩
    | some aid =>
      by_cases haid : aid = oldTx.accountId
      · -- account id present but unchanged: nets onto the same account
        have hupdacc2 : (applyUpdate oldTx req).accountId =
            oldTx.accountId := by simp [applyUpdate, hreq2, haid]
        cases hacc : findAccount s oldTx.accountId uid with
        | some acc =>
          have haccmem : acc ∈ s.accounts :=
            List.mem_of_find?_eq_some hacc
          have haccp : acc.id = oldTx.accountId ∧ acc.user = uid := by
            simpa using List.find?_some (p := fun a : Account =>
              a.id == oldTx.accountId && a.user == uid) hacc
          simp only [keepIfOk, updateTransaction, hf, hbyid,
            Option.map_some', hreq2, if_pos haid, hacc]
          by_cases hval : 0 ≤ (match (applyUpdate oldTx req).type with
            | TxType.income => revertBalance acc oldTx +
                (applyUpdate oldTx req).amount
            | TxType.expense => revertBalance acc oldTx -
                (applyUpdate oldTx req).amount)
          case neg =>
            rw [if_neg hval]
            exact ⟨hwf, hinv⟩
          rw [if_pos hval, if_neg (show ¬ acc.id ≠ acc.id by simp)]
          refine ⟨saveAccount_wf _ _ hwf1, ?_⟩
          intro b' hb'
          rw [saveAccount_accounts] at hb'
          obtain ⟨b, hb, hfb⟩ := List.mem_map.1 hb'
          dsimp only at hfb
          show b'.balance = ownerTxSum (updateFirst
            (fun t => t.id == txId) (fun t => applyUpdate t req)
            s.transactions) b'
          by_cases hid : b.id = acc.id
          · have hbeq : b = acc :=
              eq_of_key_eq (fun x => x.id) s.accounts hwf.1 hb haccmem hid
            subst hbeq
            rw [if_pos rfl] at hfb
            subst hfb
            rw [ownerTxSum_balance_irrel]
            exact hnetfact b hb haccp.1 haccp.2 hupdacc2
          · rw [if_neg hid] at hfb
            subst hfb
            refine huntouched b hb ?_ ?_
            · rintro ⟨p1, p2⟩
              exact hid (p1.symm.trans haccp.1.symm)
            · rintro ⟨p1, p2⟩
              rw [hupdacc2] at p1
              exact hid (p1.symm.trans haccp.1.symm)
        | none =>
          have hnoacc : ∀ c ∈ s.accounts,
              ¬(c.id = oldTx.accountId ∧ c.user = uid) := by
            intro c hc hp
            exact absurd (by simp [hp.1, hp.2] :
              (c.id == oldTx.accountId && c.user == uid) = true)
              (by simpa using List.find?_eq_none.1 hacc c hc)
          simp only [keepIfOk, updateTransaction, hf, hbyid,
            Option.map_some', hreq2, if_pos haid, hacc, Option.map_none']
          refine ⟨hwf1, ?_⟩
          intro b' hb'
          show b'.balance = ownerTxSum (updateFirst
            (fun t => t.id == txId) (fun t => applyUpdate t req)
            s.transactions) b'
          refine huntouched b' hb' ?_ ?_
          · rintro ⟨p1, p2⟩
            exact hnoacc b' hb' ⟨p1.symm, p2.symm⟩
          · rintro ⟨p1, p2⟩
            rw [hupdacc2] at p1
            exact hnoacc b' hb' ⟨p1.symm, p2.symm⟩
      · -- account id re-pointed to a different id
        have hupdacc : (applyUpdate oldTx req).accountId = aid := by
          simp [applyUpdate, hreq2]
        cases hnew : findAccount s aid uid with
        | some tgt =>
          have htgtmem : tgt ∈ s.accounts :=
            List.mem_of_find?_eq_some hnew
          have htgtp : tgt.id = aid ∧ tgt.user = uid := by
            simpa using List.find?_some (p := fun a : Account =>
              a.id == aid && a.user == uid) hnew
          cases hacc : findAccount s oldTx.accountId uid with
          | some acc =>
            have haccmem : acc ∈ s.accounts :=
              List.mem_of_find?_eq_some hacc
            have haccp : acc.id = oldTx.accountId ∧ acc.user = uid := by
              simpa using List.find?_some (p := fun a : Account =>
                a.id == oldTx.accountId && a.user == uid) hacc
            have hacc_tgt : acc.id ≠ tgt.id := by
              rw [haccp.1, htgtp.1]
              exact fun h => haid h.symm
            simp only [keepIfOk, updateTransaction, hf, hbyid,
              Option.map_some', hreq2, if_neg haid, hnew, hacc]
            by_cases hval : 0 ≤ (match (applyUpdate oldTx req).type with
              | TxType.income => tgt.balance +
                  (applyUpdate oldTx req).amount
              | TxType.expense => tgt.balance -
                  (applyUpdate oldTx req).amount)
            case neg =>
              rw [if_neg hval]
              exact ⟨hwf, hinv⟩
            by_cases hval2 : 0 ≤ revertBalance acc oldTx
            case neg =>
              rw [if_pos hval,
                if_pos (show acc.id ≠ tgt.id from hacc_tgt),
                if_neg hval2]
              exact ⟨hwf, hinv⟩
            rw [if_pos hval,
              if_pos (show acc.id ≠ tgt.id from hacc_tgt),
              if_pos hval2]
            refine ⟨saveAccount_wf _ _ (saveAccount_wf _ _ hwf1), ?_⟩
            intro b' hb'
            rw [saveAccount_accounts] at hb'
            obtain ⟨b1, hb1, hfb1⟩ := List.mem_map.1 hb'
            rw [saveAccount_accounts] at hb1
            obtain ⟨b, hb, hfb⟩ := List.mem_map.1 hb1
            dsimp only at hfb
            show b'.balance = ownerTxSum (updateFirst
              (fun t => t.id == txId) (fun t => applyUpdate t req)
              s.transactions) b'
            by_cases hid1 : b.id = tgt.id
            · have hbeq : b = tgt :=
                eq_of_key_eq (fun x => x.id) s.accounts hwf.1 hb
                  htgtmem hid1
              subst hbeq
              rw [if_pos rfl] at hfb
              subst hfb
              dsimp only at hfb1
              rw [if_neg (fun h => hacc_tgt h.symm)] at hfb1
              subst hfb1
              rw [ownerTxSum_balance_irrel]
              refine hfwdfact b hb ?_ htgtp.2 ?_
              · rw [hupdacc]
                exact htgtp.1.symm
              · rintro ⟨p1, p2⟩
                exact hacc_tgt (haccp.1.trans p1)
            · rw [if_neg hid1] at hfb
              subst hfb
              dsimp only at hfb1
              by_cases hid2 : b.id = acc.id
              · have hbeq : b = acc :=
                  eq_of_key_eq (fun x => x.id) s.accounts hwf.1 hb
                    haccmem hid2
                subst hbeq
                rw [if_pos rfl] at hfb1
                subst hfb1
                rw [ownerTxSum_balance_irrel]
                refine hrevfact b hb haccp.1 haccp.2 ?_
                rintro ⟨p1, p2⟩
                exact haid ((hupdacc.symm.trans p1).trans haccp.1)
              · rw [if_neg hid2] at hfb1
                subst hfb1
                refine huntouched b hb ?_ ?_
                · rintro ⟨p1, p2⟩
                  exact hid2 (haccp.1.trans p1).symm
                · rintro ⟨p1, p2⟩
                  rw [hupdacc] at p1
                  exact hid1 (htgtp.1.trans p1).symm
          | none =>
            have hnoacc : ∀ c ∈ s.accounts,
                ¬(c.id = oldTx.accountId ∧ c.user = uid) := by
              intro c hc hp
              exact absurd (by simp [hp.1, hp.2] :
                (c.id == oldTx.accountId && c.user == uid) = true)
                (by simpa using List.find?_eq_none.1 hacc c hc)
            simp only [keepIfOk, updateTransaction, hf, hbyid,
              Option.map_some', hreq2, if_neg haid, hnew, hacc,
              Option.map_none']
            by_cases hval : 0 ≤ (match (applyUpdate oldTx req).type with
              | TxType.income => tgt.balance +
                  (applyUpdate oldTx req).amount
              | TxType.expense => tgt.balance -
                  (applyUpdate oldTx req).amount)
            case neg =>
              rw [if_neg hval]
              exact ⟨hwf, hinv⟩
            rw [if_pos hval]
            refine ⟨saveAccount_wf _ _ hwf1, ?_⟩
            intro b' hb'
            rw [saveAccount_accounts] at hb'
            obtain ⟨b, hb, hfb⟩ := List.mem_map.1 hb'
            dsimp only at hfb
            show b'.balance = ownerTxSum (updateFirst
              (fun t => t.id == txId) (fun t => applyUpdate t req)
              s.transactions) b'
            by_cases hid1 : b.id = tgt.id
            · have hbeq : b = tgt :=
                eq_of_key_eq (fun x => x.id) s.accounts hwf.1 hb
                  htgtmem hid1
              subst hbeq
              rw [if_pos rfl] at hfb
              subst hfb
              rw [ownerTxSum_balance_irrel]
              refine hfwdfact b hb ?_ htgtp.2 ?_
              · rw [hupdacc]
                exact htgtp.1.symm
              · rintro ⟨p1, p2⟩
                exact hnoacc b hb ⟨p1.symm, p2.symm⟩
            · rw [if_neg hid1] at hfb
              subst hfb
              refine huntouched b hb ?_ ?_
              · rintro ⟨p1, p2⟩
                exact hnoacc b hb ⟨p1.symm, p2.symm⟩
              · rintro ⟨p1, p2⟩
                rw [hupdacc] at p1
                exact hid1 (htgtp.1.trans p1).symm
        | none =>
          have hnonew : ∀ c ∈ s.accounts,
              ¬(c.id = aid ∧ c.user = uid) := by
            intro c hc hp
            exact absurd (by simp [hp.1, hp.2] :
              (c.id == aid && c.user == uid) = true)
              (by simpa using List.find?_eq_none.1 hnew c hc)
          cases hacc : findAccount s oldTx.accountId uid with
          | some acc =>
            have haccmem : acc ∈ s.accounts :=
              List.mem_of_find?_eq_some hacc
            have haccp : acc.id = oldTx.accountId ∧ acc.user = uid := by
              simpa using List.find?_some (p := fun a : Account =>
                a.id == oldTx.accountId && a.user == uid) hacc
            simp only [keepIfOk, updateTransaction, hf, hbyid,
              Option.map_some', hreq2, if_neg haid, hnew, hacc]
            by_cases hval : 0 ≤ revertBalance acc oldTx
            case neg =>
              rw [if_neg hval]
              exact ⟨hwf, hinv⟩
            rw [if_pos hval]
            refine ⟨saveAccount_wf _ _ hwf1, ?_⟩
            intro b' hb'
            rw [saveAccount_accounts] at hb'
            obtain ⟨b, hb, hfb⟩ := List.mem_map.1 hb'
            dsimp only at hfb
            show b'.balance = ownerTxSum (updateFirst
              (fun t => t.id == txId) (fun t => applyUpdate t req)
              s.transactions) b'
            by_cases hid2 : b.id = acc.id
            · have hbeq : b = acc :=
                eq_of_key_eq (fun x => x.id) s.accounts hwf.1 hb
                  haccmem hid2
              subst hbeq
              rw [if_pos rfl] at hfb
              subst hfb
              rw [ownerTxSum_balance_irrel]
              refine hrevfact b hb haccp.1 haccp.2 ?_
              rintro ⟨p1, p2⟩
              rw [hupdacc] at p1
              exact hnonew b hb ⟨p1.symm, p2.symm⟩
            · rw [if_neg hid2] at hfb
              subst hfb
              refine huntouched b hb ?_ ?_
              · rintro ⟨p1, p2⟩
                exact hid2 (haccp.1.trans p1).symm
              · rintro ⟨p1, p2⟩
                rw [hupdacc] at p1
                exact hnonew b hb ⟨p1.symm, p2.symm⟩
          | none =>
            have hnoacc : ∀ c ∈ s.accounts,
                ¬(c.id = oldTx.accountId ∧ c.user = uid) := by
              intro c hc hp
              exact absurd (by simp [hp.1, hp.2] :
                (c.id == oldTx.accountId && c.user == uid) = true)
                (by simpa using List.find?_eq_none.1 hacc c hc)
            simp only [keepIfOk, updateTransaction, hf, hbyid,
              Option.map_some', hreq2, if_neg haid, hnew, hacc,
              Option.map_none']
            refine ⟨hwf1, ?_⟩
            intro b' hb'
            show b'.balance = ownerTxSum (updateFirst
              (fun t => t.id == txId) (fun t => applyUpdate t req)
              s.transactions) b'
            refine huntouched b' hb' ?_ ?_
            · rintro ⟨p1, p2⟩
              exact hnoacc b' hb' ⟨p1.symm, p2.symm⟩
            · rintro ⟨p1, p2⟩
              rw [hupdacc] at p1
              exact hnonew b' hb' ⟨p1.symm, p2.symm⟩

/-- One successfully completed operation preserves well-formedness and
the owner-scoped balance invariant; an operation answered with an error
is not part of a successful sequence and is discarded. -/
theorem applyOp_preserves (s : Store) (op : Op) (hwf : WF s)
    (hinv : BalanceInv s) :
    WF (applyOp s op) ∧ BalanceInv (applyOp s op) := by
  cases op with
  | createTx uid req => exact createTransaction_preserves s uid req hwf hinv
  | updateTx uid txId req =>
    exact updateTransaction_preserves s uid txId req hwf hinv
  | deleteTx uid txId =>
    refine ⟨?_, deleteTransaction_preserves s uid txId hwf hinv⟩
    cases hres : (deleteTransaction s uid txId).2 with
    | ok u =>
      rw [show applyOp s (Op.deleteTx uid txId) =
          keepIfOk s (deleteTransaction s uid txId) from rfl,
        keepIfOk_of_ok s _ u hres]
      exact deleteTransaction_wf s uid txId hwf
    | error e =>
      rw [show applyOp s (Op.deleteTx uid txId) =
          keepIfOk s (deleteTransaction s uid txId) from rfl,
        keepIfOk_of_error s _ e hres]
      exact hwf
  | bulkDelete uid ids =>
    obtain ⟨h1, h2⟩ := bulkDelete_preserves s uid ids hwf hinv
    cases hres : (bulkDeleteTransactions s uid ids).2 with
    | ok n =>
      rw [show applyOp s (Op.bulkDelete uid ids) =
          keepIfOk s (bulkDeleteTransactions s uid ids) from rfl,
        keepIfOk_of_ok s _ n hres]
      exact ⟨h1, h2⟩
    | error e =>
      rw [show applyOp s (Op.bulkDelete uid ids) =
          keepIfOk s (bulkDeleteTransactions s uid ids) from rfl,
        keepIfOk_of_error s _ e hres]
      exact ⟨hwf, hinv⟩
  | deleteAll uid =>
    obtain ⟨h1, h2⟩ := deleteAll_preserves s uid hwf hinv
    cases hres : (deleteAllTransactions s uid).2 with
    | ok n =>
      rw [show applyOp s (Op.deleteAll uid) =
          keepIfOk s (deleteAllTransactions s uid) from rfl,
        keepIfOk_of_ok s _ n hres]
      exact ⟨h1, h2⟩
    | error e =>
      rw [show applyOp s (Op.deleteAll uid) =
          keepIfOk s (deleteAllTransactions s uid) from rfl,
        keepIfOk_of_error s _ e hres]
      exact ⟨hwf, hinv⟩
  | doTransfer uid req now => exact transfer_preserves s uid req now hwf hinv

/-- C1 (amended: the sum must range over the transactions owned by the
account's owner, not over all transactions referencing the account id):
from any well-formed store satisfying the owner-scoped balance
invariant, any sequence of create-transaction, update-transaction,
delete-transaction (single, bulk, or delete-all), and transfer
operations, each of which completes successfully (`applyOp` discards an
operation answered with an error, since a failed save can leave a
partially-mutated store outside the claim's scope), yields a store in
which every account's stored balance equals the sum over the account
owner's transactions referencing that account of +amount for income and
-amount for expense. -/
theorem balance_invariant_preserved (s : Store) (ops : List Op)
    (hwf : WF s) (hinv : BalanceInv s) :
    WF (applyOps s ops) ∧ BalanceInv (applyOps s ops) := by
  induction ops generalizing s with
  | nil => exact ⟨hwf, hinv⟩
  | cons op rest ih =>
    obtain ⟨h1, h2⟩ := applyOp_preserves s op hwf hinv
    exact ih (applyOp s op) h1 h2

/-- A second user's account, referenced by no transaction. -/
def c1Other : Account :=
  { id := 2, user := 2, name := "Other", balance := 0,
    accType := "bank", createdAt := 0 }

/-- Two-user store: user 1 owns `wVault` (balance 100) backed by the
income transaction `wIncomeTx`; user 2 owns `c1Other` (balance 0). -/
def c1Store : Store :=
  { nextId := 20, accounts := [wVault, c1Other],
    transactions := [wIncomeTx] }

/-- Update body re-pointing a transaction at account id 2. -/
def c1Req : TxUpdateReq :=
  { accountId := some 2, amount := none, type := none,
    category := none, description := none, date := none }

/-- C1 counterexample to the literal claim: in `c1Store` every balance
equals the signed sum over all transactions referencing the account, and
the update re-pointing user 1's transaction at user 2's account id
completes successfully, yet afterwards account 2's balance (0) differs
from the signed sum over all transactions referencing it (+100): the
ownership-scoped account lookup fails for the foreign account, so no
forward delta is applied, while `findByIdAndUpdate` still re-points the
transaction record. -/
theorem balance_invariant_counterexample :
    SpecBalanceInv c1Store ∧ WF c1Store ∧ BalanceInv c1Store ∧
    (updateTransaction c1Store 1 10 c1Req).2.isOk = true ∧
    ¬ SpecBalanceInv (updateTransaction c1Store 1 10 c1Req).1 := by
  decide

/-- The amended C1 invariant evaluated on a concrete run: starting from
`c1Store`, a create, the cross-user re-point, a transfer and a single
delete all preserve the owner-scoped invariant. -/
theorem balance_invariant_preserved_witness :
    WF c1Store ∧ BalanceInv c1Store ∧
    BalanceInv (applyOps c1Store
      [Op.createTx 1 wCreateReq, Op.updateTx 1 10 c1Req,
       Op.deleteTx 1 20, Op.deleteAll 2]) :=
  ⟨by decide, by decide,
    (balance_invariant_preserved c1Store
      [Op.createTx 1 wCreateReq, Op.updateTx 1 10 c1Req,
       Op.deleteTx 1 20, Op.deleteAll 2] (by decide) (by decide)).2⟩

/-! ### Cleanup characterisation (C8) -/

theorem firstNames_cons (a : Account) (l : List Account) :
    firstNames (a :: l) =
      a.name :: (firstNames l).filter (fun n => n ≠ a.name) := rfl

theorem mem_firstNames (l : List Account) (n : String) :
    n ∈ firstNames l ↔ ∃ a ∈ l, a.name = n := by
  induction l with
  | nil => simp [firstNames]
  | cons a as ih =>
    rw [firstNames_cons]
    simp only [List.mem_cons, List.mem_filter]
    constructor
    · rintro (rfl | ⟨h1, _⟩)
      · exact ⟨a, Or.inl rfl, rfl⟩
      · obtain ⟨b, hb, hbn⟩ := ih.1 h1
        exact ⟨b, Or.inr hb, hbn⟩
    · rintro ⟨b, hb, rfl⟩
      rcases hb with rfl | hb'
      · exact Or.inl rfl
      · by_cases he : b.name = a.name
        · exact Or.inl he
        · exact Or.inr ⟨ih.2 ⟨b, hb', rfl⟩, by simpa using he⟩

theorem firstNames_nodup (l : List Account) : (firstNames l).Nodup := by
  induction l with
  | nil => simp [firstNames]
  | cons a as ih =>
    rw [firstNames_cons]
    refine List.Nodup.cons (fun hmem => ?_) (ih.filter _)
    have := (List.mem_filter.1 hmem).2
    simp at this

theorem mem_nameGroup (l : List Account) (n : String) (a : Account) :
    a ∈ nameGroup l n ↔ a ∈ l ∧ a.name = n := by
  simp [nameGroup]

theorem mem_foldr_append {α β : Type} (f : α → List β) (l : List α)
    (x : β) : x ∈ l.foldr (fun n acc => f n ++ acc) [] ↔
      ∃ n ∈ l, x ∈ f n := by
  induction l with
  | nil => simp
  | cons a as ih => simp [ih]

theorem cleanupRemovedIds_eq (l : List Account) :
    cleanupRemovedIds l = (firstNames l).foldr (fun n acc =>
      (nameGroup l n).tail.map (fun a => a.id) ++ acc) [] := by
  have hf : (fun (n : String) (acc : List Nat) =>
      (match nameGroup l n with
       | [] => ([] : List Nat)
       | _ :: rest => rest.map (fun a => a.id)) ++ acc) =
      (fun n acc =>
        (nameGroup l n).tail.map (fun a => a.id) ++ acc) := by
    funext n acc
    cases nameGroup l n <;> rfl
  rw [cleanupRemovedIds, hf]

theorem nameGroup_sorted (l : List Account) (n : String)
    (h : l.Pairwise (fun a b => a.createdAt ≤ b.createdAt)) :
    (nameGroup l n).Pairwise (fun a b => a.createdAt ≤ b.createdAt) :=
  List.Pairwise.sublist (List.filter_sublist l) h

theorem nameGroup_nodup (l : List Account) (n : String)
    (h : l.Nodup) : (nameGroup l n).Nodup :=
  List.Nodup.sublist (List.filter_sublist l) h

/-- Membership in the removed-id list: under sortedness, id-uniqueness
and absence of `createdAt` ties within a name group, an id is removed
exactly when its account has a strictly older same-name sibling. -/
theorem mem_cleanupRemovedIds (l : List Account) (x : Nat)
    (hsorted : l.Pairwise (fun a b => a.createdAt ≤ b.createdAt))
    (hids : (l.map (fun a => a.id)).Nodup)
    (hties : ∀ a ∈ l, ∀ b ∈ l, a.name = b.name →
      a.createdAt = b.createdAt → a = b) :
    x ∈ cleanupRemovedIds l ↔
      ∃ a ∈ l, a.id = x ∧ ∃ b ∈ l, b.name = a.name ∧
        b.createdAt < a.createdAt := by
  have hlnodup : l.Nodup := hids.of_map
  rw [cleanupRemovedIds_eq,
    mem_foldr_append (fun n => (nameGroup l n).tail.map (fun a => a.id))]
  constructor
  · rintro ⟨n, hn, hx⟩
    cases hg : nameGroup l n with
    | nil => rw [hg] at hx; cases hx
    | cons k rest =>
      rw [hg] at hx
      obtain ⟨a, ha, rfl⟩ := List.mem_map.1 hx
      have hag : a ∈ nameGroup l n := by
        rw [hg]; exact List.mem_cons_of_mem k ha
      have hkg : k ∈ nameGroup l n := by
        rw [hg]; exact List.mem_cons_self k rest
      obtain ⟨hal, han⟩ := (mem_nameGroup l n a).1 hag
      obtain ⟨hkl, hkn⟩ := (mem_nameGroup l n k).1 hkg
      have hgs := nameGroup_sorted l n hsorted
      rw [hg] at hgs
      have hle : k.createdAt ≤ a.createdAt :=
        (List.pairwise_cons.1 hgs).1 a ha
      have hgnd := nameGroup_nodup l n hlnodup
      rw [hg] at hgnd
      have hka : k ≠ a := by
        intro he
        exact (List.nodup_cons.1 hgnd).1 (he ▸ ha)
      refine ⟨a, hal, rfl, k, hkl, hkn.trans han.symm, ?_⟩
      rcases Nat.lt_or_ge k.createdAt a.createdAt with h | h
      · exact h
      · exact absurd (hties k hkl a hal (hkn.trans han.symm)
          (Nat.le_antisymm hle h)) hka
  · rintro ⟨a, hal, rfl, b, hbl, hbn, hblt⟩
    refine ⟨a.name, (mem_firstNames l a.name).2 ⟨a, hal, rfl⟩, ?_⟩
    have hag : a ∈ nameGroup l a.name :=
      (mem_nameGroup l a.name a).2 ⟨hal, rfl⟩
    have hbg : b ∈ nameGroup l a.name :=
      (mem_nameGroup l a.name b).2 ⟨hbl, hbn⟩
    cases hg : nameGroup l a.name with
    | nil => rw [hg] at hag; cases hag
    | cons k rest =>
      rw [hg] at hag hbg
      have hgs := nameGroup_sorted l a.name hsorted
      rw [hg] at hgs
      have hkb : k.createdAt ≤ b.createdAt := by
        rcases List.mem_cons.1 hbg with rfl | hbr
        · exact Nat.le_refl _
        · exact (List.pairwise_cons.1 hgs).1 b hbr
      have hka : k.createdAt < a.createdAt := Nat.lt_of_le_of_lt hkb hblt
      rcases List.mem_cons.1 hag with rfl | har
      · exact absurd hka (Nat.lt_irrefl _)
      · exact List.mem_map.2 ⟨a, har, rfl⟩

theorem cleanupRemovedIds_nodup (l : List Account)
    (hids : (l.map (fun a => a.id)).Nodup) :
    (cleanupRemovedIds l).Nodup := by
  have hinj : ∀ a ∈ l, ∀ b ∈ l, a.id = b.id → a = b :=
    fun a ha b hb h => eq_of_key_eq (fun x => x.id) l hids ha hb h
  rw [cleanupRemovedIds_eq]
  have key : ∀ L : List String, L.Nodup →
      (L.foldr (fun n acc =>
        (nameGroup l n).tail.map (fun a => a.id) ++ acc) []).Nodup := by
    intro L hL
    induction L with
    | nil => simp
    | cons n ns ih =>
      simp only [List.foldr_cons]
      refine List.Nodup.append ?_ (ih (List.nodup_cons.1 hL).2) ?_
      · refine List.Nodup.sublist ?_ hids
        exact List.Sublist.map _
          ((List.tail_sublist _).trans (List.filter_sublist l))
      · intro x hx1 hx2
        obtain ⟨a, ha, rfl⟩ := List.mem_map.1 hx1
        have hag : a ∈ nameGroup l n :=
          List.mem_of_mem_tail ha
        obtain ⟨hal, han⟩ := (mem_nameGroup l n a).1 hag
        obtain ⟨m, hm, hxm⟩ := (mem_foldr_append
          (fun n => (nameGroup l n).tail.map (fun a => a.id)) ns _).1 hx2
        obtain ⟨b, hb, hba⟩ := List.mem_map.1 hxm
        have hbg : b ∈ nameGroup l m := List.mem_of_mem_tail hb
        obtain ⟨hbl, hbm⟩ := (mem_nameGroup l m b).1 hbg
        have hab : a = b := hinj a hal b hbl hba.symm
        have : n = m := by rw [← han, hab, hbm]
        exact (List.nodup_cons.1 hL).1 (this ▸ hm)
  exact key (firstNames l) (firstNames_nodup l)

theorem length_filter_mem_eq (K : List Nat) (l : List Account)
    (hK : K.Nodup) (hl : (l.map (fun a => a.id)).Nodup)
    (hsub : ∀ x ∈ K, ∃ a ∈ l, a.id = x) :
    (l.filter (fun a => K.contains a.id)).length = K.length := by
  have h1 : ((l.filter (fun a => K.contains a.id)).map
      (fun a => a.id)).Nodup :=
    List.Nodup.sublist (List.Sublist.map _ (List.filter_sublist l)) hl
  have h2 : ∀ x, (x ∈ (l.filter (fun a => K.contains a.id)).map
      (fun a => a.id)) ↔ x ∈ K := by
    intro x
    simp only [List.mem_map, List.mem_filter]
    constructor
    · rintro ⟨a, ⟨hal, haK⟩, rfl⟩
      simpa using haK
    · intro hxK
      obtain ⟨a, hal, rfl⟩ := hsub x hxK
      exact ⟨a, ⟨hal, by simpa using hxK⟩, rfl⟩
  have hperm : List.Perm ((l.filter (fun a => K.contains a.id)).map
      (fun a => a.id)) K :=
    List.perm_of_nodup_nodup_toFinset_eq h1 hK
      (by ext x; simp only [List.mem_toFinset]; exact h2 x)
  calc (l.filter (fun a => K.contains a.id)).length
      = ((l.filter (fun a => K.contains a.id)).map
          (fun a => a.id)).length := (List.length_map _ _).symm
    _ = K.length := hperm.length_eq

theorem length_filter_not_add {α : Type} (l : List α) (p : α → Bool) :
    (l.filter p).length + (l.filter (fun a => !p a)).length =
      l.length := by
  induction l with
  | nil => rfl
  | cons a as ih =>
    cases h : p a <;> simp [List.filter_cons, h] <;> omega

theorem one_lt_length_of_two_mem {α : Type} (g : List α) (a b : α)
    (ha : a ∈ g) (hb : b ∈ g) (hne : a ≠ b) : 1 < g.length := by
  cases g with
  | nil => cases ha
  | cons x rest =>
    cases rest with
    | nil =>
      simp only [List.mem_singleton] at ha hb
      exact absurd (ha.trans hb.symm) hne
    | cons y r => simp [Nat.lt_add_of_pos_left]

theorem mem_sortedUserAccounts (s : Store) (uid : Nat) (a : Account) :
    a ∈ sortedUserAccounts s uid ↔ a ∈ s.accounts ∧ a.user = uid := by
  rw [sortedUserAccounts, List.mem_mergeSort]
  simp [List.mem_filter]

theorem sortedUserAccounts_sorted (s : Store) (uid : Nat) :
    (sortedUserAccounts s uid).Pairwise
      (fun a b => a.createdAt ≤ b.createdAt) := by
  have h : (List.mergeSort (s.accounts.filter (fun a => a.user == uid))
      (fun a b => decide (a.createdAt ≤ b.createdAt))).Pairwise
      (fun a b => decide (a.createdAt ≤ b.createdAt) = true) :=
    List.sorted_mergeSort
      (by
        intro a b c hab hbc
        simp only [decide_eq_true_eq] at *
        exact Nat.le_trans hab hbc)
      (by
        intro a b
        simp only [Bool.or_eq_true, decide_eq_true_eq]
        exact Nat.le_total _ _)
      _
  exact h.imp (fun hab => of_decide_eq_true hab)

theorem sortedUserAccounts_ids_nodup (s : Store) (uid : Nat)
    (hwf : WF s) :
    ((sortedUserAccounts s uid).map (fun a => a.id)).Nodup := by
  have hperm := List.mergeSort_perm
    (s.accounts.filter (fun a => a.user == uid))
    (fun a b => a.createdAt ≤ b.createdAt)
  refine (List.Perm.nodup_iff (hperm.map (fun a => a.id))).2 ?_
  exact List.Nodup.sublist
    (List.Sublist.map _ (List.filter_sublist s.accounts)) hwf.1

theorem exists_two_of_one_lt {α : Type} (g : List α) (hg : g.Nodup)
    (h : 1 < g.length) : ∃ a ∈ g, ∃ b ∈ g, a ≠ b := by
  cases g with
  | nil => simp at h
  | cons a rest =>
    cases rest with
    | nil => simp at h
    | cons b r =>
      refine ⟨a, List.mem_cons_self _ _, b,
        List.mem_cons_of_mem a (List.mem_cons_self _ _), ?_⟩
      intro he
      exact (List.nodup_cons.1 hg).1 (he ▸ List.mem_cons_self b r)

/-- C8: the duplicate-account cleanup characterised. Assuming
well-formedness and that the caller's same-name accounts have pairwise
distinct creation times (so "the oldest" is well defined): an account
survives iff it is not a caller-owned account with a strictly older
caller-owned same-name sibling (so each duplicated name keeps exactly its
oldest account); a transaction survives iff it does not reference a
removed duplicate; the reported count is the number of accounts removed;
and the reported affected names are exactly the names the caller holds on
more than one account. -/
theorem cleanup_spec (s : Store) (uid : Nat) (hwf : WF s)
    (hdist : ∀ a ∈ s.accounts, ∀ b ∈ s.accounts, a.user = uid →
      b.user = uid → a.name = b.name → a.createdAt = b.createdAt →
      a = b) :
    (∀ a ∈ s.accounts, (a ∈ (cleanupAccounts s uid).1.accounts ↔
      ¬(a.user = uid ∧ ∃ b ∈ s.accounts, b.user = uid ∧
        b.name = a.name ∧ b.createdAt < a.createdAt))) ∧
    (∀ t ∈ s.transactions, (t ∈ (cleanupAccounts s uid).1.transactions ↔
      ¬∃ a ∈ s.accounts, a.id = t.accountId ∧ a.user = uid ∧
        ∃ b ∈ s.accounts, b.user = uid ∧ b.name = a.name ∧
          b.createdAt < a.createdAt)) ∧
    (cleanupAccounts s uid).2.1 =
      s.accounts.length - (cleanupAccounts s uid).1.accounts.length ∧
    (∀ n : String, n ∈ (cleanupAccounts s uid).2.2 ↔
      ∃ a ∈ s.accounts, ∃ b ∈ s.accounts, a ≠ b ∧ a.user = uid ∧
        b.user = uid ∧ a.name = n ∧ b.name = n) := by
  have hsorted := sortedUserAccounts_sorted s uid
  have hids := sortedUserAccounts_ids_nodup s uid hwf
  have hmeml : ∀ a : Account, a ∈ sortedUserAccounts s uid ↔
      a ∈ s.accounts ∧ a.user = uid := mem_sortedUserAccounts s uid
  have hties : ∀ a ∈ sortedUserAccounts s uid,
      ∀ b ∈ sortedUserAccounts s uid, a.name = b.name →
      a.createdAt = b.createdAt → a = b := by
    intro a ha b hb
    obtain ⟨ha1, ha2⟩ := (hmeml a).1 ha
    obtain ⟨hb1, hb2⟩ := (hmeml b).1 hb
    exact hdist a ha1 b hb1 ha2 hb2
  have hrem := fun x => mem_cleanupRemovedIds (sortedUserAccounts s uid)
    x hsorted hids hties
  have hainj : ∀ a ∈ s.accounts, ∀ b ∈ s.accounts, a.id = b.id →
      a = b :=
    fun a ha b hb h => eq_of_key_eq (fun x => x.id) s.accounts hwf.1
      ha hb h
  have hremS : ∀ x : Nat,
      x ∈ cleanupRemovedIds (sortedUserAccounts s uid) ↔
      ∃ a ∈ s.accounts, a.id = x ∧ a.user = uid ∧
        ∃ b ∈ s.accounts, b.user = uid ∧ b.name = a.name ∧
          b.createdAt < a.createdAt := by
    intro x
    rw [hrem x]
    constructor
    · rintro ⟨a, hal, rfl, b, hbl, hbn, hbc⟩
      obtain ⟨ha1, ha2⟩ := (hmeml a).1 hal
      obtain ⟨hb1, hb2⟩ := (hmeml b).1 hbl
      exact ⟨a, ha1, rfl, ha2, b, hb1, hb2, hbn, hbc⟩
    · rintro ⟨a, ha1, rfl, ha2, b, hb1, hb2, hbn, hbc⟩
      exact ⟨a, (hmeml a).2 ⟨ha1, ha2⟩, rfl,
        b, (hmeml b).2 ⟨hb1, hb2⟩, hbn, hbc⟩
  have hmemacc : ∀ a : Account,
      a ∈ (cleanupAccounts s uid).1.accounts ↔ a ∈ s.accounts ∧
        ¬(a.id ∈ cleanupRemovedIds (sortedUserAccounts s uid)) := by
    intro a
    show a ∈ s.accounts.filter (fun a =>
      !((cleanupRemovedIds (sortedUserAccounts s uid)).contains a.id)) ↔ _
    rw [List.mem_filter]
    simp
  have hmemtx : ∀ t : Transaction,
      t ∈ (cleanupAccounts s uid).1.transactions ↔
        t ∈ s.transactions ∧
        ¬(t.accountId ∈ cleanupRemovedIds (sortedUserAccounts s uid)) := by
    intro t
    show t ∈ s.transactions.filter (fun t =>
      !((cleanupRemovedIds (sortedUserAccounts s uid)).contains
        t.accountId)) ↔ _
    rw [List.mem_filter]
    simp
  refine ⟨?_, ?_, ?_, ?_⟩
  · intro a ha
    rw [hmemacc a]
    constructor
    · rintro ⟨_, hnot⟩ ⟨hu, b, hb, hbu, hbn, hbc⟩
      exact hnot ((hremS a.id).2 ⟨a, ha, rfl, hu, b, hb, hbu, hbn, hbc⟩)
    · intro hno
      refine ⟨ha, fun hin => ?_⟩
      obtain ⟨a', ha', hid, hu', b, hb1, hb2, hbn, hbc⟩ :=
        (hremS a.id).1 hin
      have he : a' = a := hainj a' ha' a ha hid
      subst he
      exact hno ⟨hu', b, hb1, hb2, hbn, hbc⟩
  · intro t ht
    rw [hmemtx t]
    constructor
    · rintro ⟨_, hnot⟩ ⟨a, ha, h1, h2, b, hb1, hb2, hbn, hbc⟩
      exact hnot ((hremS t.accountId).2
        ⟨a, ha, h1, h2, b, hb1, hb2, hbn, hbc⟩)
    · intro hno
      refine ⟨ht, fun hin => ?_⟩
      exact hno ((hremS t.accountId).1 hin)
  · show (cleanupRemovedIds (sortedUserAccounts s uid)).length =
      s.accounts.length - (s.accounts.filter (fun a =>
        !((cleanupRemovedIds (sortedUserAccounts s uid)).contains
          a.id))).length
    have hsplit := length_filter_not_add s.accounts (fun a =>
      (cleanupRemovedIds (sortedUserAccounts s uid)).contains a.id)
    have hcount := length_filter_mem_eq
      (cleanupRemovedIds (sortedUserAccounts s uid)) s.accounts
      (cleanupRemovedIds_nodup (sortedUserAccounts s uid) hids) hwf.1
      (fun x hx => by
        obtain ⟨a, hal, hid, _⟩ := (hrem x).1 hx
        exact ⟨a, ((hmeml a).1 hal).1, hid⟩)
    omega
  · intro n
    have hlnodup : (sortedUserAccounts s uid).Nodup := hids.of_map
    show n ∈ (firstNames (sortedUserAccounts s uid)).filter
      (fun n => 1 < (nameGroup (sortedUserAccounts s uid) n).length) ↔ _
    rw [List.mem_filter]
    constructor
    · rintro ⟨hfn, hlen⟩
      have hlen' : 1 < (nameGroup (sortedUserAccounts s uid) n).length :=
        by simpa using hlen
      obtain ⟨a, hag, b, hbg, hne⟩ := exists_two_of_one_lt _
        (nameGroup_nodup _ n hlnodup) hlen'
      obtain ⟨hal, han⟩ := (mem_nameGroup _ n a).1 hag
      obtain ⟨hbl, hbn⟩ := (mem_nameGroup _ n b).1 hbg
      obtain ⟨ha1, ha2⟩ := (hmeml a).1 hal
      obtain ⟨hb1, hb2⟩ := (hmeml b).1 hbl
      exact ⟨a, ha1, b, hb1, hne, ha2, hb2, han, hbn⟩
    · rintro ⟨a, ha1, b, hb1, hne, ha2, hb2, han, hbn⟩
      have hal : a ∈ sortedUserAccounts s uid := (hmeml a).2 ⟨ha1, ha2⟩
      have hbl : b ∈ sortedUserAccounts s uid := (hmeml b).2 ⟨hb1, hb2⟩
      refine ⟨(mem_firstNames _ n).2 ⟨a, hal, han⟩, ?_⟩
      have := one_lt_length_of_two_mem
        (nameGroup (sortedUserAccounts s uid) n) a b
        ((mem_nameGroup _ n a).2 ⟨hal, han⟩)
        ((mem_nameGroup _ n b).2 ⟨hbl, hbn⟩) hne
      simpa using this

/-- User 1's oldest "Vault" account. -/
def c8A1 : Account :=
  { id := 1, user := 1, name := "Vault", balance := 10,
    accType := "bank", createdAt := 1 }

/-- A later duplicate "Vault" account. -/
def c8A2 : Account :=
  { id := 2, user := 1, name := "Vault", balance := 20,
    accType := "bank", createdAt := 2 }

/-- The latest duplicate "Vault" account. -/
def c8A3 : Account :=
  { id := 3, user := 1, name := "Vault", balance := 30,
    accType := "bank", createdAt := 3 }

/-- A uniquely named account of the same user. -/
def c8A4 : Account :=
  { id := 4, user := 1, name := "Checking", balance := 5,
    accType := "bank", createdAt := 4 }

/-- Another user's account, not touched by user 1's cleanup. -/
def c8A5 : Account :=
  { id := 5, user := 2, name := "Vault", balance := 7,
    accType := "bank", createdAt := 1 }

/-- Store with a triplicated "Vault" for user 1 (collection order is not
creation order) and transactions on the kept account, on a duplicate, and
on the other user's account. -/
def c8Store : Store :=
  { nextId := 50, accounts := [c8A2, c8A4, c8A1, c8A3, c8A5],
    transactions :=
      [{ id := 40, user := 1, accountId := 2, amount := 20,
         type := .income, category := "Salary", description := "",
         date := 2 },
       { id := 41, user := 1, accountId := 1, amount := 10,
         type := .income, category := "Salary", description := "",
         date := 1 },
       { id := 42, user := 2, accountId := 5, amount := 7,
         type := .income, category := "Salary", description := "",
         date := 1 }] }

/-- The sorted scan of user 1's accounts in `c8Store`. -/
theorem c8_sorted_eval :
    sortedUserAccounts c8Store 1 = [c8A1, c8A2, c8A3, c8A4] := by
  simp [sortedUserAccounts, c8Store, List.mergeSort, List.merge,
    c8A1, c8A2, c8A3, c8A4, c8A5]

/-- `cleanup_spec` evaluated on `c8Store`: the hypotheses hold there,
cleanup removes the two later "Vault" duplicates (reporting count 2 and
affected name "Vault"), and the reported count equals the number of
accounts removed. -/
theorem cleanup_spec_witness :
    WF c8Store ∧
    (∀ a ∈ c8Store.accounts, ∀ b ∈ c8Store.accounts, a.user = 1 →
      b.user = 1 → a.name = b.name → a.createdAt = b.createdAt →
      a = b) ∧
    (cleanupAccounts c8Store 1).2 = (2, ["Vault"]) ∧
    (cleanupAccounts c8Store 1).2.1 =
      c8Store.accounts.length -
        (cleanupAccounts c8Store 1).1.accounts.length :=
  ⟨by decide, by decide,
    by
      rw [show (cleanupAccounts c8Store 1).2 =
        ((cleanupRemovedIds (sortedUserAccounts c8Store 1)).length,
          cleanupAffectedNames (sortedUserAccounts c8Store 1)) from rfl,
        c8_sorted_eval]
      decide,
    (cleanup_spec c8Store 1 (by decide) (by decide)).2.2.1⟩
